import Mathlib

/-!
HPNum : the message-passing communicator (`libparallel`).

Shallow embedding of `Parallel::Communicator::Implementation` and of its
container specialisation `Communication<K, true>` (file
`parallel/communicator_mpi.tpp`), of the constructors of
`parallel/communicator.cpp`, and of the scenarios of
`test/test_communicator.cpp` and `test/test_parallelmatrixmatrixproduct.cpp`.

The messaging substrate (MPI) is not code of the repository.  Its primitives
are modelled by the definitions whose names start with `MPI_`; each of them
states the behaviour it assumes.  Containers are lists of elements; a
`std::vector` is a container whose storage can be handed to the substrate
directly (`isVector = true`, the test
`std::is_base_of<std::vector<...>, K>::value` of the source), any other
sequence (such as `std::list`) goes through a temporary vector.

The file also embeds the utilities the communicator is used with: the context
(`parallel/context_mpi.cpp`), the chronometers and the multi-timer of `libcore`,
the logger and its root-only listener, the integer ranges of `core/range.hpp`,
the wrappers of Lapack, and the bounding boxes and kd-trees of `libgeometry`.
Times and coordinates are values of any arithmetic; a model of the rounding
arithmetic of `double` is given for the examples that depend on rounding.
-/

namespace Parallel

/-! ## Wire representation -/

/-- Entry `Type_MPI<K>` of the wire-type registry for an element type `K`.
The registry (`parallel/constantes.hpp`) is not among the sources; what the
communicator uses of it is taken as data: `must_be_packed()`, `sizeof(K)` and
the extent in bytes of `mpi_type()`.  A type that is not packed maps onto a
primitive wire type, whose extent is the size of the element. -/
structure Type_MPI where
  must_be_packed : Bool
  sizeofK : Nat
  mpi_type_extent : Nat
  sizeof_pos : 0 < sizeofK
  native_extent : must_be_packed = false → mpi_type_extent = sizeofK

/-- The datatype argument of a substrate call: `MPI_BYTE` or
`Type_MPI<K>::mpi_type()`. -/
inductive Datatype where
  | MPI_BYTE
  | mpi_type
  deriving DecidableEq, Repr

/-- Extent in bytes of one unit of a datatype. -/
def Datatype.extent (T : Type_MPI) : Datatype → Nat
  | .MPI_BYTE => 1
  | .mpi_type => T.mpi_type_extent

/-- Product of two `std::size_t` values (64-bit unsigned arithmetic). -/
def size_t_mul (a b : Nat) : Nat := (a * b) % 2 ^ 64

/-- Conversion of a `std::size_t` to the `int count` parameter of the
substrate: the low 32 bits, read as a two's-complement number. -/
def to_int (n : Nat) : Int :=
  if n % 2 ^ 32 < 2 ^ 31 then ((n % 2 ^ 32 : Nat) : Int)
  else ((n % 2 ^ 32 : Nat) : Int) - 2 ^ 32

/-- The `(count, datatype)` pair of a substrate call. -/
structure Posted where
  count : Int
  datatype : Datatype
  deriving DecidableEq, Repr

/-- Number of whole elements of `K` that a posted `(count, datatype)` covers. -/
def Posted.elements (T : Type_MPI) (p : Posted) : Nat :=
  p.count.toNat * p.datatype.extent T / T.sizeofK

/-- The pair every point-to-point and broadcast path of the source computes
for a buffer of `n` elements:
`must_be_packed() ? (n * sizeof(K), MPI_BYTE) : (n, mpi_type())`. -/
def count_and_type (T : Type_MPI) (n : Nat) : Posted :=
  if T.must_be_packed then
    { count := to_int (size_t_mul n T.sizeofK), datatype := .MPI_BYTE }
  else
    { count := to_int n, datatype := .mpi_type }

/-- The count of a buffer of `n` elements is representable by the `int`
parameter of the substrate. -/
def Type_MPI.fits (T : Type_MPI) (n : Nat) : Prop :=
  (if T.must_be_packed then n * T.sizeofK else n) < 2 ^ 31

instance (T : Type_MPI) (n : Nat) : Decidable (T.fits n) := by
  unfold Type_MPI.fits; exact inferInstance

/-! ## Containers -/

/-- The effect of `std::copy(src.begin(), src.end(), dst.begin())` on `dst` when
`src` is not longer than `dst`: the leading elements are overwritten. -/
def overwrite {α : Type} (src dst : List α) : List α :=
  src ++ dst.drop src.length

/-- The call `std::copy(src.begin(), src.end(), dst.begin())`: writing past the
end of `dst` is undefined behaviour (`none`). -/
def std_copy {α : Type} (src dst : List α) : Option (List α) :=
  if src.length ≤ dst.length then some (overwrite src dst) else none

/-- The pointer argument `const K* obj_snd` of a collective on containers,
relative to the destination `K& obj_rcv`: null, the address of the destination
itself, or another object. -/
inductive SndPtr (α : Type) where
  | nullptr
  | same
  | other (v : List α)
  deriving Repr

/-! ## Broadcast -/

/-- Substrate model of `MPI_Bcast(buf, count, datatype, root, com)`.  `wire` is
the content the root transmits.  On the root the buffer is left as it is; on
another rank the leading elements of the buffer are overwritten, never more
than the posted count covers and never past the end of the buffer (the
standard requires equal counts on every rank; with unequal counts the common
prefix is delivered, and the buffer never changes its size). -/
def MPI_Bcast {α : Type} (T : Type_MPI) (wire : List α) (isRoot : Bool)
    (buf : List α) (p : Posted) : List α :=
  if isRoot then buf
  else overwrite (wire.take (min (p.elements T) buf.length)) buf

/-- What a rank transmits when it is the root of `MPI_Bcast`. -/
def MPI_Bcast_wire {α : Type} (T : Type_MPI) (buf : List α) (p : Posted) : List α :=
  buf.take (p.elements T)

/-- `Communication<K,false>::broadcast` (one object), on one rank.
`obj_snd` is the pointee of the pointer argument (`none` for `nullptr`);
`wire` is what the root of the collective transmits.  Dereferencing a null
pointer on the root is undefined (`none`). -/
def Communication.broadcast {α : Type} (T : Type_MPI) (rank root : Nat)
    (obj_snd : Option α) (obj_rcv : α) (wire : List α) : Option α := do
  let obj_rcv ← if root == rank then obj_snd else some obj_rcv
  let p : Posted :=
    if T.must_be_packed then { count := to_int T.sizeofK, datatype := .MPI_BYTE }
    else { count := 1, datatype := .mpi_type }
  match MPI_Bcast T wire (root == rank) [obj_rcv] p with
  | y :: _ => some y
  | [] => some obj_rcv

/-- What the root of `Communication<K,false>::broadcast` puts on the wire. -/
def Communication.broadcast_wire {α : Type} (T : Type_MPI) (obj_snd : Option α) :
    Option (List α) := do
  let obj_rcv ← obj_snd
  let p : Posted :=
    if T.must_be_packed then { count := to_int T.sizeofK, datatype := .MPI_BYTE }
    else { count := 1, datatype := .mpi_type }
  some (MPI_Bcast_wire T [obj_rcv] p)

/-- Local variables of `Communication<K,true>::broadcast` when it reaches
`MPI_Bcast`: the destination container and, for a container that is not a
vector, the temporary vector `rcv` (for a vector `rcv` is the destination). -/
structure BcastFrame (α : Type) where
  obj_rcv : List α
  temp : Option (List α)
  deriving Repr

/-- The vector `*rcv` whose `data()` is handed to the substrate. -/
def BcastFrame.rcv {α : Type} (f : BcastFrame α) : List α :=
  f.temp.getD f.obj_rcv

/-- `Communication<K,true>::broadcast` up to the call of `MPI_Bcast`. -/
def CommunicationContainer.broadcast_enter {α : Type} [Inhabited α] (isVector : Bool)
    (rank root : Nat) (obj_snd : SndPtr α) (obj_rcv : List α) : Option (BcastFrame α) := do
  -- szMsg = (obj_snd != nullptr ? obj_snd->size() : obj_rcv.size())
  let szMsg : Nat :=
    match obj_snd with
    | .nullptr => obj_rcv.length
    | .same => obj_rcv.length
    | .other v => v.length
  let f : BcastFrame α ←
    if isVector then
      if szMsg > obj_rcv.length then
        -- std::vector(obj_snd->size()).swap(*rcv)
        match obj_snd with
        | .other v => some { obj_rcv := List.replicate v.length default, temp := none }
        | .same => some { obj_rcv := List.replicate obj_rcv.length default, temp := none }
        | .nullptr => none
      else some { obj_rcv := obj_rcv, temp := none }
    else
      -- rcv = new std::vector(szMsg)
      some { obj_rcv := obj_rcv, temp := some (List.replicate szMsg default) }
  -- if ((root == rank) && (&obj_rcv != obj_snd)) std::copy(obj_snd->begin(), obj_snd->end(), obj_rcv.begin())
  match root == rank, obj_snd with
  | true, .nullptr => none
  | true, .other v => do
      let r ← std_copy v f.obj_rcv
      some { f with obj_rcv := r }
  | _, _ => some f

/-- `Communication<K,true>::broadcast` from the call of `MPI_Bcast` on: the
substrate writes into `*rcv`; for a container that is not a vector the source
then runs `std::copy(obj_rcv.begin(), obj_rcv.end(), rcv->begin())` and deletes
`rcv`.  The result is the destination container. -/
def CommunicationContainer.broadcast_leave {α : Type} (T : Type_MPI) (isVector : Bool)
    (rank root : Nat) (f : BcastFrame α) (wire : List α) : Option (List α) := do
  let rcv := MPI_Bcast T wire (root == rank) f.rcv (count_and_type T f.rcv.length)
  if isVector then
    some rcv
  else
    let _ ← std_copy f.obj_rcv rcv
    some f.obj_rcv

/-- `Communication<K,true>::broadcast` on one rank, `wire` being what the root
transmits. -/
def CommunicationContainer.broadcast {α : Type} [Inhabited α] (T : Type_MPI)
    (isVector : Bool) (rank root : Nat) (obj_snd : SndPtr α) (obj_rcv : List α)
    (wire : List α) : Option (List α) := do
  let f ← CommunicationContainer.broadcast_enter isVector rank root obj_snd obj_rcv
  CommunicationContainer.broadcast_leave T isVector rank root f wire

/-- What the root of `Communication<K,true>::broadcast` puts on the wire: the
leading `rcv->size()` elements of `*rcv` at the call of `MPI_Bcast`. -/
def CommunicationContainer.broadcast_wire {α : Type} [Inhabited α] (T : Type_MPI)
    (isVector : Bool) (root : Nat) (obj_snd : SndPtr α) (obj_rcv : List α) :
    Option (List α) := do
  let f ← CommunicationContainer.broadcast_enter isVector root root obj_snd obj_rcv
  some (MPI_Bcast_wire T f.rcv (count_and_type T f.rcv.length))

/-- The arguments one rank passes to the broadcast of a container. -/
structure BcastArgs (α : Type) where
  obj_snd : SndPtr α
  obj_rcv : List α

/-- The collective broadcast of one object over a group: every rank calls
`Communication<K,false>::broadcast` with its own arguments; the result is the
destination object of rank `rank`. -/
def bcast_scalar {α : Type} (T : Type_MPI) (root : Nat)
    (args : Nat → Option α × α) (rank : Nat) : Option α := do
  let wire ← Communication.broadcast_wire T (args root).1
  Communication.broadcast T rank root (args rank).1 (args rank).2 wire

/-- The collective broadcast of a container over a group: every rank calls
`Communication<K,true>::broadcast` with its own arguments; the result is the
destination container of rank `rank`. -/
def bcast_container {α : Type} [Inhabited α] (T : Type_MPI) (isVector : Bool) (root : Nat)
    (args : Nat → BcastArgs α) (rank : Nat) : Option (List α) := do
  let wire ← CommunicationContainer.broadcast_wire T isVector root
    (args root).obj_snd (args root).obj_rcv
  CommunicationContainer.broadcast T isVector rank root (args rank).obj_snd
    (args rank).obj_rcv wire

/-- The registry entry of `int`: a native 4-byte wire type. -/
def Type_MPI.int : Type_MPI :=
  { must_be_packed := false, sizeofK := 4, mpi_type_extent := 4,
    sizeof_pos := by decide, native_extent := fun _ => rfl }

/-- A registry entry of a packed 12-byte element type whose `mpi_type()` is a
one-byte unit (as `MPI_PACKED` and `MPI_BYTE` are). -/
def Type_MPI.packed12 : Type_MPI :=
  { must_be_packed := true, sizeofK := 12, mpi_type_extent := 1,
    sizeof_pos := by decide, native_extent := by simp }

/-- A non-root destination vector that has the length `L` when it reaches the
substrate: it has `L` elements and the rank passes no (longer) source of its
own, or the rank passes a source of its own and the larger of the two lengths
is `L` (the destination is then grown to the length of that source). -/
def sized_for {α : Type} (L : Nat) (a : BcastArgs α) : Prop :=
  match a.obj_snd with
  | .other v => max v.length a.obj_rcv.length = L
  | _ => a.obj_rcv.length = L

/-- The arguments of the root: it broadcasts `src` either in place
(`bcast(src, src)`) or into a distinct destination that is not longer than
`src`. -/
def root_sends {α : Type} (src : List α) (a : BcastArgs α) : Prop :=
  match a.obj_snd with
  | .same => a.obj_rcv = src
  | .other v => v = src ∧ a.obj_rcv.length ≤ src.length
  | .nullptr => False

/-! ## Blocking point-to-point operations on containers -/

/-- What a send of `buf` with the posted `(count, datatype)` puts on the wire:
the leading elements the count covers. -/
def MPI_Send_wire {α : Type} (T : Type_MPI) (buf : List α) (p : Posted) : List α :=
  buf.take (p.elements T)

/-- Substrate model of `MPI_Probe` followed by
`MPI_Get_count(&status, Type_MPI<K>::mpi_type(), &szMsg)` for the pending
message `msg` (`msg.length` elements of `sizeof(K)` bytes): the number of units
of `mpi_type()` in the message.  When the message is not a whole number of
units, or the number does not fit an `int`, the substrate reports
`MPI_UNDEFINED` (`none`). -/
def MPI_Get_count {α : Type} (T : Type_MPI) (msg : List α) : Option Nat :=
  let bytes := msg.length * T.sizeofK
  if T.mpi_type_extent = 0 then none
  else if bytes % T.mpi_type_extent ≠ 0 then none
  else if bytes / T.mpi_type_extent < 2 ^ 31 then some (bytes / T.mpi_type_extent)
  else none

/-- Substrate model of `MPI_Recv(buf, count, datatype, ...)` when the matching
message is `msg`: the message is written over the leading elements of the
buffer; a message longer than the posted count covers is a truncation error
(`none`). -/
def MPI_Recv {α : Type} (T : Type_MPI) (msg buf : List α) (p : Posted) : Option (List α) :=
  if msg.length ≤ min (p.elements T) buf.length then some (overwrite msg buf) else none

/-- The count `Communication<K,true>::send` posts for a container: that of
`snd->size()` elements. -/
def CommunicationContainer.send_posted (T : Type_MPI) (size : Nat) : Posted :=
  count_and_type T size

/-- `Communication<K,true>::send`: the content put on the wire.  A vector is
sent from its own storage, any other container from a temporary vector of the
same size filled by `std::copy` (and deleted after the blocking send). -/
def CommunicationContainer.send {α : Type} [Inhabited α] (T : Type_MPI) (isVector : Bool)
    (snd_arr : List α) : Option (List α) := do
  let snd ←
    if isVector then some snd_arr
    else std_copy snd_arr (List.replicate snd_arr.length default)
  some (MPI_Send_wire T snd (CommunicationContainer.send_posted T snd.length))

/-- `Communication<K,true>::recv` when the matching pending message is `msg`:
the destination container after the call.  An undefined count of the probe
leaves the size of the vector requested by the source undefined (`none`). -/
def CommunicationContainer.recv {α : Type} [Inhabited α] (T : Type_MPI) (isVector : Bool)
    (rcvobj : List α) (msg : List α) : Option (List α) := do
  -- MPI_Probe(sender, tag, com, &status); MPI_Get_count(&status, mpi_type(), &szMsg)
  let szMsg ← MPI_Get_count T msg
  let rcv : List α :=
    if isVector then
      -- if (rcv->size() < szMsg) std::vector(szMsg).swap(*rcv)
      if rcvobj.length < szMsg then List.replicate szMsg default else rcvobj
    else
      -- rcv = new std::vector(szMsg)
      List.replicate szMsg default
  let rcv ← MPI_Recv T msg rcv (count_and_type T rcv.length)
  -- for a container that is not a vector: rcvobj = K(rcv->begin(), rcv->end()); delete rcv
  some rcv

/-! ## The ring of `test_communicator.cpp` -/

/-- The statement `array[i] = v` on a `std::vector<int>`; an index past the end
is undefined behaviour (`none`). -/
def vector_set (array : List Int) (i : Nat) (v : Int) : Option (List Int) :=
  if i < array.length then some (array.set i v) else none

/-- The message rank `r` sends to rank `(r + 1) % N` in the ring of
`test_communicator.cpp`, lines 43-47 (rank 0) and 52-54 (the other ranks, which
first receive from `r - 1` into their empty `array`).  The public members
`com.send(array, dest)` and `com.recv(array, sender)` are declared in
`communicator.hpp`; they are taken to forward to
`Communication<std::vector<int>, true>::send` and `::recv`.  A blocking receive
from rank `r - 1` is matched with the only message rank `r - 1` sends. -/
def ring_message (N : Nat) : Nat → Option (List Int)
  | 0 => do
      let array ← vector_set (List.replicate N 0) 0 1
      CommunicationContainer.send Type_MPI.int true array
  | r + 1 => do
      let msg ← ring_message N r
      let array ← CommunicationContainer.recv Type_MPI.int true [] msg
      let array ← vector_set array (r + 1) 1
      CommunicationContainer.send Type_MPI.int true array

/-- The `array` of rank `r` when it reaches the broadcast: on rank 0 the
initial array overwritten by the message received from rank `N - 1`
(line 48), on another rank the array it has received, completed and
forwarded. -/
def ring_array (N : Nat) : Nat → Option (List Int)
  | 0 => do
      let array ← vector_set (List.replicate N 0) 0 1
      let msg ← ring_message N (N - 1)
      CommunicationContainer.recv Type_MPI.int true array msg
  | r + 1 => do
      let msg ← ring_message N r
      let array ← CommunicationContainer.recv Type_MPI.int true [] msg
      vector_set array (r + 1) 1

/-- The `array` of rank `rank` at the end of the ring scenario: after the ring,
rank 0 calls `com.bcast(array, array)` and every other rank `com.bcast(array)`
(root 0), taken to forward to `Communication<std::vector<int>, true>::broadcast`
with `obj_snd = &array` and `obj_snd = nullptr` respectively. -/
def test_communicator_ring (N rank : Nat) : Option (List Int) := do
  let array0 ← ring_array N 0
  let wire ← CommunicationContainer.broadcast_wire Type_MPI.int true 0 .same array0
  if rank = 0 then
    CommunicationContainer.broadcast Type_MPI.int true 0 0 .same array0 wire
  else do
    let array ← ring_array N rank
    CommunicationContainer.broadcast Type_MPI.int true rank 0 .nullptr array wire

/-- The vector of length `N` whose first `k` entries are 1 and whose other
entries are 0: the expected content of the token after `k` ranks have marked
it. -/
def ring_token (N k : Nat) : List Int :=
  List.replicate k 1 ++ List.replicate (N - k) 0

/-! ## Splitting a communicator -/

/-- Substrate model of `MPI_Comm_size` on the communicator `MPI_Comm_split`
gives to process `i` of a group of `N` processes, process `j` passing
`color j`: the number of processes that pass the color of `i`. -/
def MPI_Comm_split_size (N : Nat) (color : Nat → Int) (i : Nat) : Nat :=
  Nat.count (fun j => color j = color i) N

/-- Substrate model of `MPI_Comm_rank` on the communicator `MPI_Comm_split`
gives to process `i`: the processes of the same color are ranked by ascending
key, a tie being broken by the rank in the original communicator, so the rank
of `i` is the number of processes of its color that come before it. -/
def MPI_Comm_split_rank (N : Nat) (color key : Nat → Int) (i : Nat) : Nat :=
  Nat.count (fun j => color j = color i ∧ (key j < key i ∨ (key j = key i ∧ j < i))) N

/-- The public attributes `rank` and `size` of a `Communicator`. -/
structure Communicator where
  rank : Int
  size : Int
  deriving DecidableEq, Repr

/-- The constructor `Communicator(const Communicator& com, int color, int key)`
seen from process `i` of a communicator `com` of `N` processes, process `j`
passing `color j` and `key j`: the new object reads its rank and its size from
the communicator made by `MPI_Comm_split`. -/
def Communicator.split (N : Nat) (color key : Nat → Int) (i : Nat) : Communicator :=
  { rank := (MPI_Comm_split_rank N color key i : Nat),
    size := (MPI_Comm_split_size N color i : Nat) }

/-- `IBlock = globCom.rank % p` of `test_parallelmatrixmatrixproduct.cpp`. -/
def IBlock (p : Nat) (rank : Nat) : Int := ((rank % p : Nat) : Int)

/-- `JBlock = globCom.rank / p` of `test_parallelmatrixmatrixproduct.cpp`. -/
def JBlock (p : Nat) (rank : Nat) : Int := ((rank / p : Nat) : Int)

/-- `Parallel::Communicator rowCom(globCom, IBlock, JBlock)` on process `i` of
`p * p`. -/
def rowCom (p i : Nat) : Communicator := Communicator.split (p * p) (IBlock p) (JBlock p) i

/-- `Parallel::Communicator colCom(globCom, JBlock, IBlock)` on process `i` of
`p * p`. -/
def colCom (p i : Nat) : Communicator := Communicator.split (p * p) (JBlock p) (IBlock p) i

/-! ## Non-blocking point-to-point operations -/

/-- The vector whose `data()` pointer a non-blocking call hands to the
substrate: the caller's own container, or a temporary vector made by the
call. -/
inductive Storage where
  | caller
  | temporary
  deriving DecidableEq, Repr

/-- A pending operation as the call that issued it leaves it: the storage
given to `MPI_Isend` / `MPI_Irecv`, the content of that storage at the call, the
posted count and datatype, and whether the issuing function has `delete`d the
storage before returning the `Request`. -/
structure Request (α : Type) where
  storage : Storage
  buffer : List α
  posted : Posted
  deleted : Bool
  deriving DecidableEq, Repr

/-- `Communication<K,true>::isend`.  A vector is sent from its own storage.
Any other container is copied into `snd = new std::vector(snd_obj.size())`,
`MPI_Isend(snd->data(), ...)` is issued, and `delete snd` runs before the
`Request` is returned. -/
def CommunicationContainer.isend {α : Type} [Inhabited α] (T : Type_MPI) (isVector : Bool)
    (snd_obj : List α) : Option (Request α) := do
  let snd ←
    if isVector then some snd_obj
    else std_copy snd_obj (List.replicate snd_obj.length default)
  -- MPI_Isend(snd->data(), count, datatype, dest, tag, com, &m_req)
  let req : Request α :=
    { storage := if isVector then .caller else .temporary,
      buffer := snd,
      posted := count_and_type T snd.length,
      deleted := false }
  -- if (!is_base_of<vector, K>) delete snd;
  some (if !isVector then { req with deleted := true } else req)

/-- `Communication<K,true>::irecv`: the request and the caller's container as
the call leaves them.  A vector is received in its own storage.  For any other
container the receive is posted on `rcv = new std::vector(rcvobj.size())`, then
`std::copy(rcvobj.begin(), rcvobj.end(), rcv->begin())` and `delete rcv` run
before the `Request` is returned; the caller's container is not written. -/
def CommunicationContainer.irecv {α : Type} [Inhabited α] (T : Type_MPI) (isVector : Bool)
    (rcvobj : List α) : Option (Request α × List α) := do
  let rcv : List α := if isVector then rcvobj else List.replicate rcvobj.length default
  -- MPI_Irecv(rcv->data(), count, datatype, sender, tag, com, &req)
  let req : Request α :=
    { storage := if isVector then .caller else .temporary,
      buffer := rcv,
      posted := count_and_type T rcv.length,
      deleted := false }
  if isVector then
    some (req, rcvobj)
  else do
    -- std::copy(rcvobj.begin(), rcvobj.end(), rcv->begin()); delete rcv;
    let rcv ← std_copy rcvobj rcv
    some ({ req with buffer := rcv, deleted := true }, rcvobj)

/-- Substrate model of the completion (`Request::wait`, i.e. `MPI_Wait`) of a
send request: the content transmitted is read from the storage given to
`MPI_Isend`; reading storage that has been deleted is undefined (`none`). -/
def Request.wait_send {α : Type} (T : Type_MPI) (req : Request α) : Option (List α) :=
  if req.deleted then none else some (MPI_Send_wire T req.buffer req.posted)

/-- Substrate model of the completion of a receive request whose matching
message is `msg`: the caller's container after `Request::wait`.  The message is
written into the storage given to `MPI_Irecv`; writing into storage that has
been deleted is undefined (`none`); a container that is not that storage is
left as it is. -/
def Request.wait_recv {α : Type} (T : Type_MPI) (req : Request α) (rcvobj : List α)
    (msg : List α) : Option (List α) :=
  if req.deleted then none
  else
    match req.storage with
    | .caller => MPI_Recv T msg req.buffer req.posted
    | .temporary => some rcvobj

/-- The non-blocking exchange of `test_communicator.cpp`, lines 72-77, on rank
`r` of `N`: `irecv` into `dest r` from rank `(r + N - 1) % N`, `isend` of
`buffer r` to rank `(r + 1) % N`, then `wait` on both requests.  The result is
the receive container of rank `r`; the message it is matched with is the one
the left neighbour sends. -/
def nonblocking_ring {α : Type} [Inhabited α] (T : Type_MPI) (isVector : Bool) (N : Nat)
    (buffer dest : Nat → List α) (r : Nat) : Option (List α) := do
  let (rreq, array) ← CommunicationContainer.irecv T isVector (dest r)
  let sreq ← CommunicationContainer.isend T isVector (buffer ((r + N - 1) % N))
  let msg ← sreq.wait_send T
  rreq.wait_recv T array msg

/-! ## Reductions: the calls issued to the substrate -/

/-- A buffer argument of a reduction: the marker `MPI_IN_PLACE`, a null
pointer, the storage of a caller's object (identified by its address), or the
storage of the `k`-th temporary vector allocated by the call (distinct from
every caller's object). -/
inductive Buffer where
  | MPI_IN_PLACE
  | nullptr
  | object (address : Nat)
  | temporary (k : Nat)
  deriving DecidableEq, Repr

/-- The operator handle of a reduction: a predefined `Operation`, or the
operator made by `MPI_Op_create` from the user function. -/
inductive Op where
  | predefined (code : Nat)
  | user
  deriving DecidableEq, Repr

/-- A call to the substrate made by a reduction function. -/
inductive Call where
  | MPI_Op_create (commute : Bool)
  | MPI_Reduce (sendbuf recvbuf : Buffer) (count : Int) (op : Op) (root : Nat)
  | MPI_Allreduce (sendbuf recvbuf : Buffer) (count : Int) (op : Op)
  | MPI_Op_free
  deriving DecidableEq, Repr

/-- `Implementation::reduce(nbItems, objs, res, Operation op, root)`: the
substrate calls the function issues on a process of rank `rank`. -/
def Implementation.reduce_buffer (rank root : Nat) (nbItems : Nat) (objs res : Buffer)
    (op : Op) : List Call :=
  if root == rank then
    if objs == res then [.MPI_Reduce .MPI_IN_PLACE res (to_int nbItems) op root]
    else [.MPI_Reduce objs res (to_int nbItems) op root]
  else []

/-- `Implementation::reduce(nbItems, objs, res, const F& fct, bool commute, root)`:
the substrate calls the function issues on a process of rank `rank`. -/
def Implementation.reduce_buffer_fct (rank root : Nat) (nbItems : Nat) (objs res : Buffer)
    (commute : Bool) : List Call :=
  [.MPI_Op_create commute] ++
  (if root == rank then
    if objs == res then [.MPI_Reduce .MPI_IN_PLACE res (to_int nbItems) .user root]
    else [.MPI_Reduce objs res (to_int nbItems) .user root]
  else [.MPI_Reduce objs res (to_int nbItems) .user root]) ++
  [.MPI_Op_free]

/-- `Implementation::allreduce(nbItems, objs, res, Operation op)`. -/
def Implementation.allreduce_buffer (nbItems : Nat) (objs res : Buffer) (op : Op) :
    List Call :=
  if objs == res then [.MPI_Allreduce .MPI_IN_PLACE res (to_int nbItems) op]
  else [.MPI_Allreduce objs res (to_int nbItems) op]

/-- `Implementation::allreduce(nbItems, objs, res, const F& fct, bool commute)`. -/
def Implementation.allreduce_buffer_fct (nbItems : Nat) (objs res : Buffer)
    (commute : Bool) : List Call :=
  [.MPI_Op_create commute] ++
  (if objs == res then [.MPI_Allreduce .MPI_IN_PLACE res (to_int nbItems) .user]
   else [.MPI_Allreduce objs res (to_int nbItems) .user]) ++
  [.MPI_Op_free]

/-- `Communication<K,false>::reduce(com, loc, glob, op, root)` for one object:
`MPI_Reduce(&loc, glob, 1, mpi_type(), op, root, com)`.  `loc` is the address of
the source object, `glob` the pointer to the result. -/
def Communication.reduce (loc : Nat) (glob : Buffer) (op : Op) (root : Nat) : List Call :=
  [.MPI_Reduce (.object loc) glob 1 op root]

/-- `Communication<K,false>::allreduce(com, loc, glob, op)` for one object:
`MPI_Allreduce(&loc, glob, 1, mpi_type(), op, com)`. -/
def Communication.allreduce (loc : Nat) (glob : Buffer) (op : Op) : List Call :=
  [.MPI_Allreduce (.object loc) glob 1 op]

/-- `Communication<K,true>::reduce(com, loc, glob, op, root)` for a container
of `szMsg` elements at address `loc`.  For a vector the storages of `loc` and
of `*glob` are handed to the substrate (a shorter `*glob` is first replaced by
a vector of `szMsg` elements, which changes no argument of the call); for any
other container two temporary vectors are (`glb` only on the root). -/
def CommunicationContainer.reduce (isVector : Bool) (rank root : Nat) (loc : Nat)
    (szMsg : Nat) (glob : Buffer) (op : Op) : List Call :=
  let glb : Buffer :=
    if isVector then glob
    else if rank == root then .temporary 0 else .nullptr
  let lc : Buffer := if isVector then .object loc else .temporary 1
  if glb != .nullptr then [.MPI_Reduce lc glb (to_int szMsg) op root]
  else [.MPI_Reduce lc .nullptr (to_int szMsg) op root]

/-- `Communication<K,true>::allreduce(com, loc, glob, op)` for a container of
`szMsg` elements at address `loc`. -/
def CommunicationContainer.allreduce (isVector : Bool) (loc : Nat) (szMsg : Nat)
    (glob : Buffer) (op : Op) : List Call :=
  let glb : Buffer := if isVector then glob else .temporary 0
  let lc : Buffer := if isVector then .object loc else .temporary 1
  [.MPI_Allreduce lc glb (to_int szMsg) op]

/-- The user-functor overloads for one object or one container,
`Implementation::reduce(loc, glob, fct, is_commuting, root)`: the operator is
created, the `Communication<K, is_container<K>>::reduce` of the payload is
called with it, and the operator is freed. -/
def Implementation.reduce_fct (inner : Op → List Call) (is_commuting : Bool) : List Call :=
  [.MPI_Op_create is_commuting] ++ inner .user ++ [.MPI_Op_free]

/-- The send buffer and the receive buffer of a reduction call. -/
def Call.buffers : Call → Option (Buffer × Buffer)
  | .MPI_Reduce s r _ _ _ => some (s, r)
  | .MPI_Allreduce s r _ _ => some (s, r)
  | _ => none

/-- A call is a reduction issued in place: the send buffer is the marker
`MPI_IN_PLACE`. -/
def Call.in_place (c : Call) : Bool :=
  match c.buffers with
  | some (s, _) => s == .MPI_IN_PLACE
  | none => false

/-- A call is a reduction whose send buffer and receive buffer are the same
storage. -/
def Call.aliased (c : Call) : Bool :=
  match c.buffers with
  | some (s, r) => s == r
  | none => false

/-- A call is a reduction (`MPI_Reduce` or `MPI_Allreduce`). -/
def Call.is_reduction (c : Call) : Bool := c.buffers.isSome

/-! ## Ownership of the communicator handle -/

/-- `Ext_Communicator` (`MPI_Comm`): a communicator handle of the substrate;
`none` is `MPI_COMM_NULL`. -/
abbrev Ext_Communicator := Option Nat

/-- The handle of the communicator of all processes. -/
def MPI_COMM_WORLD : Ext_Communicator := some 0

/-- The communicator handles of the substrate in one process: the handles
`some 1`, ..., `some created` have been made by `MPI_Comm_dup` or
`MPI_Comm_split` (`some 0` is `MPI_COMM_WORLD`), and `freed` lists the handles
released by `MPI_Comm_free`, the most recent first. -/
structure Substrate where
  created : Nat
  freed : List Ext_Communicator
  deriving DecidableEq, Repr

/-- A handle that exists and has not been released. -/
def Substrate.valid (s : Substrate) (h : Ext_Communicator) : Bool :=
  match h with
  | some k => decide (k ≤ s.created) && !(s.freed.contains h)
  | none => false

/-- Substrate model of `MPI_Comm_dup(comm, &newcomm)`: a handle that did not
exist before is made; duplicating an invalid handle is a fatal error
(`none`). -/
def MPI_Comm_dup (s : Substrate) (comm : Ext_Communicator) :
    Option (Substrate × Ext_Communicator) :=
  if s.valid comm then some ({ s with created := s.created + 1 }, some (s.created + 1))
  else none

/-- Substrate model of `MPI_Comm_split(comm, color, key, &newcomm)` on one
process: with a color (`some c`) a handle that did not exist before is made;
with the undefined color (`none`) the result is `MPI_COMM_NULL` and nothing is
made. -/
def MPI_Comm_split (s : Substrate) (comm : Ext_Communicator) (color : Option Nat)
    (_key : Int) : Option (Substrate × Ext_Communicator) :=
  if s.valid comm then
    match color with
    | some _ => some ({ s with created := s.created + 1 }, some (s.created + 1))
    | none => some (s, none)
  else none

/-- Substrate model of `MPI_Comm_free(&comm)`: the handle is released; freeing
an invalid handle or `MPI_COMM_WORLD` is a fatal error (`none`). -/
def MPI_Comm_free (s : Substrate) (comm : Ext_Communicator) : Option Substrate :=
  if s.valid comm && (comm != MPI_COMM_WORLD) then some { s with freed := comm :: s.freed }
  else none

/-- Substrate model of the error behaviour of `MPI_Comm_rank` and
`MPI_Comm_size`: a query on an invalid handle (such as `MPI_COMM_NULL`) is a
fatal error (`none`).  The values are those of the group, which this part of
the model does not follow. -/
def MPI_Comm_query (s : Substrate) (comm : Ext_Communicator) : Option Unit :=
  if s.valid comm then some () else none

/-- The private state of `Communicator::Implementation`: the handle
`m_communicator`. -/
structure Implementation where
  m_communicator : Ext_Communicator
  deriving DecidableEq, Repr

/-- `Implementation()`: `MPI_Comm_dup(MPI_COMM_WORLD, &m_communicator)`. -/
def Implementation.create (s : Substrate) : Option (Substrate × Implementation) := do
  let (s, h) ← MPI_Comm_dup s MPI_COMM_WORLD
  some (s, { m_communicator := h })

/-- `Implementation(const Implementation& impl, int color, int key)`:
`MPI_Comm_split(impl.m_communicator, color, key, &m_communicator)`. -/
def Implementation.create_split (s : Substrate) (impl : Implementation)
    (color : Option Nat) (key : Int) : Option (Substrate × Implementation) := do
  let (s, h) ← MPI_Comm_split s impl.m_communicator color key
  some (s, { m_communicator := h })

/-- `Implementation(const Implementation& impl)`:
`MPI_Comm_dup(impl.m_communicator, &m_communicator)`. -/
def Implementation.create_copy (s : Substrate) (impl : Implementation) :
    Option (Substrate × Implementation) := do
  let (s, h) ← MPI_Comm_dup s impl.m_communicator
  some (s, { m_communicator := h })

/-- `Implementation(const Ext_Communicator& excom)`:
`MPI_Comm_dup(excom, &m_communicator)`. -/
def Implementation.create_ext (s : Substrate) (excom : Ext_Communicator) :
    Option (Substrate × Implementation) := do
  let (s, h) ← MPI_Comm_dup s excom
  some (s, { m_communicator := h })

/-- `~Implementation()`: `MPI_Comm_free(&m_communicator)`. -/
def Implementation.destroy (s : Substrate) (impl : Implementation) : Option Substrate :=
  MPI_Comm_free s impl.m_communicator

/-- The body shared by the four constructors of `Communicator`:
`rank = m_impl->getRank(); size = m_impl->getSize();` on the new
implementation. -/
def Communicator.finish (r : Substrate × Implementation) :
    Option (Substrate × Implementation) := do
  let _ ← MPI_Comm_query r.1 r.2.m_communicator
  let _ ← MPI_Comm_query r.1 r.2.m_communicator
  some r

/-- The process as far as communicators go: the substrate and the `m_impl` of
every `Communicator` object alive, in order of construction. -/
structure Process where
  mpi : Substrate
  live : List Implementation
  deriving DecidableEq, Repr

/-- The process after `Context` construction: no handle besides
`MPI_COMM_WORLD`, no `Communicator` object. -/
def Process.init : Process := { mpi := { created := 0, freed := [] }, live := [] }

/-- What a program can do with `Communicator` objects (copy and move
assignment and the move constructor are deleted): the four constructors, an
existing object being named by its position among the live ones, and the
destructor. -/
inductive Action where
  | construct
  | split (com : Nat) (color : Option Nat) (key : Int)
  | duplicate (com : Nat)
  | adopt (excom : Ext_Communicator)
  | destroy (obj : Nat)
  deriving Repr

/-- The end of a constructor of `Communicator`: the new implementation, once
its rank and size have been read, belongs to a new live object. -/
def Process.add (P : Process) (made : Option (Substrate × Implementation)) :
    Option Process := do
  let (s, impl) ← made >>= Communicator.finish
  some { mpi := s, live := P.live ++ [impl] }

/-- One action on the process; `none` when the action names no live object or
the substrate aborts the process. -/
def Process.step (P : Process) : Action → Option Process
  | .construct => P.add (Implementation.create P.mpi)
  | .split com color key => do
      let parent ← P.live[com]?
      P.add (Implementation.create_split P.mpi parent color key)
  | .duplicate com => do
      let parent ← P.live[com]?
      P.add (Implementation.create_copy P.mpi parent)
  | .adopt excom => P.add (Implementation.create_ext P.mpi excom)
  | .destroy obj => do
      let impl ← P.live[obj]?
      let s ← Implementation.destroy P.mpi impl
      some { mpi := s, live := P.live.eraseIdx obj }

/-- The action is one of the four constructors. -/
def Action.is_constructor : Action → Bool
  | .destroy _ => false
  | _ => true

/-- A sequence of actions. -/
def Process.run (P : Process) : List Action → Option Process
  | [] => some P
  | a :: rest => do
      let P ← P.step a
      P.run rest

/-- The handles held by the live `Communicator` objects. -/
def Process.handles (P : Process) : List Ext_Communicator :=
  P.live.map Implementation.m_communicator

/-- Every handle the substrate has made. -/
def Substrate.made (s : Substrate) : List Ext_Communicator :=
  (List.range s.created).map (fun k => some (k + 1))

/-- The handles made so far are exactly those held by a live object or
released, each once: nothing is shared, leaked or released twice. -/
def Process.wf (P : Process) : Prop :=
  List.Perm (P.handles ++ P.mpi.freed) P.mpi.made

/-- The process after a constructor has stored the handle the substrate has
just made. -/
def Process.grown (P : Process) : Process :=
  { mpi := { created := P.mpi.created + 1, freed := P.mpi.freed },
    live := P.live ++ [{ m_communicator := some (P.mpi.created + 1) }] }

/-! ## Buffer overloads of the point-to-point operations -/

/-- `Implementation::send(nbItems, sndbuff, dest, tag)`: the posted count and
datatype, and the content the substrate reads from `sndbuff`. -/
def Implementation.send {α : Type} (T : Type_MPI) (nbItems : Nat) (sndbuff : List α) :
    Posted × List α :=
  if T.must_be_packed then
    let p : Posted := { count := to_int (size_t_mul nbItems T.sizeofK), datatype := .MPI_BYTE }
    (p, MPI_Send_wire T sndbuff p)
  else
    let p : Posted := { count := to_int nbItems, datatype := .mpi_type }
    (p, MPI_Send_wire T sndbuff p)

/-- `Implementation::isend(nbItems, sndbuff, dest, tag)`: the request issued
on the caller's buffer. -/
def Implementation.isend {α : Type} (T : Type_MPI) (nbItems : Nat) (sndbuff : List α) :
    Request α :=
  if T.must_be_packed then
    { storage := .caller, buffer := sndbuff, deleted := false,
      posted := { count := to_int (size_t_mul nbItems T.sizeofK), datatype := .MPI_BYTE } }
  else
    { storage := .caller, buffer := sndbuff, deleted := false,
      posted := { count := to_int nbItems, datatype := .mpi_type } }

/-- `Implementation::recv(nbItems, rcvbuff, sender, tag)`: the posted count
and datatype. -/
def Implementation.recv (T : Type_MPI) (nbItems : Nat) : Posted :=
  if T.must_be_packed then
    { count := to_int (size_t_mul nbItems T.sizeofK), datatype := .MPI_BYTE }
  else
    { count := to_int nbItems, datatype := .mpi_type }

/-- `Implementation::irecv(nbItems, rcvbuff, sender, tag)`: the request issued
on the caller's buffer. -/
def Implementation.irecv {α : Type} (T : Type_MPI) (nbItems : Nat) (rcvbuff : List α) :
    Request α :=
  if T.must_be_packed then
    { storage := .caller, buffer := rcvbuff, deleted := false,
      posted := { count := to_int (size_t_mul nbItems T.sizeofK), datatype := .MPI_BYTE } }
  else
    { storage := .caller, buffer := rcvbuff, deleted := false,
      posted := { count := to_int nbItems, datatype := .mpi_type } }

/-! ## Context : initialisation of the substrate (`context_mpi.cpp`) -/

/-- `Context::thread_support`: the level of thread support a caller requests
and the constructor records (the enumeration is declared in
`parallel/context.hpp`; its four values are those the constructor names). -/
inductive thread_support where
  | Single
  | Funneled
  | Serialized
  | Multiple
  deriving DecidableEq, Repr

/-- The thread levels of the substrate, `MPI_THREAD_SINGLE < MPI_THREAD_FUNNELED
< MPI_THREAD_SERIALIZED < MPI_THREAD_MULTIPLE`. -/
inductive MPI_THREAD where
  | SINGLE
  | FUNNELED
  | SERIALIZED
  | MULTIPLE
  deriving DecidableEq, Repr

/-- The integer value of a substrate constant; the standard fixes their order. -/
def MPI_THREAD.value : MPI_THREAD → Int
  | .SINGLE => 0
  | .FUNNELED => 1
  | .SERIALIZED => 2
  | .MULTIPLE => 3

/-- The value of `Context::thread_support` that names a substrate level. -/
def MPI_THREAD.support : MPI_THREAD → thread_support
  | .SINGLE => .Single
  | .FUNNELED => .Funneled
  | .SERIALIZED => .Serialized
  | .MULTIPLE => .Multiple

/-- The substrate constant that corresponds to a requested level. -/
def thread_support.constant : thread_support → MPI_THREAD
  | .Single => .SINGLE
  | .Funneled => .FUNNELED
  | .Serialized => .SERIALIZED
  | .Multiple => .MULTIPLE

/-- The initialisation call a `Context` constructor makes. -/
inductive InitCall where
  | MPI_Init
  | MPI_Init_thread (required : MPI_THREAD)
  deriving DecidableEq, Repr

/-- A constructed `Context`: the member `m_provided`. -/
structure Context where
  m_provided : thread_support
  deriving DecidableEq, Repr

/-- The local variable `level_support` of the constructor, set by the `switch`
on the requested level in the threaded branch. -/
def Context.level_support (thread_level_support : thread_support) : MPI_THREAD :=
  match thread_level_support with
  | .Funneled => .FUNNELED
  | .Serialized => .SERIALIZED
  | _ => .MULTIPLE

/-- The initialisation call the constructor makes: `MPI_Init( &nargc, &argv )`
for `Single`, otherwise
`MPI_Init_thread( &nargc, &argv, MPI_THREAD_MULTIPLE, &provided )`. -/
def Context.init_call (thread_level_support : thread_support) : InitCall :=
  if thread_level_support = .Single then .MPI_Init
  else
    let _level_support := Context.level_support thread_level_support
    .MPI_Init_thread .MULTIPLE

/-- `Context::Context(int&, char*[], thread_support thread_level_support)`,
after the call of `Context.init_call`.  `provided` is the level the substrate
grants to the initialisation: the output argument of `MPI_Init_thread`, and for
`MPI_Init`, which reports nothing, the level in force afterwards (the standard
lets it be higher than `MPI_THREAD_SINGLE`).  An exception
(`std::runtime_error`) is `Except.error` with its message. -/
def Context.construct (thread_level_support : thread_support) (provided : MPI_THREAD) :
    Except String Context :=
  -- : m_provided( thread_level_support )
  let m_provided := thread_level_support
  if thread_level_support = .Single then
    .ok { m_provided := m_provided }
  else
    if provided.value < MPI_THREAD.SERIALIZED.value then
      .error "Not found multithreaded mode for the current MPI library"
    else
      let m_provided : thread_support :=
        match provided with
        | .FUNNELED => .Funneled
        | .SERIALIZED => .Serialized
        | _ => .Multiple
      .ok { m_provided := m_provided }

/-- The requested level is available from a substrate that provides
`provided`: the provided level is the requested one or a higher one. -/
def thread_support.available (requested : thread_support) (provided : MPI_THREAD) : Bool :=
  decide (requested.constant.value ≤ provided.value)

/-! ## Context : the global communicator -/

/-- The process-wide state behind `Context::globalCommunicator`: the `Communicator`
objects and substrate handles of the process, whether `MPI_Finalize` has run,
and the static pointer `Context::pt_global_com` (`none` for `nullptr`, else the
position of the object among those constructed). -/
structure GlobalState where
  proc : Process
  finalized : Bool
  pt_global_com : Option Nat
  deriving DecidableEq, Repr

/-- The state at program start: `pt_global_com = nullptr`. -/
def GlobalState.init : GlobalState :=
  { proc := Process.init, finalized := false, pt_global_com := none }

/-- `Context::globalCommunicator()`: the state after the call and the object
returned.  `new Communicator` runs the default constructor; after
`MPI_Finalize` the substrate refuses it (`none`). -/
def Context.globalCommunicator (g : GlobalState) : Option (GlobalState × Nat) :=
  match g.pt_global_com with
  | some obj => some (g, obj)
  | none =>
      if g.finalized then none
      else do
        let P ← g.proc.step .construct
        let obj := g.proc.live.length
        some ({ g with proc := P, pt_global_com := some obj }, obj)

/-- `Context::~Context()`: `MPI_Finalize()`. -/
def Context.destroy (g : GlobalState) : GlobalState :=
  { g with finalized := true }

/-- What a program does with the global communicator: a call of the accessor,
or the destruction of a `Context`. -/
inductive GlobalAction where
  | globalCommunicator
  | destroy_context
  deriving DecidableEq, Repr

/-- A sequence of actions from a state: the final state and the objects the
calls of the accessor returned, in order. -/
def GlobalState.run (g : GlobalState) : List GlobalAction → Option (GlobalState × List Nat)
  | [] => some (g, [])
  | .globalCommunicator :: rest => do
      let (g, obj) ← Context.globalCommunicator g
      let (g, objs) ← g.run rest
      some (g, obj :: objs)
  | .destroy_context :: rest => (Context.destroy g).run rest

/-! ## Chronometers (`Core::Chronometer`, `Core::StdChronometer`,
`Communicator::Chronometer`)

Times are values of a type `τ` with a zero, an addition and a subtraction; the
clock readings `now` are inputs.  The counter `m_counter` is an `unsigned long`
that counts calls of `stop` and is taken as a natural number. -/

/-- The private members of `Core::Chronometer`. -/
structure Chronometer (τ : Type) where
  m_counter : Nat
  m_total_time : τ
  m_is_measuring : Bool
  deriving DecidableEq, Repr

/-- `Core::Chronometer::Chronometer()`. -/
def Chronometer.create {τ : Type} [Zero τ] : Chronometer τ :=
  { m_counter := 0, m_total_time := 0, m_is_measuring := false }

/-- `Core::Chronometer::start()` on the base members: the new members, and
whether the virtual `start_chrono()` is called. -/
def Chronometer.start {τ : Type} (c : Chronometer τ) : Chronometer τ × Bool :=
  if c.m_is_measuring then (c, false)
  else ({ c with m_is_measuring := true }, true)

/-- `Core::Chronometer::stop()` up to the call of the virtual
`get_delta_time()`: `m_is_measuring = false; m_counter += 1;`. -/
def Chronometer.stop_enter {τ : Type} (c : Chronometer τ) : Chronometer τ :=
  { c with m_is_measuring := false, m_counter := c.m_counter + 1 }

/-- `Core::Chronometer::stop()` after `get_delta_time()` has returned `deltaT`:
`m_total_time += deltaT`. -/
def Chronometer.stop_leave {τ : Type} [Add τ] (c : Chronometer τ) (deltaT : τ) :
    Chronometer τ :=
  { c with m_total_time := c.m_total_time + deltaT }

/-- `Core::Chronometer::nb_calls()`. -/
def Chronometer.nb_calls {τ : Type} (c : Chronometer τ) : Nat := c.m_counter

/-- `Core::StdChronometer`: the base members and the time point `m_start`. -/
structure StdChronometer (τ : Type) extends Chronometer τ where
  m_start : τ
  deriving DecidableEq, Repr

/-- `new Core::StdChronometer`. -/
def StdChronometer.create {τ : Type} [Zero τ] : StdChronometer τ :=
  { toChronometer := Chronometer.create, m_start := 0 }

/-- `start()` on a `StdChronometer`, the clock reading being `now`:
`start_chrono()` stores it in `m_start`. -/
def StdChronometer.start {τ : Type} (now : τ) (s : StdChronometer τ) : StdChronometer τ :=
  let r := s.toChronometer.start
  if r.2 then { toChronometer := r.1, m_start := now }
  else { s with toChronometer := r.1 }

/-- `stop()` on a `StdChronometer`, the clock reading being `now`:
`get_delta_time()` returns `now - m_start`. -/
def StdChronometer.stop {τ : Type} [Add τ] [Sub τ] (now : τ) (s : StdChronometer τ) :
    StdChronometer τ × τ :=
  let base := s.toChronometer.stop_enter
  let deltaT := now - s.m_start
  ({ s with toChronometer := base.stop_leave deltaT }, deltaT)

/-- The object stored under `label` in a `std::map<std::string,
std::unique_ptr<Core::StdChronometer>>`, given as its list of entries (`none`
for an entry whose pointer is null): `none` when there is no entry or the
pointer of the entry is null. -/
def Chronos.find {σ : Type} : List (String × Option σ) → String → Option σ
  | [], _ => none
  | (k, v) :: rest, label => if k = label then v else Chronos.find rest label

/-- The assignment `m_chronos[label] = std::unique_ptr(obj)`: the entry of
`label` holds `obj`, an entry being added when there is none. -/
def Chronos.assign {σ : Type} : List (String × Option σ) → String → σ →
    List (String × Option σ)
  | [], label, obj => [(label, some obj)]
  | (k, v) :: rest, label, obj =>
      if k = label then (k, some obj) :: rest
      else (k, v) :: Chronos.assign rest label obj

/-- The number of stopwatches a map holds. -/
def Chronos.count {σ : Type} (m : List (String × Option σ)) : Nat :=
  (m.filter (fun e => e.2.isSome)).length

/-- `Communicator::Chronometer`: the members of its base `Core::Chronometer`
and those of `Communicator::Chronometer::Implementation`: the map `m_chronos`,
the pointer `pt_current_chronometer` (given by the label of the stopwatch it
points to, `none` for `nullptr`) and `is_activated`. -/
structure Communicator.Chronometer (τ : Type) extends Parallel.Chronometer τ where
  m_chronos : List (String × Option (StdChronometer τ))
  pt_current_chronometer : Option String
  is_activated : Bool
  deriving DecidableEq, Repr

/-- `Communicator::Chronometer::Chronometer(Communicator& com)`: no stopwatch,
no current stopwatch, activated (the constructor also stores `this` in the
communicator, see `BEGIN_PROFILE_COMMUNICATION`). -/
def Communicator.Chronometer.create {τ : Type} [Zero τ] : Communicator.Chronometer τ :=
  { toChronometer := Parallel.Chronometer.create, m_chronos := [],
    pt_current_chronometer := none, is_activated := true }

/-- `Communicator::Chronometer::operator[](const std::string& label)`. -/
def Communicator.Chronometer.index {τ : Type} [Zero τ] (c : Communicator.Chronometer τ)
    (label : String) : Communicator.Chronometer τ :=
  -- pt_chronos = m_chronos[label].get(); if (pt_chronos == nullptr) m_chronos[label] = new ...
  match Chronos.find c.m_chronos label with
  | none =>
      { c with m_chronos := Chronos.assign c.m_chronos label StdChronometer.create,
               pt_current_chronometer := some label }
  | some _ => { c with pt_current_chronometer := some label }

/-- `Communicator::Chronometer::operator[](const std::string& label) const`:
`assert(m_chronos[label].get() != nullptr)`, then the stopwatch is selected; a
failed assertion is `none`. -/
def Communicator.Chronometer.index_const {τ : Type} (c : Communicator.Chronometer τ)
    (label : String) : Option (Communicator.Chronometer τ) :=
  match Chronos.find c.m_chronos label with
  | none => none
  | some _ => some { c with pt_current_chronometer := some label }

/-- The stopwatch `*pt_current_chronometer`; `none` for a null pointer. -/
def Communicator.Chronometer.current {τ : Type} (c : Communicator.Chronometer τ) :
    Option (String × StdChronometer τ) := do
  let label ← c.pt_current_chronometer
  let s ← Chronos.find c.m_chronos label
  some (label, s)

/-- `start()` on a `Communicator::Chronometer`: `Core::Chronometer::start`, whose
`start_chrono()` is `pt_current_chronometer->start()` (a null pointer fails the
assertion: `none`). -/
def Communicator.Chronometer.start {τ : Type} (now : τ) (c : Communicator.Chronometer τ) :
    Option (Communicator.Chronometer τ) :=
  let r := c.toChronometer.start
  if r.2 then do
    let (label, s) ← c.current
    some { c with toChronometer := r.1,
                  m_chronos := Chronos.assign c.m_chronos label (s.start now) }
  else some { c with toChronometer := r.1 }

/-- `stop()` on a `Communicator::Chronometer`: `Core::Chronometer::stop`, whose
`get_delta_time()` is `pt_current_chronometer->stop()`. -/
def Communicator.Chronometer.stop {τ : Type} [Add τ] [Sub τ] (now : τ)
    (c : Communicator.Chronometer τ) : Option (Communicator.Chronometer τ × τ) := do
  let base := c.toChronometer.stop_enter
  let (label, s) ← c.current
  let (s, deltaT) := s.stop now
  some ({ c with toChronometer := base.stop_leave deltaT,
                 m_chronos := Chronos.assign c.m_chronos label s }, deltaT)

/-- `Communicator::Chronometer::activate()`. -/
def Communicator.Chronometer.activate {τ : Type} (c : Communicator.Chronometer τ) :
    Communicator.Chronometer τ :=
  { c with is_activated := true }

/-- `Communicator::Chronometer::deactivate()`. -/
def Communicator.Chronometer.deactivate {τ : Type} (c : Communicator.Chronometer τ) :
    Communicator.Chronometer τ :=
  { c with is_activated := false }

/-- The macro `BEGIN_PROFILE_COMMUNICATION` in a function named `func`, the
clock reading being `now`.  `m_pt_active_chrono` is the chronometer the
communicator points to (`none` for `nullptr`). -/
def BEGIN_PROFILE_COMMUNICATION {τ : Type} [Zero τ] (func : String) (now : τ)
    (m_pt_active_chrono : Option (Communicator.Chronometer τ)) :
    Option (Option (Communicator.Chronometer τ)) :=
  match m_pt_active_chrono with
  | none => some none
  | some c =>
      if c.is_activated then ((c.index func).start now).map some
      else some (some c)

/-- The macro `END_PROFILE_COMMUNICATION` in a function named `func`, the clock
reading being `now`. -/
def END_PROFILE_COMMUNICATION {τ : Type} [Zero τ] [Add τ] [Sub τ] (func : String) (now : τ)
    (m_pt_active_chrono : Option (Communicator.Chronometer τ)) :
    Option (Option (Communicator.Chronometer τ)) :=
  match m_pt_active_chrono with
  | none => some none
  | some c =>
      if c.is_activated then ((c.index func).stop now).map (fun r => some r.1)
      else some (some c)

/-- A profiled operation of the communicator, named `func`: the profiling hook
at its beginning (clock reading `t0`), the call of the substrate, which does
not touch the chronometer, and the hook at its end (clock reading `t1`). -/
def profiled {τ : Type} [Zero τ] [Add τ] [Sub τ] (func : String) (t0 t1 : τ)
    (m_pt_active_chrono : Option (Communicator.Chronometer τ)) :
    Option (Option (Communicator.Chronometer τ)) := do
  let chrono ← BEGIN_PROFILE_COMMUNICATION func t0 m_pt_active_chrono
  END_PROFILE_COMMUNICATION func t1 chrono

/-- The number of calls recorded by the stopwatch of `label`; 0 when there is
no such stopwatch. -/
def Communicator.Chronometer.calls {τ : Type} (c : Communicator.Chronometer τ)
    (label : String) : Nat :=
  match Chronos.find c.m_chronos label with
  | some s => s.nb_calls
  | none => 0

/-! ## Lapack wrappers (`Lapack::getrf`, `Lapack::getrs`) -/

/-- How a call ends: it returns, or it throws `std::invalid_argument` or
`std::runtime_error` with the message `what`. -/
inductive Outcome where
  | returned
  | invalid_argument (what : String)
  | runtime_error (what : String)
  deriving DecidableEq, Repr

/-- The text `sprintf` writes for `%d`. -/
def printf_d (n : Int) : String := toString n

/-- `Lapack::getrf` (the overloads for `float`, `double`, `std::complex<float>`
and `std::complex<double>` have the same body), `info` being the status the
routine `LAPACKE_?getrf` returns (a `lapack_int`: 0, the negated position of an
illegal argument, or the index of a null pivot). -/
def Lapack.getrf (info : Int) : Outcome :=
  if info ≠ 0 then
    if info < 0 then
      .invalid_argument ("Invalid " ++ printf_d (-info) ++ "th arg. for lapack getrf")
    else
      .runtime_error
        ("Diagonal block is singular :\n\t " ++ printf_d info ++ " th pivot is null")
  else .returned

/-- `Lapack::getrs` (four overloads with the same body), `info` being the
status the routine `LAPACKE_?getrs` returns. -/
def Lapack.getrs (info : Int) : Outcome :=
  if info ≠ 0 then
    if info < 0 then
      .invalid_argument ("getrs : " ++ printf_d (-info) ++ " th parameter has illegal value !")
    else
      .runtime_error "getrs : undocumented error ?"
  else .returned

/-! ## Logger (`Core::Logger`)

An `int` used as a set of channels (the flags of a listener, the mode of the
logger) is given by its bit pattern, a natural number. -/

/-- A `Logger::Listener` object, known by its address, with its member
`m_flags` (fixed at construction). -/
structure Listener where
  address : Nat
  m_flags : Nat
  deriving DecidableEq, Repr

/-- `Listener::Listen_for_nothing`. -/
def Listener.Listen_for_nothing : Nat := 0
/-- `Listener::Listen_for_assertion`. -/
def Listener.Listen_for_assertion : Nat := 1
/-- `Listener::Listen_for_error`. -/
def Listener.Listen_for_error : Nat := 2
/-- `Listener::Listen_for_warning`. -/
def Listener.Listen_for_warning : Nat := 4
/-- `Listener::Listen_for_information`. -/
def Listener.Listen_for_information : Nat := 8
/-- `Listener::Listen_for_trace`. -/
def Listener.Listen_for_trace : Nat := 16
/-- `Listener::Listen_for_all = 0xFFFF`. -/
def Listener.Listen_for_all : Nat := 0xFFFF

/-- `Listener::toReport(int mo)`: `return m_flags & mo;` converted to `bool`. -/
def Listener.toReport (l : Listener) (mo : Nat) : Bool := (l.m_flags &&& mo) != 0

/-- `Logger::Implementation`: the current mode and the list of listeners
(pointers, in the order of `push_back`). -/
structure Logger.Implementation where
  m_current_mode : Nat
  m_listeners : List Listener
  deriving DecidableEq, Repr

/-- `Logger::nothing`. -/
def Logger.nothing : Nat := Listener.Listen_for_nothing
/-- `Logger::assertion`. -/
def Logger.assertion : Nat := Listener.Listen_for_assertion
/-- `Logger::information`. -/
def Logger.information : Nat := Listener.Listen_for_information

/-- The mode the macro `LogAssert( cond )` sets:
`cond ? Logger::assertion : Logger::nothing`. -/
def LogAssert (cond : Bool) : Nat := if cond then Logger.assertion else Logger.nothing

/-- `Logger::Implementation::Implementation()`: mode `information`, no
listener. -/
def Logger.Implementation.create : Logger.Implementation :=
  { m_current_mode := Logger.information, m_listeners := [] }

/-- The part of the process a logger works on: the `Logger::Implementation`
objects allocated so far (an object is known by its position), the static
`Logger::Implementation::m_pt_shared_impl` (`none` for `nullptr`), and what has
been written to the streams of the listeners (address of the listener and
object written), the oldest first. -/
structure LoggerWorld where
  heap : List Logger.Implementation
  m_pt_shared_impl : Option Nat
  reports : List (Nat × String)
  deriving DecidableEq, Repr

/-- A `Logger` object: its member `m_pt_impl`. -/
structure Logger where
  m_pt_impl : Nat
  deriving DecidableEq, Repr

/-- The world at program start. -/
def LoggerWorld.init : LoggerWorld := { heap := [], m_pt_shared_impl := none, reports := [] }

/-- `Logger::Logger()`: the shared implementation is made when the static
pointer is null, and `m_pt_impl` is set to the static pointer. -/
def Logger.create (w : LoggerWorld) : LoggerWorld × Logger :=
  match w.m_pt_shared_impl with
  | none =>
      ({ w with heap := w.heap ++ [Logger.Implementation.create],
                m_pt_shared_impl := some w.heap.length },
       { m_pt_impl := w.heap.length })
  | some a => (w, { m_pt_impl := a })

/-- The object `*m_pt_impl` of a logger. -/
def Logger.impl (w : LoggerWorld) (log : Logger) : Option Logger.Implementation :=
  w.heap[log.m_pt_impl]?

/-- The world after `*m_pt_impl` of a logger has been given a new value. -/
def Logger.store (w : LoggerWorld) (log : Logger) (impl : Logger.Implementation) :
    LoggerWorld :=
  { w with heap := w.heap.set log.m_pt_impl impl }

/-- `Logger::subscribe(Listener* listener)` (`none` is a null pointer): the
world after the call and the value returned. -/
def Logger.subscribe (w : LoggerWorld) (log : Logger) (listener : Option Listener) :
    Option (LoggerWorld × Bool) := do
  let impl ← Logger.impl w log
  match listener with
  | none => some (w, false)
  | some l =>
      -- std::find( m_listeners.begin(), m_listeners.end(), listener )
      if impl.m_listeners.any (fun x => x.address == l.address) then some (w, false)
      else
        some (Logger.store w log { impl with m_listeners := impl.m_listeners ++ [l] }, true)

/-- `Logger::unsubscribe(Listener* listener)`. -/
def Logger.unsubscribe (w : LoggerWorld) (log : Logger) (listener : Option Listener) :
    Option (LoggerWorld × Bool) := do
  let impl ← Logger.impl w log
  match listener with
  | none => some (w, false)
  | some l =>
      if impl.m_listeners.any (fun x => x.address == l.address) then
        -- m_listeners.remove( listener )
        some (Logger.store w log
          { impl with m_listeners := impl.m_listeners.filter (fun x => x.address != l.address) },
          true)
      else some (w, false)

/-- `Logger::set_mode(int mode)` (also `operator[]( int mode )` and
`operator<<( const mode& )`). -/
def Logger.set_mode (w : LoggerWorld) (log : Logger) (mode : Nat) : Option LoggerWorld := do
  let impl ← Logger.impl w log
  some (Logger.store w log { impl with m_current_mode := mode })

/-- `Logger::get_mode()`. -/
def Logger.get_mode (w : LoggerWorld) (log : Logger) : Option Nat :=
  (Logger.impl w log).map (fun impl => impl.m_current_mode)

/-- The listeners an iteration over the logger (`begin()` to `end()`) visits. -/
def Logger.listeners (w : LoggerWorld) (log : Logger) : Option (List Listener) :=
  (Logger.impl w log).map (fun impl => impl.m_listeners)

/-- `Logger::operator<<( const K& obj )`: every listener, in the order of the
list, whose `toReport( get_mode() )` holds has the object written to its
stream. -/
def Logger.write (w : LoggerWorld) (log : Logger) (obj : String) : Option LoggerWorld := do
  let listeners ← Logger.listeners w log
  let mode ← Logger.get_mode w log
  some { w with reports := w.reports ++
    (listeners.filter (fun l => l.toReport mode)).map (fun l => (l.address, obj)) }

/-- What a program does with loggers: it constructs one, or calls a member of
one it has constructed (named by its rank of construction). -/
inductive LogAction where
  | create
  | subscribe (log : Nat) (listener : Option Listener)
  | unsubscribe (log : Nat) (listener : Option Listener)
  | set_mode (log : Nat) (mode : Nat)
  | write (log : Nat) (obj : String)
  deriving DecidableEq, Repr

/-- The loggers of a program: the world and the `Logger` objects constructed
so far. -/
structure LogState where
  world : LoggerWorld
  loggers : List Logger
  deriving DecidableEq, Repr

/-- The state at program start. -/
def LogState.init : LogState := { world := LoggerWorld.init, loggers := [] }

/-- One action; `none` when it names a logger that has not been constructed. -/
def LogState.step (S : LogState) : LogAction → Option LogState
  | .create =>
      let r := Logger.create S.world
      some { world := r.1, loggers := S.loggers ++ [r.2] }
  | .subscribe log listener => do
      let lg ← S.loggers[log]?
      let r ← Logger.subscribe S.world lg listener
      some { S with world := r.1 }
  | .unsubscribe log listener => do
      let lg ← S.loggers[log]?
      let r ← Logger.unsubscribe S.world lg listener
      some { S with world := r.1 }
  | .set_mode log mode => do
      let lg ← S.loggers[log]?
      let w ← Logger.set_mode S.world lg mode
      some { S with world := w }
  | .write log obj => do
      let lg ← S.loggers[log]?
      let w ← Logger.write S.world lg obj
      some { S with world := w }

/-- A sequence of actions. -/
def LogState.run (S : LogState) : List LogAction → Option LogState
  | [] => some S
  | a :: rest => do
      let S ← S.step a
      S.run rest

/-- The shared implementation, when a logger has been constructed. -/
def LogState.shared (S : LogState) : Option Logger.Implementation := do
  let a ← S.world.m_pt_shared_impl
  S.world.heap[a]?

/-- The listeners currently subscribed: those of the shared implementation,
none before the first logger is constructed. -/
def LogState.subscribed (S : LogState) : List Listener :=
  match S.shared with
  | some impl => impl.m_listeners
  | none => []

/-- The objects delivered by one write in mode `mode` to the listeners
`listeners`: one report for every listener that has a channel of the mode, in
the order of the list. -/
def deliveries (listeners : List Listener) (mode : Nat) (obj : String) : List (Nat × String) :=
  (listeners.filter (fun l => l.toReport mode)).map (fun l => (l.address, obj))

/-- The listeners subscribed after a sequence of actions, told from the
actions alone, whatever logger each action goes through: a listener is added
at the end by `subscribe` unless it is null or already there, and removed by
`unsubscribe`. -/
def subscribed_after (listeners : List Listener) : List LogAction → List Listener
  | [] => listeners
  | .subscribe _ (some l) :: rest =>
      if listeners.any (fun x => x.address == l.address) then subscribed_after listeners rest
      else subscribed_after (listeners ++ [l]) rest
  | .unsubscribe _ (some l) :: rest =>
      subscribed_after (listeners.filter (fun x => x.address != l.address)) rest
  | _ :: rest => subscribed_after listeners rest

/-- The state of a program that has constructed `n` loggers, all on the one
implementation `impl`, with the reports `reports` written so far. -/
def LogState.of (impl : Logger.Implementation) (reports : List (Nat × String)) (n : Nat) :
    LogState :=
  { world := { heap := [impl], m_pt_shared_impl := some 0, reports := reports },
    loggers := List.replicate n { m_pt_impl := 0 } }

/-- The current mode: that of the shared implementation (`information` before
the first logger is constructed). -/
def LogState.mode (S : LogState) : Nat :=
  match S.shared with
  | some impl => impl.m_current_mode
  | none => Logger.information

/-! ## Root-only listeners (`Parallel::LogFromRootOutput`) -/

/-- `LogFromRootOutput<L>`: its base `Core::Logger::Listener`, whose flags the
logger tests, and the wrapped listener `m_listener` of type `L`, which does the
output. -/
structure LogFromRootOutput where
  toListener : Listener
  m_listener : Listener
  deriving DecidableEq, Repr

/-- `LogFromRootOutput(int flags, Args&&... args)` on a process whose
default-constructed `Parallel::Communicator()` is `world`: the base is
`Listener(world.rank == 0 ? flags : Listen_for_nothing)`, the member is
`m_listener(flags, args...)`. -/
def LogFromRootOutput.create (address flags : Nat) (world : Communicator) : LogFromRootOutput :=
  { toListener := ⟨address, if world.rank = 0 then flags else Listener.Listen_for_nothing⟩,
    m_listener := ⟨address + 1, flags⟩ }

/-- `LogFromRootOutput(int flags, int root, Args&&... args)`: the base is
`Listener(world.rank == root ? flags : Listen_for_nothing)`. -/
def LogFromRootOutput.create_root (address flags : Nat) (root : Int) (world : Communicator) :
    LogFromRootOutput :=
  { toListener := ⟨address, if world.rank = root then flags else Listener.Listen_for_nothing⟩,
    m_listener := ⟨address + 1, flags⟩ }

/-- `LogFromRootOutput(int flags, Communicator& com, Args&&... args)`: the base
is `Listener(com.rank == 0 ? flags : Listen_for_nothing)`. -/
def LogFromRootOutput.create_com (address flags : Nat) (com : Communicator) :
    LogFromRootOutput :=
  { toListener := ⟨address, if com.rank = 0 then flags else Listener.Listen_for_nothing⟩,
    m_listener := ⟨address + 1, flags⟩ }

/-- `LogFromRootOutput(int flags, Communicator& com, int root, Args&&... args)`:
the base is `Listener(com.rank == root ? flags : Listen_for_nothing)`. -/
def LogFromRootOutput.create_com_root (address flags : Nat) (com : Communicator) (root : Int) :
    LogFromRootOutput :=
  { toListener := ⟨address, if com.rank = root then flags else Listener.Listen_for_nothing⟩,
    m_listener := ⟨address + 1, flags⟩ }

/-- The ranks of a communicator of `N` processes on which the listener that
each process constructs with `LogFromRootOutput(flags, com, root)` reports a
message of mode `mode`. -/
def LogFromRootOutput.reporting (N : Nat) (flags : Nat) (root : Int) (mode : Nat) : List Nat :=
  (List.range N).filter (fun r =>
    (LogFromRootOutput.create_com_root 0 flags ⟨r, N⟩ root).toListener.toReport mode)

/-! ## Integer ranges (`Core::range`)

The template parameters `From`, `To`, `Step` and the member `m_num` are `long`;
they are taken as integers, the arithmetic of the iterator being assumed not to
overflow. -/

/-- The template parameters of `Core::range<From, To, Step>`. -/
structure range where
  From : Int
  To : Int
  Step : Int := 1
  deriving DecidableEq, Repr

/-- `range::iterator`, with its member `m_num`. -/
structure range.iterator where
  m_num : Int
  deriving DecidableEq, Repr

/-- `range::begin()`: `iterator(From)`. -/
def range.begin (r : range) : range.iterator := ⟨r.From⟩

/-- `range::end()`: `iterator(To)`. -/
def range.end_ (r : range) : range.iterator := ⟨r.To⟩

/-- `iterator::operator++()`:
`m_num = ( (To - From) * Step > 0 ? m_num + Step : To )`. -/
def range.iterator.incr (r : range) (it : range.iterator) : range.iterator :=
  ⟨if (r.To - r.From) * r.Step > 0 then it.m_num + r.Step else r.To⟩

/-- `iterator::operator*()`. -/
def range.iterator.deref (it : range.iterator) : Int := it.m_num

/-- `iterator::operator!=(other)`: `m_num * Step < other.m_num * Step`. -/
def range.iterator.ne (r : range) (it other : range.iterator) : Bool :=
  decide (it.m_num * r.Step < other.m_num * r.Step)

/-- The loop `for (it = ...; it != end(); ++it) yield *it`, from the iterator
`it`, with at most `fuel` tests of the loop condition after the first: the
values yielded, `none` when the loop has not ended by then. -/
def range.iterate (r : range) : Nat → range.iterator → Option (List Int)
  | 0, it => if it.ne r r.end_ then none else some []
  | fuel + 1, it =>
      if it.ne r r.end_ then (range.iterate r fuel (it.incr r)).map (fun vs => it.deref :: vs)
      else some []

/-- The values of `for (auto v : range<From, To, Step>())`. -/
def range.values (r : range) (fuel : Nat) : Option (List Int) :=
  r.iterate fuel r.begin

/-- Whether `v` lies between `From` inclusive and `To` exclusive in the
direction of `Step`. -/
def range.between (r : range) (v : Int) : Prop :=
  (0 < r.Step ∧ r.From ≤ v ∧ v < r.To) ∨ (r.Step < 0 ∧ r.To < v ∧ v ≤ r.From)

/-! ## Chronometers: the measures -/

/-- `Core::Chronometer::total_time()`. -/
def Chronometer.total_time {τ : Type} (c : Chronometer τ) : τ := c.m_total_time

/-- `Core::Chronometer::mean_time()`:
`if (m_counter == 0) return 0.; return m_total_time / m_counter;`, the counter
being converted to a time value for the division. -/
def Chronometer.mean_time {τ : Type} [Zero τ] [Div τ] [NatCast τ] (c : Chronometer τ) : τ :=
  if c.m_counter = 0 then 0 else c.m_total_time / (c.m_counter : τ)

/-- `Core::Chronometer::stop()`, the virtual `get_delta_time()` returning
`deltaT`: the new members and the value returned. -/
def Chronometer.stop {τ : Type} [Add τ] (c : Chronometer τ) (deltaT : τ) : Chronometer τ × τ :=
  (c.stop_enter.stop_leave deltaT, deltaT)

/-- A chronometer driven by `start()`/`stop()` pairs, `get_delta_time()`
returning the values of the list in turn: the chronometer afterwards and the
values the calls of `stop()` returned. -/
def Chronometer.pairs {τ : Type} [Add τ] (c : Chronometer τ) : List τ → Chronometer τ × List τ
  | [] => (c, [])
  | deltaT :: rest =>
      let r := c.start.1.stop deltaT
      let rs := Chronometer.pairs r.1 rest
      (rs.1, r.2 :: rs.2)

/-- The per-label stopwatches of a `Communicator::Chronometer`: the objects its
map `m_chronos` holds. -/
def Communicator.Chronometer.stopwatches {τ : Type} (c : Communicator.Chronometer τ) :
    List (StdChronometer τ) :=
  c.m_chronos.filterMap (fun e => e.2)

/-- The pair `chrono[label].start(); ...; chrono[label].stop();`, the clock
readings being `t0` and `t1`. -/
def Communicator.Chronometer.pair {τ : Type} [Zero τ] [Add τ] [Sub τ] (label : String)
    (t0 t1 : τ) (c : Communicator.Chronometer τ) : Option (Communicator.Chronometer τ) := do
  let c ← (c.index label).start t0
  let r ← (c.index label).stop t1
  some r.1

/-- A sequence of such pairs, each with its label and its two clock
readings. -/
def Communicator.Chronometer.pairs {τ : Type} [Zero τ] [Add τ] [Sub τ]
    (c : Communicator.Chronometer τ) :
    List (String × τ × τ) → Option (Communicator.Chronometer τ)
  | [] => some c
  | (label, t0, t1) :: rest => do
      let c ← c.pair label t0 t1
      Communicator.Chronometer.pairs c rest


/-- The time recorded by the stopwatch of `label`; 0 when there is no such
stopwatch. -/
def Communicator.Chronometer.time {τ : Type} [Zero τ] (c : Communicator.Chronometer τ)
    (label : String) : τ :=
  match Chronos.find c.m_chronos label with
  | some s => s.total_time
  | none => 0

/-- The delta of a pair `chrono[label].start(); chrono[label].stop();` with the
clock readings `t0` and `t1`: what `get_delta_time()` returns, `t1 - t0`. -/
def Communicator.Chronometer.delta {τ : Type} [Sub τ] (p : String × τ × τ) : τ :=
  p.2.2 - p.2.1

/-- The additions of a type of times are exact: `+` is associative and
commutative and adding 0 changes nothing.  The additions of `double` are not
(they round). -/
def exact_addition (τ : Type) [Zero τ] [Add τ] : Prop :=
  (∀ a b c : τ, a + b + c = a + (b + c)) ∧ (∀ a b : τ, a + b = b + a) ∧ (∀ a : τ, a + 0 = a)

/-- A chronometer between two pairs: neither it nor any of its stopwatches is
measuring. -/
def Communicator.Chronometer.idle {τ : Type} (c : Communicator.Chronometer τ) : Prop :=
  c.m_is_measuring = false ∧
  ∀ l s, Chronos.find c.m_chronos l = some s → s.m_is_measuring = false

/-! ## Multi-timers (`Core::MultiTimer<Key>`)

The chronometers of a multi-timer live on the heap; an object is known by its
address.  A `std::unique_ptr<Chronometer>` is the address of the object it
owns, `none` when it is null.  Keys are strings. -/

/-- The implementation shared by the `MultiTimer` objects: the map `m_chronos`
from labels to owning pointers, and the number of chronometers allocated so
far, which is the address `new` gives next. -/
structure MultiTimer where
  m_chronos : List (String × Option Nat)
  allocated : Nat
  deriving DecidableEq, Repr

/-- The assignment `m_chronos[label] = std::move(chrono)` of a map of owning
pointers: the entry of `label` holds what `chrono` held. -/
def MultiTimer.store : List (String × Option Nat) → String → Option Nat →
    List (String × Option Nat)
  | [], label, chrono => [(label, chrono)]
  | (k, v) :: rest, label, chrono =>
      if k = label then (k, chrono) :: rest
      else (k, v) :: MultiTimer.store rest label chrono

/-- `MultiTimer::register_as(std::unique_ptr<Chronometer>& chrono, label)`:
`m_chronos[label] = std::move(chrono);`.  The pointer is passed by reference
and moved from: the timer afterwards, and the caller's pointer afterwards,
which is null. -/
def MultiTimer.register_as (m : MultiTimer) (chrono : Option Nat) (label : String) :
    MultiTimer × Option Nat :=
  ({ m with m_chronos := MultiTimer.store m.m_chronos label chrono }, none)

/-- `MultiTimer::subscribe<Chrono>(label, args...)`:
`std::unique_ptr<Chronometer> t(new Chrono(args...)); register_as(t, label);
return *t;`.  The timer afterwards and the object the returned reference is
bound to; `none` when `t` is null where it is dereferenced. -/
def MultiTimer.subscribe (m : MultiTimer) (label : String) : MultiTimer × Option Nat :=
  let t : Option Nat := some m.allocated
  let m : MultiTimer := { m with allocated := m.allocated + 1 }
  let r := m.register_as t label
  let t := r.2
  (r.1, t)

/-- `MultiTimer::operator[](label)`: `return *m_pt_impl->m_chronos[label];`, the
object the returned reference is bound to; `none` when the pointer of the entry
is null. -/
def MultiTimer.index (m : MultiTimer) (label : String) : Option Nat :=
  Chronos.find m.m_chronos label

/-! ## The arithmetic of `double`

A finite `double` is given by its value, a rational number.  The operations
round their exact result to the nearest number with a significand of 53 bits,
ties going to the even significand, as IEEE 754 binary64 does by default; the
range of the exponent is not bounded (no overflow, no subnormal number), and
infinities and NaN are left out. -/

/-- The power `2 ^ e` for an integer `e`. -/
def Double.pow2 (e : Int) : ℚ :=
  if 0 ≤ e then ((2 ^ e.toNat : Nat) : ℚ) else 1 / ((2 ^ (-e).toNat : Nat) : ℚ)

/-- The number of binary digits of `n`, found in at most `fuel` halvings. -/
def Double.digits : Nat → Nat → Nat
  | 0, _ => 0
  | fuel + 1, n => if n = 0 then 0 else Double.digits fuel (n / 2) + 1

/-- The exponent `e` of a rational `q ≠ 0`: `2 ^ e ≤ |q| < 2 ^ (e + 1)`.  It is
the difference of the numbers of digits of the numerator and of the
denominator, or one less. -/
def Double.exponent (q : ℚ) : Int :=
  let e0 : Int := (Double.digits q.num.natAbs q.num.natAbs : Int) - (Double.digits q.den q.den : Int)
  if |q| < Double.pow2 e0 then e0 - 1 else e0

/-- The integer nearest to `s`, the even one of the two when `s` lies half-way. -/
def Double.nearest_even (s : ℚ) : Int :=
  let f : Int := ⌊s⌋
  let r : ℚ := s - f
  if r < 1 / 2 then f
  else if 1 / 2 < r then f + 1
  else if f % 2 = 0 then f else f + 1

/-- Rounding to `double`: the multiple of the unit in the last place
`2 ^ (e - 52)` nearest to `q`, ties to even. -/
def Double.round (q : ℚ) : ℚ :=
  if q = 0 then 0
  else
    let ulp := Double.pow2 (Double.exponent q - 52)
    (Double.nearest_even (q / ulp) : ℚ) * ulp

/-- A finite `double`, by its value. -/
structure Double where
  val : ℚ
  deriving DecidableEq, Repr

/-- The `double` nearest to a rational, as a decimal literal of the source
denotes it. -/
def Double.ofRat (q : ℚ) : Double := ⟨Double.round q⟩

instance : Zero Double := ⟨⟨0⟩⟩
instance : Add Double := ⟨fun a b => ⟨Double.round (a.val + b.val)⟩⟩
instance : Sub Double := ⟨fun a b => ⟨Double.round (a.val - b.val)⟩⟩
instance : Mul Double := ⟨fun a b => ⟨Double.round (a.val * b.val)⟩⟩
instance : OfScientific Double :=
  ⟨fun mantissa exponentSign decimalExponent =>
    Double.ofRat (OfScientific.ofScientific mantissa exponentSign decimalExponent)⟩

/-- The order of `double`: that of the values. -/
instance : LinearOrder Double :=
  LinearOrder.lift' Double.val (fun a b h => by cases a; cases b; cases h; rfl)

/-! ## Bounding boxes (`Geometry::Box`, `Geometry::compute_boundingBox`,
`Geometry::subdivideAdjustAndSort`)

Coordinates are values of a type `K` that has a linear order, the operations
`+`, `-`, `*` and decimal literals (`0.5`, `0.501`); the definitions assume
nothing of this arithmetic, which may round.  A theorem that needs exact
arithmetic says so by taking `K` to be a linearly ordered field.  A pointer to
coordinates (`const K* X`) or into the index array (`std::size_t* indices`) is
the function giving the element at each offset from it; the accesses are taken
to be in bounds, so that a product `i * stride` does not wrap.  `stride` stands
for the constants `PerComponent` and `PerNode` of `geometry/stride.hpp`. -/

/-- `Geometry::Box<K>`: the two vectors of three coordinates. -/
structure Geometry.Box (K : Type) where
  m_minCoords : Fin 3 → K
  m_maxCoords : Fin 3 → K

/-- `Box<K>::Box()`: two vectors of three value-initialised elements. -/
def Geometry.Box.create {K : Type} [Zero K] : Geometry.Box K :=
  ⟨![0, 0, 0], ![0, 0, 0]⟩

/-- `Box<K>::reset()`. -/
def Geometry.Box.reset {K : Type} [Zero K] (_box : Geometry.Box K) : Geometry.Box K :=
  ⟨![0, 0, 0], ![0, 0, 0]⟩

/-- `Box<K>::length()`. -/
def Geometry.Box.length {K : Type} [Sub K] (box : Geometry.Box K) : K :=
  box.m_maxCoords 0 - box.m_minCoords 0

/-- `Box<K>::width()`. -/
def Geometry.Box.width {K : Type} [Sub K] (box : Geometry.Box K) : K :=
  box.m_maxCoords 1 - box.m_minCoords 1

/-- `Box<K>::depth()`. -/
def Geometry.Box.depth {K : Type} [Sub K] (box : Geometry.Box K) : K :=
  box.m_maxCoords 2 - box.m_minCoords 2

/-- `Box<K>::center()`. -/
def Geometry.Box.center {K : Type} [Add K] [Mul K] [OfScientific K] (box : Geometry.Box K) : K × K × K :=
  (0.5 * (box.m_minCoords 0 + box.m_maxCoords 0),
   0.5 * (box.m_minCoords 1 + box.m_maxCoords 1),
   0.5 * (box.m_minCoords 2 + box.m_maxCoords 2))

/-- The box `createBox` starts from: the point at offset `ind`, widened by
`tol`. -/
def Geometry.createBox.first {K : Type} [Add K] [Sub K] (X Y Z : Nat → K) (tol : K)
    (ind : Nat) : Geometry.Box K :=
  ⟨![X ind - tol, Y ind - tol, Z ind - tol], ![X ind + tol, Y ind + tol, Z ind + tol]⟩

/-- The body of the loops of `createBox`, for the point at offset `ind`. -/
def Geometry.createBox.step {K : Type} [LinearOrder K] [Add K] [Sub K] (X Y Z : Nat → K) (tol : K)
    (box : Geometry.Box K) (ind : Nat) : Geometry.Box K :=
  ⟨![min (box.m_minCoords 0) (X ind - tol), min (box.m_minCoords 1) (Y ind - tol),
     min (box.m_minCoords 2) (Z ind - tol)],
   ![max (box.m_maxCoords 0) (X ind + tol), max (box.m_maxCoords 1) (Y ind + tol),
     max (box.m_maxCoords 2) (Z ind + tol)]⟩

/-- `createBox<K, stride>(nbPoints, X, Y, Z, indices, box, tol)`; `indices` is
`none` for `nullptr`. -/
def Geometry.createBox {K : Type} [LinearOrder K] [Zero K] [Add K] [Sub K] (nbPoints : Nat) (X Y Z : Nat → K)
    (indices : Option (Nat → Nat)) (stride : Nat) (box : Geometry.Box K) (tol : K) :
    Geometry.Box K :=
  if nbPoints = 0 then box.reset
  else
    match indices with
    | none =>
        (List.range' 1 (nbPoints - 1)).foldl
          (fun box i => Geometry.createBox.step X Y Z tol box (i * stride))
          (Geometry.createBox.first X Y Z tol 0)
    | some indices =>
        (List.range' 1 (nbPoints - 1)).foldl
          (fun box i => Geometry.createBox.step X Y Z tol box (indices i * stride))
          (Geometry.createBox.first X Y Z tol (indices 0 * stride))

/-- `Geometry::compute_boundingBox<K, stride>(nbPoints, X, Y, Z, indices, tol)`. -/
def Geometry.compute_boundingBox {K : Type} [LinearOrder K] [Zero K] [Add K] [Sub K] (nbPoints : Nat)
    (X Y Z : Nat → K) (indices : Option (Nat → Nat)) (stride : Nat) (tol : K) :
    Geometry.Box K :=
  Geometry.createBox nbPoints X Y Z indices stride Geometry.Box.create tol

/-- The offsets of the points a call selects: `i * stride` without an index
list, `indices[i] * stride` with one, for `i < nbPoints`. -/
def Geometry.selected (nbPoints : Nat) (indices : Option (Nat → Nat)) (stride : Nat) :
    List Nat :=
  (List.range nbPoints).map (fun i =>
    match indices with
    | none => i * stride
    | some indices => indices i * stride)

/-- The coordinate along axis `d` (0, 1, 2 for `X`, `Y`, `Z`) of the point at
offset `ind`. -/
def Geometry.coordinate {K : Type} (X Y Z : Nat → K) (d : Fin 3) (ind : Nat) : K :=
  (![X, Y, Z] d) ind

/-- The test of `sort` on the point at offset `ind`: it lies strictly inside
the box. -/
def Geometry.Box.strictly_contains {K : Type} [LinearOrder K] (box : Geometry.Box K)
    (X Y Z : Nat → K) (ind : Nat) : Bool :=
  decide (X ind > box.m_minCoords 0) && decide (Y ind > box.m_minCoords 1) &&
  decide (Z ind > box.m_minCoords 2) && decide (X ind < box.m_maxCoords 0) &&
  decide (Y ind < box.m_maxCoords 1) && decide (Z ind < box.m_maxCoords 2)

/-- `std::swap(indices[i], indices[j])`. -/
def Geometry.swap (indices : Nat → Nat) (i j : Nat) : Nat → Nat :=
  Function.update (Function.update indices i (indices j)) j (indices i)

/-- The `while` loop of `sort`, with at most `fuel` iterations: the value of
`nbNdInBox` and the index array when it ends, `none` when it has not ended by
then. -/
def Geometry.sort.loop {K : Type} [LinearOrder K] (box : Geometry.Box K)
    (X Y Z : Nat → K) (stride : Nat) :
    Nat → Nat → Nat → (Nat → Nat) → Option (Nat × (Nat → Nat))
  | 0, nbNdInBox, nbPoints, indices =>
      if nbNdInBox < nbPoints then none else some (nbNdInBox, indices)
  | fuel + 1, nbNdInBox, nbPoints, indices =>
      if nbNdInBox < nbPoints then
        let ind := indices nbNdInBox * stride
        if box.strictly_contains X Y Z ind then
          Geometry.sort.loop box X Y Z stride fuel (nbNdInBox + 1) nbPoints indices
        else
          Geometry.sort.loop box X Y Z stride fuel nbNdInBox (nbPoints - 1)
            (Geometry.swap indices nbNdInBox (nbPoints - 1))
      else some (nbNdInBox, indices)

/-- `sort<K, stride>(box, nbPoints, X, Y, Z, indices)`: the number of points
inside the box and the index array afterwards.  Each iteration brings
`nbNdInBox` and `nbPoints` closer by one, so `nbPoints` iterations are
allowed. -/
def Geometry.sort {K : Type} [LinearOrder K] (box : Geometry.Box K) (nbPoints : Nat)
    (X Y Z : Nat → K) (indices : Nat → Nat) (stride : Nat) : Option (Nat × (Nat → Nat)) :=
  Geometry.sort.loop box X Y Z stride nbPoints 0 nbPoints indices

/-- The search of `subdivideAdjustAndSort` for the direction where the box is
the longest: `dirSplt = 0; for (i = 1; i < 3; ++i) if (radOfBox[dirSplt] <
radOfBox[i]) dirSplt = i;`. -/
def Geometry.dirSplt {K : Type} [LinearOrder K] (radOfBox : Fin 3 → K) : Fin 3 :=
  let dirSplt : Fin 3 := if radOfBox 0 < radOfBox 1 then 1 else 0
  if radOfBox dirSplt < radOfBox 2 then 2 else dirSplt

/-- The temporary box `box1` that `subdivideAdjustAndSort` builds to sort the
indices: the half of `box` on the side of the small coordinates along its
longest direction, its radius along that direction being multiplied by
`0.501`. -/
def Geometry.subdivide.box1 {K : Type} [LinearOrder K] [Add K] [Sub K] [Mul K]
    [OfScientific K] (box : Geometry.Box K) :
    Geometry.Box K :=
  let radOfBox : Fin 3 → K := ![0.5 * box.length, 0.5 * box.width, 0.5 * box.depth]
  let center1 : Fin 3 → K := ![box.center.1, box.center.2.1, box.center.2.2]
  let dirSplt := Geometry.dirSplt radOfBox
  let center1 := Function.update center1 dirSplt (center1 dirSplt - 0.5 * radOfBox dirSplt)
  let radOfBox := Function.update radOfBox dirSplt (radOfBox dirSplt * 0.501)
  ⟨![center1 0 - radOfBox 0, center1 1 - radOfBox 1, center1 2 - radOfBox 2],
   ![center1 0 + radOfBox 0, center1 1 + radOfBox 1, center1 2 + radOfBox 2]⟩

/-- Half the extent of `box` along the axis `d`, in the arithmetic of `K`. -/
def Geometry.half_length {K : Type} [Sub K] [Mul K] [OfScientific K] (box : Geometry.Box K)
    (d : Fin 3) : K :=
  0.5 * (box.m_maxCoords d - box.m_minCoords d)

/-- The middle of `box` along the axis `d`, in the arithmetic of `K`. -/
def Geometry.middle {K : Type} [Add K] [Mul K] [OfScientific K] (box : Geometry.Box K)
    (d : Fin 3) : K :=
  0.5 * (box.m_minCoords d + box.m_maxCoords d)

/-- The axis `ds` is the longest direction of `box`, the first one among
equals. -/
def Geometry.longest {K : Type} [LinearOrder K] [Sub K] [Mul K] [OfScientific K]
    (box : Geometry.Box K) (ds : Fin 3) : Prop :=
  (∀ d, ¬ Geometry.half_length box ds < Geometry.half_length box d) ∧
  (∀ d, d < ds → Geometry.half_length box d < Geometry.half_length box ds)

/-- The first half-box of `box` along the axis `ds`, told from `box` alone:
along `ds` it is centred half a half-length below the middle of `box` and its
half-length is `0.501` times that of `box`; along the two other axes it has
the middle and the half-length of `box`.  In exact arithmetic it reaches, along
`ds`, from `1/2000` of the length below the box to `1/2000` of the length past
its middle, and it has the bounds of `box` along the other axes. -/
def Geometry.first_half_box {K : Type} [Add K] [Sub K] [Mul K] [OfScientific K]
    (box : Geometry.Box K) (ds : Fin 3) : Geometry.Box K :=
  ⟨fun d =>
      if d = ds then
        (Geometry.middle box d - 0.5 * Geometry.half_length box d)
          - Geometry.half_length box d * 0.501
      else Geometry.middle box d - Geometry.half_length box d,
   fun d =>
      if d = ds then
        (Geometry.middle box d - 0.5 * Geometry.half_length box d)
          + Geometry.half_length box d * 0.501
      else Geometry.middle box d + Geometry.half_length box d⟩

/-- `Geometry::subdivideAdjustAndSort<K, stride>(box, nbPoints, X, Y, Z,
indices, tol)`: the tuple `(nbPt1, subbox1, nbPt2, subbox2)` returned and the
index array afterwards. -/
def Geometry.subdivideAdjustAndSort {K : Type} [LinearOrder K] [Zero K] [Add K] [Sub K] [Mul K]
    [OfScientific K] (box : Geometry.Box K)
    (nbPoints : Nat) (X Y Z : Nat → K) (indices : Nat → Nat) (stride : Nat) (tol : K) :
    Option ((Nat × Geometry.Box K × Nat × Geometry.Box K) × (Nat → Nat)) := do
  let box1 := Geometry.subdivide.box1 box
  let (nbPt1, indices) ← Geometry.sort box1 nbPoints X Y Z indices stride
  let nbPt2 := nbPoints - nbPt1
  let subbox1 := Geometry.compute_boundingBox nbPt1 X Y Z (some indices) stride tol
  let subbox2 :=
    Geometry.compute_boundingBox nbPt2 X Y Z (some (fun i => indices (nbPt1 + i))) stride tol
  some ((nbPt1, subbox1, nbPt2, subbox2), indices)

/-- Sample data: the abscissas of three points `(0,0,0)`, `(10,4,4)`,
`(3,2,2)`, stored per component. -/
def Geometry.sample.X : Nat → ℚ := fun i => [0, 10, 3].getD i 0
/-- Sample data: the ordinates of the three points. -/
def Geometry.sample.Y : Nat → ℚ := fun i => [0, 4, 2].getD i 0
/-- Sample data: the heights of the three points. -/
def Geometry.sample.Z : Nat → ℚ := fun i => [0, 4, 2].getD i 0

/-- Sample data: the abscissas of three points far from the origin, as
`double`. -/
def Geometry.far.X : Nat → Double :=
  fun i => [1e17, 100000000000010240.0, 100000000000003072.0].getD i 0
/-- Sample data: the ordinates and the heights of the three points far from
the origin. -/
def Geometry.far.Y : Nat → Double :=
  fun i => [1e17, 100000000000004096.0, 100000000000002048.0].getD i 0

/-! ## Kd-trees (`Geometry::KdTreeNode`, `Geometry::KdTree`)

The array `l2g` is seen from the pointer a constructor receives: `l2g i` is the
entry `i` places after it.  A constructor gives back the node it has built and
the array as the construction leaves it.  The recursion of the constructors is
bounded by a depth `fuel`: `none` means that the construction has not returned
within that depth.  `stride` is the template argument of the tree and
`PerComponent` the constant of that name of `geometry/stride.hpp`. -/

/-- The conversion of an `int` to `std::size_t`, which the comparison
`nbNodes > minNbNodesInALeaf` applies to its right-hand side. -/
def Geometry.to_size_t (i : Int) : Nat := (i % 2 ^ 64).toNat

/-- `KdTreeNode<K, stride>`: the number of points `m_nbNds`, the pointer
`m_pt_l2g` (as the place of its first entry in the array of the tree), the two
children (`none` for a null pointer) and the box `m_box`. -/
inductive Geometry.KdTreeNode (K : Type) where
  | mk (m_nbNds : Nat) (m_pt_l2g : Nat)
      (_leftChild _rightChild : Option (Geometry.KdTreeNode K)) (m_box : Geometry.Box K)

/-- `KdTreeNode::nbVertices()`. -/
def Geometry.KdTreeNode.nbVertices {K : Type} : Geometry.KdTreeNode K → Nat
  | .mk m_nbNds _ _ _ _ => m_nbNds

/-- `KdTreeNode::leftChild()`. -/
def Geometry.KdTreeNode.leftChild {K : Type} :
    Geometry.KdTreeNode K → Option (Geometry.KdTreeNode K)
  | .mk _ _ _leftChild _ _ => _leftChild

/-- `KdTreeNode::rightChild()`. -/
def Geometry.KdTreeNode.rightChild {K : Type} :
    Geometry.KdTreeNode K → Option (Geometry.KdTreeNode K)
  | .mk _ _ _ _rightChild _ => _rightChild

/-- The constructor `KdTreeNode(nbNodes, X, Y, Z, minNbNodesInALeaf, l2g, bbox,
tol)`, `pt` being the place of `l2g` in the array of the tree.  It calls
`subdivideAdjustAndSort(m_box, nbNodes, X, Y, Z, l2g, tol)` without template
arguments, so that the stride of the subdivision is the default one,
`PerComponent`, whatever the stride of the tree. -/
def Geometry.KdTreeNode.create_box {K : Type} [LinearOrder K] [Zero K] [Add K] [Sub K] [Mul K]
    [OfScientific K] (X Y Z : Nat → K)
    (minNbNodesInALeaf : Int) (PerComponent : Nat) (tol : K) :
    Nat → Nat → (Nat → Nat) → Nat → Geometry.Box K →
      Option (Geometry.KdTreeNode K × (Nat → Nat))
  | 0, _, _, _, _ => none
  | fuel + 1, nbNodes, l2g, pt, bbox =>
      if nbNodes > Geometry.to_size_t minNbNodesInALeaf then do
        let ((nbNodesInBox1, box1, nbNodesInBox2, box2), l2g) ←
          Geometry.subdivideAdjustAndSort bbox nbNodes X Y Z l2g PerComponent tol
        let (_leftChild, l2g) ←
          if nbNodesInBox1 > 0 then
            (Geometry.KdTreeNode.create_box X Y Z minNbNodesInALeaf PerComponent tol fuel
              nbNodesInBox1 l2g pt box1).map (fun r => (some r.1, r.2))
          else some (none, l2g)
        let (_rightChild, l2g) ←
          if nbNodesInBox2 > 0 then
            (Geometry.KdTreeNode.create_box X Y Z minNbNodesInALeaf PerComponent tol fuel
              nbNodesInBox2 (fun i => l2g (nbNodesInBox1 + i)) (pt + nbNodesInBox1) box2).map
              (fun r => (some r.1,
                fun i => if i < nbNodesInBox1 then l2g i else r.2 (i - nbNodesInBox1)))
          else some (none, l2g)
        some (.mk nbNodes pt _leftChild _rightChild bbox, l2g)
      else some (.mk nbNodes pt none none bbox, l2g)

/-- The constructor `KdTreeNode(nbNodes, X, Y, Z, minNbNodesInALeaf, l2g, tol)`:
`m_box` is the bounding box of the points, and the body is that of the
constructor that receives the box. -/
def Geometry.KdTreeNode.create {K : Type} [LinearOrder K] [Zero K] [Add K] [Sub K] [Mul K]
    [OfScientific K] (fuel : Nat) (nbNodes : Nat)
    (X Y Z : Nat → K) (minNbNodesInALeaf : Int) (l2g : Nat → Nat) (stride PerComponent : Nat)
    (tol : K) : Option (Geometry.KdTreeNode K × (Nat → Nat)) :=
  Geometry.KdTreeNode.create_box X Y Z minNbNodesInALeaf PerComponent tol fuel nbNodes l2g 0
    (Geometry.compute_boundingBox nbNodes X Y Z (some l2g) stride tol)

/-- The constructor `KdTreeNode(nbNodes1, nbNodes2, X, Y, Z, minNbNodesInALeaf,
l2g, tol)`, the children being built within the depth `fuel`. -/
def Geometry.KdTreeNode.create2 {K : Type} [LinearOrder K] [Zero K] [Add K] [Sub K] [Mul K]
    [OfScientific K] (fuel : Nat)
    (nbNodes1 nbNodes2 : Nat) (X Y Z : Nat → K) (minNbNodesInALeaf : Int) (l2g : Nat → Nat)
    (stride PerComponent : Nat) (tol : K) : Option (Geometry.KdTreeNode K × (Nat → Nat)) := do
  let m_box := Geometry.compute_boundingBox (nbNodes1 + nbNodes2) X Y Z (some l2g) stride tol
  let box1 := Geometry.compute_boundingBox nbNodes1 X Y Z (some l2g) stride tol
  let box2 :=
    Geometry.compute_boundingBox nbNodes2 X Y Z (some (fun i => l2g (nbNodes1 + i))) stride tol
  let (_leftChild, l2g) ←
    if nbNodes1 > 0 then
      (Geometry.KdTreeNode.create_box X Y Z minNbNodesInALeaf PerComponent tol fuel
        nbNodes1 l2g 0 box1).map (fun r => (some r.1, r.2))
    else some (none, l2g)
  let (_rightChild, l2g) ←
    if nbNodes2 > 0 then
      (Geometry.KdTreeNode.create_box X Y Z minNbNodesInALeaf PerComponent tol fuel
        nbNodes2 (fun i => l2g (nbNodes1 + i)) nbNodes1 box2).map
        (fun r => (some r.1, fun i => if i < nbNodes1 then l2g i else r.2 (i - nbNodes1)))
    else some (none, l2g)
  some (.mk (nbNodes1 + nbNodes2) 0 _leftChild _rightChild m_box, l2g)

/-- `KdTree(nbNodes, X, Y, Z, minNbNodesInALeaf, l2g, tol)`: the root (`none`
for a null pointer) and the array `l2g` afterwards. -/
def Geometry.KdTree.create {K : Type} [LinearOrder K] [Zero K] [Add K] [Sub K] [Mul K]
    [OfScientific K] (fuel : Nat) (nbNodes : Nat)
    (X Y Z : Nat → K) (minNbNodesInALeaf : Int) (l2g : Nat → Nat) (stride PerComponent : Nat)
    (tol : K) : Option (Option (Geometry.KdTreeNode K) × (Nat → Nat)) :=
  -- for ( i = 0; i < nbNodes; i++ ) l2g[i] = i;
  let l2g := fun i => if i < nbNodes then i else l2g i
  if nbNodes > 0 then
    (Geometry.KdTreeNode.create fuel nbNodes X Y Z minNbNodesInALeaf l2g stride PerComponent
      tol).map
      (fun r => (some r.1, r.2))
  else some (none, l2g)

/-- `KdTree(nbNodes1, nbNodes2, X, Y, Z, minNbNodesInALeaf, l2g, tol)`, `l2g`
being filled by the caller. -/
def Geometry.KdTree.create2 {K : Type} [LinearOrder K] [Zero K] [Add K] [Sub K] [Mul K]
    [OfScientific K] (fuel : Nat)
    (nbNodes1 nbNodes2 : Nat) (X Y Z : Nat → K) (minNbNodesInALeaf : Int) (l2g : Nat → Nat)
    (stride PerComponent : Nat) (tol : K) :
    Option (Option (Geometry.KdTreeNode K) × (Nat → Nat)) :=
  if nbNodes1 + nbNodes2 > 0 then
    (Geometry.KdTreeNode.create2 fuel nbNodes1 nbNodes2 X Y Z minNbNodesInALeaf l2g stride
      PerComponent tol).map (fun r => (some r.1, r.2))
  else some (none, l2g)


/-! # Theorems -/

/-! ## Facts on the wire representation -/

theorem to_int_of_lt {n : Nat} (h : n < 2 ^ 31) : to_int n = (n : Int) := by
  unfold to_int
  have h1 : n % 2 ^ 32 = n := Nat.mod_eq_of_lt (by omega)
  rw [h1, if_pos h]

theorem count_and_type_elements (T : Type_MPI) {n : Nat} (h : T.fits n) :
    (count_and_type T n).elements T = n := by
  unfold Type_MPI.fits at h
  unfold count_and_type Posted.elements
  cases hp : T.must_be_packed
  · simp only [hp, Bool.false_eq_true, if_false] at h ⊢
    rw [to_int_of_lt h]
    simp only [Int.toNat_ofNat, Datatype.extent, T.native_extent hp]
    exact Nat.mul_div_cancel _ T.sizeof_pos
  · simp only [hp, if_true] at h ⊢
    have h2 : size_t_mul n T.sizeofK = n * T.sizeofK := by
      unfold size_t_mul; exact Nat.mod_eq_of_lt (by omega)
    rw [h2, to_int_of_lt h]
    simp only [Int.toNat_ofNat, Datatype.extent, Nat.mul_one]
    exact Nat.mul_div_cancel _ T.sizeof_pos

theorem scalar_posted_elements (T : Type_MPI) (h : T.fits 1) :
    Posted.elements T
      (if T.must_be_packed then { count := to_int T.sizeofK, datatype := .MPI_BYTE }
       else { count := 1, datatype := .mpi_type }) = 1 := by
  have h0 := count_and_type_elements T h
  unfold Type_MPI.fits at h
  unfold count_and_type at h0
  cases hp : T.must_be_packed
  · simp only [hp, Bool.false_eq_true, if_false] at h0 ⊢
    simpa [to_int] using h0
  · simp only [hp, if_true] at h h0 ⊢
    have h2 : size_t_mul 1 T.sizeofK = T.sizeofK := by
      unfold size_t_mul; rw [Nat.one_mul]; exact Nat.mod_eq_of_lt (by omega)
    rwa [h2] at h0

theorem overwrite_of_length_le {α : Type} (src dst : List α) (h : dst.length ≤ src.length) :
    overwrite src dst = src := by
  unfold overwrite
  rw [List.drop_of_length_le h, List.append_nil]

theorem std_copy_of_length_eq {α : Type} (src dst : List α) (h : dst.length = src.length) :
    std_copy src dst = some src := by
  unfold std_copy
  rw [if_pos (by omega), overwrite_of_length_le _ _ (by omega)]

/-- Delivery of `MPI_Bcast` into a buffer of the length of the transmitted
content, with a count that covers it. -/
theorem MPI_Bcast_full {α : Type} (T : Type_MPI) (wire buf : List α) (isRoot : Bool)
    (hlen : buf.length = wire.length) (hfit : T.fits buf.length) (hroot : isRoot = true → buf = wire) :
    MPI_Bcast T wire isRoot buf (count_and_type T buf.length) = wire := by
  unfold MPI_Bcast
  cases isRoot
  · simp only [Bool.false_eq_true, if_false]
    rw [count_and_type_elements T hfit, Nat.min_self, hlen, List.take_length]
    exact overwrite_of_length_le _ _ (by omega)
  · simp only [if_true]
    exact hroot rfl

theorem broadcast_enter_root_vector {α : Type} [Inhabited α] (root : Nat) (src : List α)
    (a : BcastArgs α) (h : root_sends src a) :
    CommunicationContainer.broadcast_enter true root root a.obj_snd a.obj_rcv
      = some { obj_rcv := src, temp := none } := by
  obtain ⟨snd, rcv⟩ := a
  unfold root_sends at h
  unfold CommunicationContainer.broadcast_enter
  cases snd with
  | nullptr => exact absurd h id
  | same =>
    simp only at h
    subst h
    simp
  | other v =>
    simp only at h
    obtain ⟨hv, hl⟩ := h
    subst hv
    by_cases hlt : v.length > rcv.length
    · simp [hlt, std_copy, overwrite]
    · have he : rcv.length = v.length := by omega
      simp [hlt, std_copy_of_length_eq v rcv he]

theorem broadcast_enter_nonroot_vector {α : Type} [Inhabited α] (rank root : Nat) (L : Nat)
    (a : BcastArgs α) (hne : rank ≠ root) (h : sized_for L a) :
    ∃ buf : List α, buf.length = L ∧
      CommunicationContainer.broadcast_enter true rank root a.obj_snd a.obj_rcv
        = some { obj_rcv := buf, temp := none } := by
  obtain ⟨snd, rcv⟩ := a
  unfold sized_for at h
  have hrr : (root == rank) = false := by simpa using fun h' : root = rank => hne h'.symm
  unfold CommunicationContainer.broadcast_enter
  cases snd with
  | nullptr =>
    simp only at h
    exact ⟨rcv, h, by simp [hrr]⟩
  | same =>
    simp only at h
    exact ⟨rcv, h, by simp [hrr]⟩
  | other v =>
    simp only at h
    by_cases hlt : v.length > rcv.length
    · exact ⟨List.replicate v.length default, by simp; omega, by simp [hrr, hlt]⟩
    · exact ⟨rcv, by omega, by simp [hrr, hlt]⟩

theorem broadcast_wire_root_vector {α : Type} [Inhabited α] (T : Type_MPI) (root : Nat)
    (src : List α) (a : BcastArgs α) (hfit : T.fits src.length) (h : root_sends src a) :
    CommunicationContainer.broadcast_wire T true root a.obj_snd a.obj_rcv = some src := by
  unfold CommunicationContainer.broadcast_wire
  rw [broadcast_enter_root_vector root src a h]
  simp only [Option.bind_eq_bind, Option.some_bind, MPI_Bcast_wire, BcastFrame.rcv,
    Option.getD_none]
  rw [count_and_type_elements T hfit, List.take_length]

theorem broadcast_root_vector {α : Type} [Inhabited α] (T : Type_MPI) (root : Nat)
    (src : List α) (a : BcastArgs α) (hfit : T.fits src.length) (h : root_sends src a) :
    CommunicationContainer.broadcast T true root root a.obj_snd a.obj_rcv src = some src := by
  unfold CommunicationContainer.broadcast
  rw [broadcast_enter_root_vector root src a h]
  simp only [Option.bind_eq_bind, Option.some_bind,
    CommunicationContainer.broadcast_leave, BcastFrame.rcv, Option.getD_none, if_true]
  rw [MPI_Bcast_full T src src _ rfl hfit (fun _ => rfl)]

theorem broadcast_nonroot_vector {α : Type} [Inhabited α] (T : Type_MPI) (rank root : Nat)
    (src : List α) (a : BcastArgs α) (hfit : T.fits src.length) (hne : rank ≠ root)
    (h : sized_for src.length a) :
    CommunicationContainer.broadcast T true rank root a.obj_snd a.obj_rcv src = some src := by
  obtain ⟨buf, hlen, hbuf⟩ := broadcast_enter_nonroot_vector rank root src.length a hne h
  have hrr : (root == rank) = false := by simpa using fun h' : root = rank => hne h'.symm
  unfold CommunicationContainer.broadcast
  rw [hbuf]
  simp only [Option.bind_eq_bind, Option.some_bind,
    CommunicationContainer.broadcast_leave, BcastFrame.rcv, Option.getD_none, if_true]
  rw [MPI_Bcast_full T src buf _ hlen (hlen ▸ hfit) (by simp [hrr])]

/-- C1 (amended).  For every group size `N ≥ 1` and every root `r < N`:
(scalar payload) after the broadcast of one object every rank's destination is
the root's source value; (contiguous vector payload) when the root broadcasts
`src` in place or into a destination that is not longer than `src`, and every
other rank's destination vector has the length of `src` when it reaches the
substrate, every rank's destination is `src` after the broadcast.  Counts are
taken to fit the `int` parameter of the substrate. -/
theorem bcast_delivers_root_value (N root : Nat) (hroot : root < N) :
    (∀ (α : Type) (T : Type_MPI) (args : Nat → Option α × α) (v : α),
        T.fits 1 → (args root).1 = some v →
        ∀ rank, rank < N → bcast_scalar T root args rank = some v) ∧
    (∀ (α : Type) [Inhabited α] (T : Type_MPI) (args : Nat → BcastArgs α) (src : List α),
        T.fits src.length → root_sends src (args root) →
        (∀ rank, rank < N → rank ≠ root → sized_for src.length (args rank)) →
        ∀ rank, rank < N → bcast_container T true root args rank = some src) := by
  refine ⟨?_, ?_⟩
  · intro α T args v hfit hv rank _
    have hel := scalar_posted_elements T hfit
    unfold bcast_scalar Communication.broadcast_wire Communication.broadcast
    rw [hv]
    simp only [Option.bind_eq_bind, Option.some_bind, MPI_Bcast_wire, MPI_Bcast, hel]
    by_cases hr : root = rank
    · subst hr
      simp [hv]
    · have hrr : (root == rank) = false := by simpa using hr
      simp [hrr, overwrite]
  · intro α _ T args src hfit hsend hsized rank hrank
    unfold bcast_container
    rw [broadcast_wire_root_vector T root src (args root) hfit hsend]
    simp only [Option.bind_eq_bind, Option.some_bind]
    by_cases hr : rank = root
    · subst hr
      exact broadcast_root_vector T rank src (args rank) hfit hsend
    · exact broadcast_nonroot_vector T rank root src (args rank) hfit hr
        (hsized rank hrank hr)

/-- Witness of `bcast_delivers_root_value`: two ranks, root 0; an `int` scalar
and an `int` vector broadcast into a destination of the right length. -/
theorem bcast_delivers_root_value_witness :
    bcast_scalar Type_MPI.int 0
        (fun r => if r = 0 then (some (5 : Int), 0) else (none, 0)) 1 = some 5 ∧
    bcast_container Type_MPI.int true 0
        (fun r => if r = 0 then ⟨.other [(7 : Int), 8], []⟩ else ⟨.nullptr, [0, 0]⟩) 1
      = some [7, 8] :=
  ⟨(bcast_delivers_root_value 2 0 (by decide)).1 Int Type_MPI.int
      (fun r => if r = 0 then (some (5 : Int), 0) else (none, 0)) 5 (by decide) rfl 1
      (by decide),
   (bcast_delivers_root_value 2 0 (by decide)).2 Int Type_MPI.int
      (fun r => if r = 0 then ⟨.other [(7 : Int), 8], []⟩ else ⟨.nullptr, [0, 0]⟩)
      [7, 8] (by decide)
      (by simp [root_sends])
      (fun rank h hne => by
        have h1 : rank = 1 := by omega
        subst h1
        simp [sized_for])
      1 (by decide)⟩

/-- C1 (as stated) fails.  Two ranks, root 0 broadcasting the vector `[7, 8]`:
a non-root rank that calls `bcast(o_rcv)` with an empty destination vector
keeps an empty vector; and with a non-contiguous container (a list) a
non-root destination already of length 2 keeps its former content `[0, 0]`. -/
theorem bcast_undersized_or_list_counterexample :
    (bcast_container Type_MPI.int true 0
        (fun r => if r = 0 then ⟨.other [(7 : Int), 8], []⟩ else ⟨.nullptr, []⟩) 1
      = some [] ∧
     bcast_container Type_MPI.int false 0
        (fun r => if r = 0 then ⟨.other [(7 : Int), 8], [1, 1]⟩ else ⟨.nullptr, [0, 0]⟩) 1
      = some [0, 0]) ∧
    ¬ (∀ (isVector : Bool) (args : Nat → BcastArgs Int) (src : List Int),
        (args 0).obj_snd = .other src →
        ∀ rank, rank < 2 → bcast_container Type_MPI.int isVector 0 args rank = some src) := by
  refine ⟨⟨by decide, by decide⟩, ?_⟩
  intro h
  have h1 := h true (fun r => if r = 0 then ⟨.other [(7 : Int), 8], []⟩ else ⟨.nullptr, []⟩)
    [7, 8] rfl 1 (by decide)
  revert h1
  decide

/-! ## Blocking receive -/

theorem fits_mono (T : Type_MPI) {n n' : Nat} (hle : n ≤ n') (h : T.fits n') : T.fits n := by
  unfold Type_MPI.fits at h ⊢
  cases hp : T.must_be_packed
  · simp only [hp, Bool.false_eq_true, if_false] at h ⊢
    omega
  · simp only [hp, if_true] at h ⊢
    exact lt_of_le_of_lt (Nat.mul_le_mul_right _ hle) h

theorem lt_of_fits (T : Type_MPI) {n : Nat} (h : T.fits n) : n < 2 ^ 31 := by
  unfold Type_MPI.fits at h
  cases hp : T.must_be_packed
  · simpa [hp] using h
  · simp only [hp, if_true] at h
    exact lt_of_le_of_lt (Nat.le_mul_of_pos_right _ T.sizeof_pos) h

theorem MPI_Get_count_eq {α : Type} (T : Type_MPI) (msg : List α)
    (hext : T.mpi_type_extent = T.sizeofK) (hlt : msg.length < 2 ^ 31) :
    MPI_Get_count T msg = some msg.length := by
  have hpos := T.sizeof_pos
  unfold MPI_Get_count
  simp only [hext]
  rw [if_neg (by omega), Nat.mul_mod_left, Nat.mul_div_cancel _ hpos]
  simp only [ne_eq, not_true_eq_false, if_false]
  rw [if_pos hlt]

/-- The blocking receive of a container, in closed form: the message written
over the destination, which the source first replaces by a zero-filled vector
of the message length when it is a shorter vector or not a vector at all. -/
theorem recv_eq {α : Type} [Inhabited α] (T : Type_MPI) (isVector : Bool)
    (rcvobj msg : List α) (hext : T.mpi_type_extent = T.sizeofK)
    (hfit : T.fits (max rcvobj.length msg.length)) :
    CommunicationContainer.recv T isVector rcvobj msg
      = some (overwrite msg
          (if isVector = true ∧ msg.length ≤ rcvobj.length then rcvobj
           else List.replicate msg.length default)) := by
  have hm : msg.length < 2 ^ 31 := lt_of_fits T (fits_mono T (le_max_right _ _) hfit)
  unfold CommunicationContainer.recv
  rw [MPI_Get_count_eq T msg hext hm]
  simp only [Option.bind_eq_bind, Option.some_bind]
  cases isVector
  · simp only [Bool.false_eq_true, if_false, false_and]
    have hf : T.fits (List.replicate msg.length (default : α)).length := by
      rw [List.length_replicate]; exact fits_mono T (le_max_right _ _) hfit
    unfold MPI_Recv
    rw [count_and_type_elements T hf]
    simp
  · simp only [if_true, true_and]
    by_cases hlt : rcvobj.length < msg.length
    · have hf : T.fits (List.replicate msg.length (default : α)).length := by
        rw [List.length_replicate]; exact fits_mono T (le_max_right _ _) hfit
      rw [if_pos hlt, if_neg (by omega)]
      unfold MPI_Recv
      rw [count_and_type_elements T hf]
      simp
    · have hf : T.fits rcvobj.length := fits_mono T (le_max_left _ _) hfit
      rw [if_neg hlt, if_pos (by omega)]
      unfold MPI_Recv
      rw [count_and_type_elements T hf]
      simp only [Nat.min_self]
      rw [if_pos (by omega)]
      rfl

/-- With a registry whose `mpi_type()` for a packed type is a one-byte unit
(an assumption on `constantes.hpp`), the probe counts bytes: a vector of two
12-byte elements that receives a message of three elements is replaced by a
vector of 36 elements. -/
theorem recv_packed_byte_unit_example :
    (CommunicationContainer.recv Type_MPI.packed12 true [(1 : Int), 2] [5, 6, 7]).map
      List.length = some 36 := by
  decide

theorem ring_token_length (N k : Nat) (h : k ≤ N) : (ring_token N k).length = N := by
  unfold ring_token
  simp
  omega

theorem ring_token_set (N k : Nat) (h : k < N) :
    (ring_token N k).set k 1 = ring_token N (k + 1) := by
  unfold ring_token
  have h1 : N - k = (N - (k + 1)) + 1 := by omega
  rw [h1, List.replicate_succ, List.set_append_right _ _ (by simp)]
  simp [List.replicate_succ']

theorem int_fits {n : Nat} (h : n < 2 ^ 31) : Type_MPI.int.fits n := by
  unfold Type_MPI.fits
  simpa [Type_MPI.int] using h

theorem send_vector_eq {α : Type} [Inhabited α] (T : Type_MPI) (snd_arr : List α)
    (hfit : T.fits snd_arr.length) :
    CommunicationContainer.send T true snd_arr = some snd_arr := by
  unfold CommunicationContainer.send CommunicationContainer.send_posted
  simp only [if_true, Option.bind_eq_bind, Option.some_bind, MPI_Send_wire]
  rw [count_and_type_elements T hfit, List.take_length]

theorem vector_set_token (N k : Nat) (h : k < N) :
    vector_set (ring_token N k) k 1 = some (ring_token N (k + 1)) := by
  unfold vector_set
  rw [if_pos (by rw [ring_token_length N k (by omega)]; exact h), ring_token_set N k h]

theorem ring_message_eq (N : Nat) (hN : N < 2 ^ 31) (r : Nat) (hr : r < N) :
    ring_message N r = some (ring_token N (r + 1)) := by
  induction r with
  | zero =>
    have h0 : List.replicate N (0 : Int) = ring_token N 0 := by simp [ring_token]
    unfold ring_message
    rw [h0, vector_set_token N 0 hr]
    simp only [Option.bind_eq_bind, Option.some_bind]
    exact send_vector_eq _ _ (int_fits (by rw [ring_token_length N 1 (by omega)]; exact hN))
  | succ r ih =>
    have hlen : (ring_token N (r + 1)).length = N := ring_token_length N (r + 1) (by omega)
    unfold ring_message
    rw [ih (by omega)]
    simp only [Option.bind_eq_bind, Option.some_bind]
    rw [recv_eq Type_MPI.int true [] _ rfl (int_fits (by simp [hlen]; exact hN))]
    rw [if_neg (by simp [hlen]; omega), overwrite_of_length_le _ _ (by simp)]
    simp only [Option.some_bind]
    rw [vector_set_token N (r + 1) hr]
    simp only [Option.some_bind]
    exact send_vector_eq _ _
      (int_fits (by rw [ring_token_length N (r + 1 + 1) (by omega)]; exact hN))

theorem ring_array_length (N : Nat) (hN : N < 2 ^ 31) (h2 : 2 ≤ N) (r : Nat) (hr : r < N) :
    ∃ a, ring_array N r = some a ∧ a.length = N := by
  cases r with
  | zero =>
    have h0 : List.replicate N (0 : Int) = ring_token N 0 := by simp [ring_token]
    have hlen : (ring_token N (N - 1 + 1)).length = N := ring_token_length N _ (by omega)
    have hlen1 : (ring_token N (0 + 1)).length = N := ring_token_length N _ (by omega)
    unfold ring_array
    rw [h0, vector_set_token N 0 (by omega), ring_message_eq N hN (N - 1) (by omega)]
    simp only [Option.bind_eq_bind, Option.some_bind]
    rw [recv_eq Type_MPI.int true _ _ rfl (int_fits (by simp [hlen, hlen1]; exact hN))]
    refine ⟨_, rfl, ?_⟩
    rw [if_pos ⟨rfl, by omega⟩, overwrite_of_length_le _ _ (by omega)]
    exact hlen
  | succ r =>
    have hlen : (ring_token N (r + 1)).length = N := ring_token_length N (r + 1) (by omega)
    rw [ring_array, ring_message_eq N hN r (by omega)]
    simp only [Option.bind_eq_bind, Option.some_bind]
    rw [recv_eq Type_MPI.int true [] _ rfl (int_fits (by simp [hlen]; exact hN))]
    rw [if_neg (by simp [hlen]; omega), overwrite_of_length_le _ _ (by simp)]
    simp only [Option.some_bind]
    rw [vector_set_token N (r + 1) hr]
    exact ⟨_, rfl, ring_token_length N _ (by omega)⟩

theorem ring_array_zero (N : Nat) (hN : N < 2 ^ 31) (h2 : 2 ≤ N) :
    ring_array N 0 = some (List.replicate N 1) := by
  have h0 : List.replicate N (0 : Int) = ring_token N 0 := by simp [ring_token]
  have hlen : (ring_token N (N - 1 + 1)).length = N := ring_token_length N _ (by omega)
  have hlen1 : (ring_token N (0 + 1)).length = N := ring_token_length N _ (by omega)
  unfold ring_array
  rw [h0, vector_set_token N 0 (by omega), ring_message_eq N hN (N - 1) (by omega)]
  simp only [Option.bind_eq_bind, Option.some_bind]
  rw [recv_eq Type_MPI.int true _ _ rfl (int_fits (by simp [hlen, hlen1]; exact hN))]
  rw [if_pos ⟨rfl, by omega⟩, overwrite_of_length_le _ _ (by omega)]
  have h3 : N - 1 + 1 = N := by omega
  rw [h3]
  simp [ring_token]

/-- C7.  For every `N ≥ 2` (a group size, hence an `int`), in the ring of
`test_communicator.cpp` where rank 0 sends an `N`-element vector with only
index 0 set, every rank `r > 0` receives from `r - 1` into an empty vector,
sets index `r` and forwards, and rank 0 finally receives from `N - 1` and
broadcasts, every rank ends with the all-ones vector of length `N`. -/
theorem ring_all_ones (N : Nat) (h2 : 2 ≤ N) (hN : N < 2 ^ 31) (rank : Nat) (hr : rank < N) :
    test_communicator_ring N rank = some (List.replicate N 1) := by
  have hfit : Type_MPI.int.fits (List.replicate N (1 : Int)).length :=
    int_fits (by simpa using hN)
  have hwire := broadcast_wire_root_vector Type_MPI.int 0 (List.replicate N (1 : Int))
    { obj_snd := .same, obj_rcv := List.replicate N 1 } hfit rfl
  unfold test_communicator_ring
  rw [ring_array_zero N hN h2]
  simp only [Option.bind_eq_bind, Option.some_bind]
  simp only at hwire
  rw [hwire]
  simp only [Option.some_bind]
  by_cases h0 : rank = 0
  · rw [if_pos h0]
    exact broadcast_root_vector Type_MPI.int 0 (List.replicate N (1 : Int))
      { obj_snd := .same, obj_rcv := List.replicate N 1 } hfit rfl
  · obtain ⟨a, ha, hlen⟩ := ring_array_length N hN h2 rank hr
    rw [if_neg h0, ha]
    simp only [Option.some_bind]
    exact broadcast_nonroot_vector Type_MPI.int rank 0 (List.replicate N (1 : Int))
      { obj_snd := .nullptr, obj_rcv := a } hfit h0 (by simp [sized_for, hlen])

/-- Witness of `ring_all_ones`: four ranks, rank 2. -/
theorem ring_all_ones_witness : test_communicator_ring 4 2 = some [1, 1, 1, 1] :=
  ring_all_ones 4 (by decide) (by decide) 2 (by decide)

/-! ## Splitting into rows and columns -/

theorem count_congr_bound (P Q : Nat → Prop) [DecidablePred P] [DecidablePred Q] (N M : Nat)
    (h : ∀ j, (j < N ∧ P j) ↔ (j < M ∧ Q j)) : Nat.count P N = Nat.count Q M := by
  rw [Nat.count_eq_card_filter_range, Nat.count_eq_card_filter_range]
  congr 1
  ext j
  simp only [Finset.mem_filter, Finset.mem_range]
  exact h j

theorem count_interval (P : Nat → Prop) [DecidablePred P] (lo hi N : Nat) (hN : hi ≤ N)
    (h : ∀ j, j < N → (P j ↔ lo ≤ j ∧ j < hi)) : Nat.count P N = hi - lo := by
  rw [Nat.count_eq_card_filter_range]
  have : (Finset.range N).filter P = Finset.Ico lo hi := by
    ext j
    simp only [Finset.mem_filter, Finset.mem_range, Finset.mem_Ico]
    constructor
    · rintro ⟨hj, hp⟩
      exact (h j hj).1 hp
    · rintro ⟨h1, h2⟩
      exact ⟨by omega, (h j (by omega)).2 ⟨h1, h2⟩⟩
  rw [this, Nat.card_Ico]

theorem count_mod_eq (p c a : Nat) (hp : 0 < p) (hc : c < p) :
    Nat.count (fun j => j % p = c) (a * p) = a := by
  have h := Nat.count_modEq_card (b := a * p) hp c
  rw [Nat.mul_div_cancel _ hp, Nat.mul_mod_left] at h
  simp only [Nat.not_lt_zero, if_false, Nat.add_zero] at h
  refine Eq.trans ?_ h
  apply count_congr_bound
  intro j
  simp [Nat.ModEq, Nat.mod_eq_of_lt hc]

/-- Same quotient and same remainder: same number. -/
theorem eq_of_div_mod (p i j : Nat) (hd : j / p = i / p) (hm : j % p = i % p) : j = i := by
  rw [← Nat.div_add_mod j p, ← Nat.div_add_mod i p, hd, hm]

theorem div_eq_iff_block (p a j : Nat) (hp : 0 < p) :
    j / p = a ↔ a * p ≤ j ∧ j < (a + 1) * p := by
  constructor
  · intro h
    subst h
    refine ⟨Nat.div_mul_le_self j p, ?_⟩
    have := Nat.lt_succ_iff.mpr (le_refl (j / p))
    exact (Nat.div_lt_iff_lt_mul hp).1 this
  · rintro ⟨h1, h2⟩
    apply le_antisymm
    · exact Nat.lt_succ_iff.1 ((Nat.div_lt_iff_lt_mul hp).2 h2)
    · exact (Nat.le_div_iff_mul_le hp).2 h1

/-- C8.  For every `p ≥ 1` and `N = p * p` processes, splitting the global
communicator with color `rank % p` and key `rank / p` gives every process a
communicator of size `p` in which its rank is `rank / p`; with color and key
swapped the communicator has size `p` and the rank is `rank % p`. -/
theorem split_rows_and_columns (p : Nat) (hp : 1 ≤ p) (i : Nat) (hi : i < p * p) :
    (rowCom p i).size = p ∧ (rowCom p i).rank = ((i / p : Nat) : Int) ∧
    (colCom p i).size = p ∧ (colCom p i).rank = ((i % p : Nat) : Int) := by
  have hp0 : 0 < p := hp
  have hc : i % p < p := Nat.mod_lt _ hp0
  have ha : i / p < p := (Nat.div_lt_iff_lt_mul hp0).2 hi
  have hap : i / p * p ≤ p * p := Nat.mul_le_mul_right _ (le_of_lt ha)
  have hsucc : (i / p + 1) * p ≤ p * p := Nat.mul_le_mul_right _ ha
  have hdm : i / p * p + i % p = i := by rw [Nat.mul_comm]; exact Nat.div_add_mod i p
  simp only [rowCom, colCom, Communicator.split, MPI_Comm_split_size, MPI_Comm_split_rank,
    IBlock, JBlock, Nat.cast_inj, Nat.cast_lt]
  refine ⟨?_, ?_, ?_, ?_⟩
  · exact count_mod_eq p (i % p) p hp0 hc
  · rw [count_congr_bound _ (fun j => j % p = i % p) (p * p) (i / p * p)]
    · exact count_mod_eq p (i % p) (i / p) hp0 hc
    · intro j
      constructor
      · rintro ⟨_, hm, hlt | ⟨hd, hlt⟩⟩
        · exact ⟨(Nat.div_lt_iff_lt_mul hp0).1 hlt, hm⟩
        · have := eq_of_div_mod p i j hd hm
          omega
      · rintro ⟨hlt, hm⟩
        exact ⟨by omega, hm, Or.inl ((Nat.div_lt_iff_lt_mul hp0).2 hlt)⟩
  · rw [count_interval _ (i / p * p) ((i / p + 1) * p) (p * p) hsucc
      (fun j _ => div_eq_iff_block p (i / p) j hp0)]
    rw [Nat.add_mul, Nat.one_mul]
    omega
  · rw [count_interval _ (i / p * p) i (p * p) (le_of_lt hi)]
    · omega
    · intro j _
      constructor
      · rintro ⟨hd, hlt | ⟨hm, hlt⟩⟩
        · have h1 := ((div_eq_iff_block p (i / p) j hp0).1 hd).1
          have h2 : j / p * p + j % p = j := by rw [Nat.mul_comm]; exact Nat.div_add_mod j p
          rw [hd] at h2
          exact ⟨h1, by omega⟩
        · exact ⟨((div_eq_iff_block p (i / p) j hp0).1 hd).1, hlt⟩
      · rintro ⟨h1, h2⟩
        have hd : j / p = i / p := (div_eq_iff_block p (i / p) j hp0).2 ⟨h1, by
          have := ((div_eq_iff_block p (i / p) i hp0).1 rfl).2
          omega⟩
        have h3 : j / p * p + j % p = j := by rw [Nat.mul_comm]; exact Nat.div_add_mod j p
        rw [hd] at h3
        exact ⟨hd, Or.inl (by omega)⟩

/-- Witness of `split_rows_and_columns`: nine processes, process 5. -/
theorem split_rows_and_columns_witness :
    (rowCom 3 5).size = 3 ∧ (rowCom 3 5).rank = ((5 / 3 : Nat) : Int) ∧
    (colCom 3 5).size = 3 ∧ (colCom 3 5).rank = ((5 % 3 : Nat) : Int) :=
  split_rows_and_columns 3 (by decide) 5 (by decide)

/-! ## Non-blocking operations -/

theorem std_copy_replicate {α : Type} [Inhabited α] (l : List α) :
    std_copy l (List.replicate l.length default) = some l := by
  apply std_copy_of_length_eq
  simp

/-- With vectors the non-blocking ring delivers: when every receive vector has
the length of the buffer of the left neighbour, the receive vector of every
rank is that buffer after both waits. -/
theorem nonblocking_ring_vector {α : Type} [Inhabited α] (T : Type_MPI) (N : Nat)
    (buffer dest : Nat → List α) (r : Nat)
    (hlen : (dest r).length = (buffer ((r + N - 1) % N)).length)
    (hfit : T.fits (buffer ((r + N - 1) % N)).length) :
    nonblocking_ring T true N buffer dest r = some (buffer ((r + N - 1) % N)) := by
  have hfit' : T.fits (dest r).length := hlen ▸ hfit
  unfold nonblocking_ring CommunicationContainer.irecv CommunicationContainer.isend
    Request.wait_send Request.wait_recv MPI_Recv MPI_Send_wire
  simp only [if_true, Option.bind_eq_bind, Option.some_bind, Bool.not_true,
    Bool.false_eq_true, if_false]
  rw [count_and_type_elements T hfit, count_and_type_elements T hfit', List.take_length,
    Nat.min_self, if_pos (by omega), overwrite_of_length_le _ _ (by omega)]

/-- C3 (failing input).  Two ranks exchanging lists of two `int` with
`isend` / `irecv` / `wait`, the receive list pre-sized to two elements: `irecv`
posts the receive on a temporary vector that it deletes before it returns and
leaves the caller's list as it was, and `isend` deletes the temporary copy it
sends from; the exchange has no defined result, whereas with vectors rank 0
receives the buffer `[2, 3]` of rank 1. -/
theorem nonblocking_ring_list_undefined :
    nonblocking_ring Type_MPI.int false 2
        (fun r => [1 + (r : Int), 3 * r]) (fun _ => [0, 0]) 0 = none ∧
    CommunicationContainer.irecv Type_MPI.int false [(0 : Int), 0]
      = some ({ storage := .temporary, buffer := [0, 0],
                posted := { count := 2, datatype := .mpi_type }, deleted := true },
              [0, 0]) ∧
    nonblocking_ring Type_MPI.int true 2
        (fun r => [1 + (r : Int), 3 * r]) (fun _ => [0, 0]) 0 = some [2, 3] := by
  decide

/-- C6 (failing input: every container that is not a vector).  The request
returned by `isend` refers to a temporary vector that has already been
deleted when `isend` returns; for a vector it refers to the caller's own
storage, which the call does not release. -/
theorem isend_temporary_deleted {α : Type} [Inhabited α] (T : Type_MPI) (snd_obj : List α) :
    (CommunicationContainer.isend T false snd_obj).map (fun req => (req.storage, req.deleted))
      = some (Storage.temporary, true) ∧
    (CommunicationContainer.isend T true snd_obj).map (fun req => (req.storage, req.deleted))
      = some (Storage.caller, false) := by
  unfold CommunicationContainer.isend
  rw [if_neg (by simp), std_copy_replicate]
  exact ⟨rfl, rfl⟩

/-! ## Reductions -/

/-- C4 (failing input: every rank other than the root).  The buffer overload
of `reduce` with a predefined operator issues no call to the substrate on a
rank that is not the root, whereas the user-functor overload issues
`MPI_Reduce` there. -/
theorem reduce_buffer_nonroot_silent (rank root nbItems : Nat) (objs res : Buffer) (op : Op)
    (commute : Bool) (h : rank ≠ root) :
    Implementation.reduce_buffer rank root nbItems objs res op = [] ∧
    Implementation.reduce_buffer_fct rank root nbItems objs res commute
      = [.MPI_Op_create commute, .MPI_Reduce objs res (to_int nbItems) .user root,
         .MPI_Op_free] := by
  have hrr : (root == rank) = false := by simpa using fun h' : root = rank => h h'.symm
  simp [Implementation.reduce_buffer, Implementation.reduce_buffer_fct, hrr]

/-- Witness of `reduce_buffer_nonroot_silent`: rank 1, root 0, three items. -/
theorem reduce_buffer_nonroot_silent_witness :
    Implementation.reduce_buffer 1 0 3 (.object 10) .nullptr (.predefined 0) = [] ∧
    Implementation.reduce_buffer_fct 1 0 3 (.object 10) .nullptr true
      = [.MPI_Op_create true, .MPI_Reduce (.object 10) .nullptr (to_int 3) .user 0,
         .MPI_Op_free] :=
  reduce_buffer_nonroot_silent 1 0 3 (.object 10) .nullptr (.predefined 0) true (by decide)

/-- C5 (failing input: a single object, or a vector, reduced into itself).
With the result aliasing the source, the one-object overloads and the vector
overloads of `reduce` and `allreduce`, with a predefined operator or a user
functor, hand the same storage to the substrate as send buffer and as receive
buffer and never the in-place marker, whereas the raw-buffer overloads pass
`MPI_IN_PLACE`. -/
theorem reduce_alias_not_in_place (loc szMsg nbItems root : Nat) (op : Op) (commute : Bool) :
    ((Communication.reduce loc (.object loc) op root).all
        (fun c => c.aliased && !c.in_place) = true ∧
     (Communication.allreduce loc (.object loc) op).all
        (fun c => c.aliased && !c.in_place) = true ∧
     (CommunicationContainer.reduce true root root loc szMsg (.object loc) op).all
        (fun c => c.aliased && !c.in_place) = true ∧
     (CommunicationContainer.allreduce true loc szMsg (.object loc) op).all
        (fun c => c.aliased && !c.in_place) = true ∧
     ((Implementation.reduce_fct
          (fun o => Communication.reduce loc (.object loc) o root) commute).filter
        Call.is_reduction).all (fun c => c.aliased && !c.in_place) = true ∧
     ((Implementation.reduce_fct
          (fun o => CommunicationContainer.allreduce true loc szMsg (.object loc) o)
          commute).filter
        Call.is_reduction).all (fun c => c.aliased && !c.in_place) = true) ∧
    ((Implementation.reduce_buffer root root nbItems (.object loc) (.object loc) op).all
        (fun c => c.in_place && !c.aliased) = true ∧
     (Implementation.allreduce_buffer nbItems (.object loc) (.object loc) op).all
        (fun c => c.in_place && !c.aliased) = true ∧
     ((Implementation.reduce_buffer_fct root root nbItems (.object loc) (.object loc)
        commute).filter Call.is_reduction).all (fun c => c.in_place && !c.aliased) = true ∧
     ((Implementation.allreduce_buffer_fct nbItems (.object loc) (.object loc)
        commute).filter Call.is_reduction).all (fun c => c.in_place && !c.aliased) = true) := by
  simp [Communication.reduce, Communication.allreduce, CommunicationContainer.reduce,
    CommunicationContainer.allreduce, Implementation.reduce_buffer,
    Implementation.allreduce_buffer, Implementation.reduce_buffer_fct,
    Implementation.allreduce_buffer_fct, Implementation.reduce_fct, Call.aliased,
    Call.in_place, Call.buffers, Call.is_reduction]

/-! ## Ownership of the communicator handle -/

theorem made_succ (c : Nat) (f : List Ext_Communicator) :
    Substrate.made { created := c + 1, freed := f }
      = Substrate.made { created := c, freed := f } ++ [some (c + 1)] := by
  simp [Substrate.made, List.range_succ]

theorem mem_made (s : Substrate) (h : Ext_Communicator) :
    h ∈ s.made ↔ ∃ k, k < s.created ∧ h = some (k + 1) := by
  simp only [Substrate.made, List.mem_map, List.mem_range]
  constructor
  · rintro ⟨k, hk, rfl⟩
    exact ⟨k, hk, rfl⟩
  · rintro ⟨k, hk, rfl⟩
    exact ⟨k, hk, rfl⟩

theorem made_nodup (s : Substrate) : s.made.Nodup := by
  unfold Substrate.made
  apply List.Nodup.map _ (List.nodup_range _)
  intro a b hab
  simpa using hab

theorem wf_nodup (P : Process) (h : P.wf) : (P.handles ++ P.mpi.freed).Nodup :=
  (List.Perm.nodup_iff h).2 (made_nodup _)

theorem wf_mem_made (P : Process) (h : P.wf) (x : Ext_Communicator)
    (hx : x ∈ P.handles ∨ x ∈ P.mpi.freed) : x ∈ P.mpi.made :=
  (List.Perm.mem_iff h).1 (List.mem_append.2 hx)

theorem valid_iff (s : Substrate) (h : Ext_Communicator) :
    s.valid h = true ↔ (∃ k, h = some k ∧ k ≤ s.created) ∧ h ∉ s.freed := by
  cases h with
  | none => simp [Substrate.valid]
  | some k => simp [Substrate.valid]

theorem wf_valid_handle (P : Process) (h : P.wf) (x : Ext_Communicator) (hx : x ∈ P.handles) :
    P.mpi.valid x = true ∧ x ≠ MPI_COMM_WORLD := by
  obtain ⟨k, hk, rfl⟩ := (mem_made _ _).1 (wf_mem_made P h x (Or.inl hx))
  refine ⟨(valid_iff _ _).2 ⟨⟨k + 1, rfl, hk⟩, ?_⟩, by simp [MPI_COMM_WORLD]⟩
  exact (List.nodup_append.1 (wf_nodup P h)).2.2 hx

theorem wf_world_valid (P : Process) (h : P.wf) : P.mpi.valid MPI_COMM_WORLD = true := by
  refine (valid_iff _ _).2 ⟨⟨0, rfl, Nat.zero_le _⟩, ?_⟩
  intro hmem
  obtain ⟨k, _, hk⟩ := (mem_made _ _).1 (wf_mem_made P h _ (Or.inr hmem))
  simp [MPI_COMM_WORLD] at hk

theorem wf_fresh_not_valid (P : Process) :
    P.mpi.valid (some (P.mpi.created + 1)) = false := by
  simp [Substrate.valid]

theorem wf_fresh_not_held (P : Process) (h : P.wf) :
    some (P.mpi.created + 1) ∉ P.handles ∧ some (P.mpi.created + 1) ∉ P.mpi.freed := by
  constructor
  · intro hmem
    obtain ⟨k, hk, he⟩ := (mem_made _ _).1 (wf_mem_made P h _ (Or.inl hmem))
    simp at he
    omega
  · intro hmem
    obtain ⟨k, hk, he⟩ := (mem_made _ _).1 (wf_mem_made P h _ (Or.inr hmem))
    simp at he
    omega

theorem wf_grown (P : Process) (h : P.wf) : P.grown.wf := by
  unfold Process.wf at h ⊢
  simp only [Process.grown, Process.handles, List.map_append, List.map_cons, List.map_nil]
  rw [made_succ]
  have h1 : List.Perm
      (List.map Implementation.m_communicator P.live ++ [some (P.mpi.created + 1)] ++ P.mpi.freed)
      (List.map Implementation.m_communicator P.live ++ P.mpi.freed ++ [some (P.mpi.created + 1)]) := by
    rw [List.append_assoc, List.append_assoc]
    exact List.Perm.append_left _ List.perm_append_comm
  exact h1.trans (List.Perm.append_right _ h)

theorem add_fresh (P : Process) (h : P.wf) :
    P.add (some ({ created := P.mpi.created + 1, freed := P.mpi.freed },
                 { m_communicator := some (P.mpi.created + 1) })) = some P.grown := by
  have hv : Substrate.valid { created := P.mpi.created + 1, freed := P.mpi.freed }
      (some (P.mpi.created + 1)) = true :=
    (valid_iff _ _).2 ⟨⟨_, rfl, le_refl _⟩, (wf_fresh_not_held P h).2⟩
  simp [Process.add, Communicator.finish, MPI_Comm_query, hv, Process.grown]

theorem add_null (P : Process) (s : Substrate) :
    P.add (some (s, { m_communicator := none })) = none := by
  simp [Process.add, Communicator.finish, MPI_Comm_query, Substrate.valid]

theorem add_none (P : Process) : P.add none = none := by
  simp [Process.add]

theorem add_dup (P : Process) (h : P.wf) (comm : Ext_Communicator) :
    P.add ((MPI_Comm_dup P.mpi comm).bind fun r => some (r.1, { m_communicator := r.2 }))
      = if P.mpi.valid comm then some P.grown else none := by
  unfold MPI_Comm_dup
  by_cases hv : P.mpi.valid comm = true
  · simp only [hv, if_true, Option.some_bind]
    exact add_fresh P h
  · simp [hv, add_none]

theorem perm_cons_eraseIdx {β : Type} (l : List β) (i : Nat) (a : β) (h : l[i]? = some a) :
    List.Perm l (a :: l.eraseIdx i) := by
  induction l generalizing i with
  | nil => simp at h
  | cons b t ih =>
    cases i with
    | zero =>
      simp at h
      subst h
      simp
    | succ i =>
      simp at h
      simp only [List.eraseIdx_cons_succ]
      exact (List.Perm.cons b (ih i h)).trans (List.Perm.swap a b _)

/-- The step of a constructor that completes stores the fresh handle. -/
theorem step_constructor (P P' : Process) (hwf : P.wf) (a : Action)
    (h : P.step a = some P') (ha : a.is_constructor = true) : P' = P.grown := by
  cases a with
  | construct =>
    simp only [Process.step, Implementation.create, Option.bind_eq_bind] at h
    rw [add_dup P hwf] at h
    split at h
    · simpa using h.symm
    · simp at h
  | split com color key =>
    simp only [Process.step, Implementation.create_split, MPI_Comm_split,
      Option.bind_eq_bind] at h
    cases hp : P.live[com]? with
    | none => simp [hp] at h
    | some parent =>
      simp only [hp, Option.some_bind] at h
      by_cases hv : P.mpi.valid parent.m_communicator = true
      · cases color with
        | none =>
          simp only [hv, if_true, Option.some_bind, add_null] at h
          simp at h
        | some c =>
          simp only [hv, if_true, Option.some_bind] at h
          rw [add_fresh P hwf] at h
          simpa using h.symm
      · simp [hv, add_none] at h
  | duplicate com =>
    simp only [Process.step, Implementation.create_copy, Option.bind_eq_bind] at h
    cases hp : P.live[com]? with
    | none => simp [hp] at h
    | some parent =>
      simp only [hp, Option.some_bind] at h
      rw [add_dup P hwf] at h
      split at h
      · simpa using h.symm
      · simp at h
  | adopt excom =>
    simp only [Process.step, Implementation.create_ext, Option.bind_eq_bind] at h
    rw [add_dup P hwf] at h
    split at h
    · simpa using h.symm
    · simp at h
  | destroy obj => simp [Action.is_constructor] at ha

/-- The step of the destructor releases the handle of the object it
destroys. -/
theorem step_destroy (P P' : Process) (obj : Nat) (h : P.step (.destroy obj) = some P') :
    ∃ impl, P.live[obj]? = some impl ∧
      P' = { mpi := { created := P.mpi.created,
                      freed := impl.m_communicator :: P.mpi.freed },
             live := P.live.eraseIdx obj } := by
  simp only [Process.step, Implementation.destroy, MPI_Comm_free, Option.bind_eq_bind] at h
  cases hp : P.live[obj]? with
  | none => simp [hp] at h
  | some impl =>
    simp only [hp, Option.some_bind] at h
    refine ⟨impl, rfl, ?_⟩
    split at h
    · simpa using h.symm
    · simp at h

theorem wf_step (P P' : Process) (hwf : P.wf) (a : Action) (h : P.step a = some P') :
    P'.wf := by
  by_cases ha : a.is_constructor = true
  · rw [step_constructor P P' hwf a h ha]
    exact wf_grown P hwf
  · cases a with
    | destroy obj =>
      obtain ⟨impl, hp, rfl⟩ := step_destroy P P' obj h
      unfold Process.wf at hwf ⊢
      simp only [Process.handles, Substrate.made] at hwf ⊢
      have h1 : List.Perm (List.map Implementation.m_communicator P.live)
          (impl.m_communicator ::
            List.map Implementation.m_communicator (P.live.eraseIdx obj)) := by
        have := (perm_cons_eraseIdx P.live obj impl hp).map Implementation.m_communicator
        simpa using this
      refine List.Perm.trans ?_ hwf
      refine List.Perm.trans ?_ (List.Perm.append_right _ h1).symm
      simp only [List.cons_append]
      exact List.perm_middle
    | construct => simp [Action.is_constructor] at ha
    | split com color key => simp [Action.is_constructor] at ha
    | duplicate com => simp [Action.is_constructor] at ha
    | adopt excom => simp [Action.is_constructor] at ha

theorem wf_init : Process.init.wf := by
  simp [Process.wf, Process.init, Process.handles, Substrate.made]

theorem wf_run (actions : List Action) (P P' : Process) (hwf : P.wf)
    (h : P.run actions = some P') : P'.wf := by
  induction actions generalizing P with
  | nil =>
    simp [Process.run] at h
    rw [← h]; exact hwf
  | cons a rest ih =>
    simp only [Process.run, Option.bind_eq_bind] at h
    cases hs : P.step a with
    | none => simp [hs] at h
    | some Q =>
      simp only [hs, Option.some_bind] at h
      exact ih Q (wf_step P Q hwf a hs) h

theorem destroy_succeeds (P : Process) (hwf : P.wf) (obj : Nat) (h : obj < P.live.length) :
    (P.step (.destroy obj)).isSome = true := by
  have hp : P.live[obj]? = some P.live[obj] := List.getElem?_eq_getElem h
  have hmem : P.live[obj].m_communicator ∈ P.handles :=
    List.mem_map.2 ⟨_, List.getElem_mem h, rfl⟩
  obtain ⟨hv, hw⟩ := wf_valid_handle P hwf _ hmem
  simp [Process.step, hp, Implementation.destroy, MPI_Comm_free, hv, hw]

theorem construct_succeeds (P : Process) (hwf : P.wf) :
    (P.step .construct).isSome = true := by
  simp only [Process.step, Implementation.create, Option.bind_eq_bind]
  rw [add_dup P hwf, wf_world_valid P hwf]
  simp

/-- C9.  In every state `P` a process reaches from its start by constructing
(default, split, duplicate, adopt-external) and destroying `Communicator`
objects: the handles held by the live objects and the released handles are,
each once, exactly the handles the substrate has made, so no two live objects
hold the same handle and no handle is released twice; a constructor that
completes stores the handle the substrate has just made, which was not valid
before the call (so it is neither the handle of the argument nor that of a live
object); the destructor releases exactly the handle of the object it destroys
and nothing else; and the default constructor and the destructor of a live
object always complete. -/
theorem communicator_handles_exclusive (actions : List Action) (P : Process)
    (h : Process.init.run actions = some P) :
    List.Perm (P.handles ++ P.mpi.freed) P.mpi.made ∧
    P.handles.Nodup ∧ P.mpi.freed.Nodup ∧
    (∀ (a : Action) (P' : Process), P.step a = some P' → a.is_constructor = true →
        P'.live = P.live ++ [{ m_communicator := some (P.mpi.created + 1) }] ∧
        P'.mpi.created = P.mpi.created + 1 ∧
        P'.mpi.freed = P.mpi.freed ∧
        P.mpi.valid (some (P.mpi.created + 1)) = false ∧
        some (P.mpi.created + 1) ∉ P.handles) ∧
    (∀ (obj : Nat) (P' : Process), P.step (.destroy obj) = some P' →
        ∃ impl, P.live[obj]? = some impl ∧
          P'.mpi.freed = impl.m_communicator :: P.mpi.freed ∧
          P'.mpi.created = P.mpi.created ∧
          P'.live = P.live.eraseIdx obj) ∧
    (P.step .construct).isSome = true ∧
    (∀ obj, obj < P.live.length → (P.step (.destroy obj)).isSome = true) := by
  have hwf : P.wf := wf_run actions Process.init P wf_init h
  have hnd := wf_nodup P hwf
  refine ⟨hwf, (List.nodup_append.1 hnd).1, (List.nodup_append.1 hnd).2.1, ?_, ?_,
    construct_succeeds P hwf, fun obj ho => destroy_succeeds P hwf obj ho⟩
  · intro a P' hs ha
    rw [step_constructor P P' hwf a hs ha]
    exact ⟨rfl, rfl, rfl, wf_fresh_not_valid P, (wf_fresh_not_held P hwf).1⟩
  · intro obj P' hs
    obtain ⟨impl, hp, rfl⟩ := step_destroy P P' obj hs
    exact ⟨impl, hp, rfl, rfl, rfl⟩

/-- Witness of `communicator_handles_exclusive`: a default communicator, a
split of it, a duplicate of the split, an adopted handle, then the
destruction of the split. -/
theorem communicator_handles_exclusive_witness :
    Process.handles
        { mpi := { created := 4, freed := [some 2] },
          live := [{ m_communicator := some 1 }, { m_communicator := some 3 },
                   { m_communicator := some 4 }] } = [some 1, some 3, some 4] ∧
    [some 1, some 3, some (4 : Nat)].Nodup :=
  ⟨rfl,
   (communicator_handles_exclusive
      [.construct, .split 0 (some 1) 0, .duplicate 1, .adopt (some 2), .destroy 1]
      { mpi := { created := 4, freed := [some 2] },
        live := [{ m_communicator := some 1 }, { m_communicator := some 3 },
                 { m_communicator := some 4 }] }
      (by decide)).2.1⟩

/-! ## Counts of the buffer overloads -/

theorem buffer_overloads_post (T : Type_MPI) (n : Nat) :
    (∀ (α : Type) (buf : List α), (Implementation.send T n buf).1 = count_and_type T n) ∧
    (∀ (α : Type) (buf : List α), (Implementation.isend T n buf).posted = count_and_type T n) ∧
    Implementation.recv T n = count_and_type T n ∧
    (∀ (α : Type) (buf : List α), (Implementation.irecv T n buf).posted = count_and_type T n) := by
  unfold Implementation.send Implementation.isend Implementation.recv Implementation.irecv
    count_and_type
  cases T.must_be_packed <;> simp

theorem count_and_type_packed (T : Type_MPI) (hp : T.must_be_packed = true) (n : Nat)
    (hfit : n * T.sizeofK < 2 ^ 31) :
    count_and_type T n = { count := ((n * T.sizeofK : Nat) : Int), datatype := .MPI_BYTE } := by
  have h2 : size_t_mul n T.sizeofK = n * T.sizeofK := by
    unfold size_t_mul; exact Nat.mod_eq_of_lt (by omega)
  unfold count_and_type
  rw [hp, if_pos rfl, h2, to_int_of_lt hfit]

theorem count_and_type_zero (T : Type_MPI) :
    (count_and_type T 0).count = 0 ∧ (count_and_type T 0).elements T = 0 := by
  unfold count_and_type Posted.elements
  cases T.must_be_packed <;> simp [size_t_mul, to_int]

/-- C10 (amended).  For every packed element type of size `s` and every element
count `n` with `n * s ≤ 2^31 - 1`, the count handed to the substrate by the
buffer overloads of `send`, `isend`, `recv` and `irecv` is `n * s` (with the
datatype `MPI_BYTE`).  For `n = 0`, whatever the element type and whatever the
buffer (the empty one included), the count is 0 and nothing is read from the
buffer; an empty sequence payload is sent with the count 0 and an empty
content. -/
theorem buffer_count (T : Type_MPI) (n : Nat) :
    (T.must_be_packed = true → n * T.sizeofK < 2 ^ 31 →
      ∀ (α : Type) (buf : List α),
        (Implementation.send T n buf).1
          = { count := ((n * T.sizeofK : Nat) : Int), datatype := .MPI_BYTE } ∧
        (Implementation.isend T n buf).posted
          = { count := ((n * T.sizeofK : Nat) : Int), datatype := .MPI_BYTE } ∧
        Implementation.recv T n
          = { count := ((n * T.sizeofK : Nat) : Int), datatype := .MPI_BYTE } ∧
        (Implementation.irecv T n buf).posted
          = { count := ((n * T.sizeofK : Nat) : Int), datatype := .MPI_BYTE }) ∧
    (∀ (α : Type) (buf : List α),
        (Implementation.send T 0 buf).1.count = 0 ∧
        (Implementation.send T 0 buf).2 = [] ∧
        (Implementation.isend T 0 buf).posted.count = 0 ∧
        (Implementation.recv T 0).count = 0 ∧
        (Implementation.irecv T 0 buf).posted.count = 0) ∧
    (∀ (α : Type) [Inhabited α] (isVector : Bool),
        (CommunicationContainer.send_posted T ([] : List α).length).count = 0 ∧
        CommunicationContainer.send T isVector ([] : List α) = some []) := by
  have hz := count_and_type_zero T
  refine ⟨?_, ?_, ?_⟩
  · intro hp hfit α buf
    have hpost := buffer_overloads_post T n
    rw [hpost.1 α buf, hpost.2.1 α buf, hpost.2.2.1, hpost.2.2.2 α buf,
      count_and_type_packed T hp n hfit]
    exact ⟨rfl, rfl, rfl, rfl⟩
  · intro α buf
    have hpost := buffer_overloads_post T 0
    have hw : (Implementation.send T 0 buf).2 = MPI_Send_wire T buf (count_and_type T 0) := by
      unfold Implementation.send count_and_type
      cases T.must_be_packed <;> simp
    rw [hw, hpost.1 α buf, hpost.2.1 α buf, hpost.2.2.1, hpost.2.2.2 α buf]
    refine ⟨hz.1, ?_, hz.1, hz.1, hz.1⟩
    unfold MPI_Send_wire
    rw [hz.2]
    rfl
  · intro α _ isVector
    refine ⟨hz.1, ?_⟩
    unfold CommunicationContainer.send CommunicationContainer.send_posted MPI_Send_wire
    cases isVector <;> simp [std_copy, overwrite]

/-- Witness of `buffer_count`: five elements of a packed 12-byte type. -/
theorem buffer_count_witness :
    (Implementation.send Type_MPI.packed12 5 [(1 : Int), 2, 3, 4, 5]).1
      = { count := 60, datatype := .MPI_BYTE } :=
  ((buffer_count Type_MPI.packed12 5).1 rfl (by decide) Int [1, 2, 3, 4, 5]).1

/-- C10 (as stated) fails.  For a packed element type of 12 bytes and
`n = 178956971` elements, `n * 12 = 2147483652` does not fit the signed 32-bit
count: the buffer overloads hand the substrate the count `-2147483644`. -/
theorem buffer_count_overflow_counterexample :
    (Implementation.send Type_MPI.packed12 178956971 ([] : List Int)).1.count = -2147483644 ∧
    (Implementation.isend Type_MPI.packed12 178956971 ([] : List Int)).posted.count
      = -2147483644 ∧
    (Implementation.recv Type_MPI.packed12 178956971).count = -2147483644 ∧
    (Implementation.irecv Type_MPI.packed12 178956971 ([] : List Int)).posted.count
      = -2147483644 ∧
    (Implementation.recv Type_MPI.packed12 178956971).count
      ≠ ((178956971 * Type_MPI.packed12.sizeofK : Nat) : Int) := by
  decide

/-! ## Context : thread support -/

/-- C11 (amended).  Whenever `Context` construction succeeds: for a requested
level other than `Single` the recorded level `m_provided` is the level the
substrate provided (not the requested one); for the requested level `Single`,
where the substrate is initialised by `MPI_Init` and reports nothing, the
recorded level is `Single`.  Construction succeeds for `Single` and whenever
the substrate provides at least `MPI_THREAD_SERIALIZED`. -/
theorem context_records_provided (requested : thread_support) (provided : MPI_THREAD) :
    (∀ c, Context.construct requested provided = .ok c →
      (requested ≠ .Single → c.m_provided = provided.support) ∧
      (requested = .Single → c.m_provided = .Single)) ∧
    (requested = .Single ∨ MPI_THREAD.SERIALIZED.value ≤ provided.value →
      ∃ c, Context.construct requested provided = .ok c) := by
  cases requested <;> cases provided <;>
    simp [Context.construct, MPI_THREAD.value, MPI_THREAD.support]

/-- Witness of `context_records_provided`: `Multiple` requested, `Serialized`
provided and recorded. -/
theorem context_records_provided_witness :
    (thread_support.Multiple ≠ .Single →
        ({ m_provided := .Serialized } : Context).m_provided = MPI_THREAD.SERIALIZED.support) ∧
    (thread_support.Multiple = .Single →
        ({ m_provided := .Serialized } : Context).m_provided = .Single) :=
  (context_records_provided .Multiple .SERIALIZED).1 { m_provided := .Serialized } rfl

/-- C11 (as stated) fails.  With `Single` requested and a substrate that
provides `MPI_THREAD_MULTIPLE`, construction succeeds and records `Single`,
the requested level, not the provided one. -/
theorem context_single_counterexample :
    Context.construct .Single .MULTIPLE = .ok { m_provided := .Single } ∧
    thread_support.Single ≠ MPI_THREAD.MULTIPLE.support :=
  ⟨rfl, by decide⟩

/-- C12 (failing input: `Funneled` requested, `MPI_THREAD_FUNNELED` provided).
The requested level is available, yet construction throws; in general
construction throws exactly when a level other than `Single` is requested and
the substrate provides less than `MPI_THREAD_SERIALIZED`, whatever the
requested level is. -/
theorem context_funneled_throws (requested : thread_support) (provided : MPI_THREAD) :
    (thread_support.Funneled.available .FUNNELED = true ∧
     Context.construct .Funneled .FUNNELED
       = .error "Not found multithreaded mode for the current MPI library") ∧
    ((∃ msg, Context.construct requested provided = .error msg) ↔
      (requested ≠ .Single ∧ provided.value < MPI_THREAD.SERIALIZED.value)) := by
  refine ⟨⟨by decide, rfl⟩, ?_⟩
  cases requested <;> cases provided <;>
    simp [Context.construct, MPI_THREAD.value]

/-- C13 (failing input: `Funneled` or `Serialized` requested).  The level
handed to `MPI_Init_thread` is `MPI_THREAD_MULTIPLE` whatever level is
requested; the constant that corresponds to the requested level is computed in
`level_support`, which the call does not use. -/
theorem context_init_thread_multiple (requested : thread_support) :
    (Context.init_call .Funneled = .MPI_Init_thread .MULTIPLE ∧
     Context.level_support .Funneled = .FUNNELED ∧
     Context.init_call .Serialized = .MPI_Init_thread .MULTIPLE ∧
     Context.level_support .Serialized = .SERIALIZED) ∧
    (Context.init_call requested
      = if requested = .Single then .MPI_Init else .MPI_Init_thread .MULTIPLE) ∧
    (Context.level_support requested
      = if requested = .Single then .MULTIPLE else requested.constant) := by
  refine ⟨by decide, rfl, ?_⟩
  cases requested <;> rfl

/-! ## Context : the global communicator -/

theorem global_run_set (actions : List GlobalAction) (g : GlobalState) (obj : Nat)
    (h : g.pt_global_com = some obj) :
    ∃ g', g.run actions
        = some (g', List.replicate (actions.count .globalCommunicator) obj) ∧
      g'.proc = g.proc ∧ g'.pt_global_com = some obj := by
  induction actions generalizing g with
  | nil => exact ⟨g, rfl, rfl, h⟩
  | cons a rest ih =>
    cases a with
    | globalCommunicator =>
      obtain ⟨g', hrun, hp, hpt⟩ := ih g h
      refine ⟨g', ?_, hp, hpt⟩
      simp [GlobalState.run, Context.globalCommunicator, h, hrun, List.replicate_succ]
    | destroy_context =>
      obtain ⟨g', hrun, hp, hpt⟩ := ih (Context.destroy g) h
      refine ⟨g', ?_, hp, hpt⟩
      simp [GlobalState.run, hrun]

/-- C14.  For every sequence of calls of `Context::globalCommunicator` and of
destructions of a `Context` that begins with a call: every call returns the
same instance, exactly one `Communicator` has been constructed (by the first
call), the static pointer still designates it at the end, and the destruction
of a `Context` leaves the static pointer and the object as they are. -/
theorem global_communicator_singleton (actions : List GlobalAction) :
    (∃ g, GlobalState.init.run (.globalCommunicator :: actions)
        = some (g, List.replicate (1 + actions.count .globalCommunicator) 0) ∧
      g.proc.live.length = 1 ∧ g.pt_global_com = some 0) ∧
    (∀ g : GlobalState, (Context.destroy g).pt_global_com = g.pt_global_com ∧
      (Context.destroy g).proc = g.proc) := by
  refine ⟨?_, fun g => ⟨rfl, rfl⟩⟩
  have hcall : Context.globalCommunicator GlobalState.init
      = some ({ proc := Process.init.grown, finalized := false, pt_global_com := some 0 }, 0) := by
    decide
  obtain ⟨g', hrun, hp, hpt⟩ := global_run_set actions
    { proc := Process.init.grown, finalized := false, pt_global_com := some 0 } 0 rfl
  refine ⟨g', ?_, ?_, hpt⟩
  · simp only [GlobalState.run, hcall, Option.bind_eq_bind, Option.some_bind, hrun]
    rw [Nat.add_comm, List.replicate_succ]
  · rw [hp]; rfl

/-! ## Lapack wrappers -/

/-- C17.  For `getrf` and `getrs`, `info` being the status returned by the
LAPACK routine: the call returns normally iff `info = 0`; it throws
`std::invalid_argument`, with a message that carries the parameter index
`-info`, iff `info < 0`; it throws `std::runtime_error` with a diagnostic
message iff `info > 0`. -/
theorem lapack_status_outcome (info : Int) :
    ((Lapack.getrf info = .returned ↔ info = 0) ∧
     ((∃ what, Lapack.getrf info = .invalid_argument what) ↔ info < 0) ∧
     (Lapack.getrf info
        = .invalid_argument ("Invalid " ++ printf_d (-info) ++ "th arg. for lapack getrf")
        ↔ info < 0) ∧
     ((∃ what, Lapack.getrf info = .runtime_error what) ↔ 0 < info)) ∧
    ((Lapack.getrs info = .returned ↔ info = 0) ∧
     ((∃ what, Lapack.getrs info = .invalid_argument what) ↔ info < 0) ∧
     (Lapack.getrs info
        = .invalid_argument
            ("getrs : " ++ printf_d (-info) ++ " th parameter has illegal value !")
        ↔ info < 0) ∧
     ((∃ what, Lapack.getrs info = .runtime_error what) ↔ 0 < info)) := by
  unfold Lapack.getrf Lapack.getrs
  rcases lt_trichotomy info 0 with h | h | h
  · have h1 : info ≠ 0 := by omega
    have h2 : ¬ 0 < info := by omega
    simp [h, h1, h2]
  · subst h
    simp
  · have h1 : info ≠ 0 := by omega
    have h2 : ¬ info < 0 := by omega
    simp [h, h1, h2]

/-! ## Chronometers -/

theorem find_assign_same {σ : Type} (m : List (String × Option σ)) (label : String) (obj : σ) :
    Chronos.find (Chronos.assign m label obj) label = some obj := by
  induction m with
  | nil => simp [Chronos.assign, Chronos.find]
  | cons e rest ih =>
    obtain ⟨k, v⟩ := e
    by_cases hk : k = label
    · simp [Chronos.assign, Chronos.find, hk]
    · simp [Chronos.assign, Chronos.find, hk, ih]

theorem find_assign_other {σ : Type} (m : List (String × Option σ)) (label l : String)
    (obj : σ) (h : l ≠ label) :
    Chronos.find (Chronos.assign m label obj) l = Chronos.find m l := by
  induction m with
  | nil =>
    have h' : ¬ label = l := fun e => h e.symm
    simp [Chronos.assign, Chronos.find, h']
  | cons e rest ih =>
    obtain ⟨k, v⟩ := e
    by_cases hk : k = label
    · subst hk
      have h' : ¬ k = l := fun e => h e.symm
      simp [Chronos.assign, Chronos.find, h']
    · by_cases hl : k = l
      · subst hl
        simp [Chronos.assign, Chronos.find, hk]
      · simp [Chronos.assign, Chronos.find, hk, hl, ih]

theorem count_assign_of_none {σ : Type} (m : List (String × Option σ)) (label : String)
    (obj : σ) (h : Chronos.find m label = none) :
    Chronos.count (Chronos.assign m label obj) = Chronos.count m + 1 := by
  induction m with
  | nil => simp [Chronos.assign, Chronos.count]
  | cons e rest ih =>
    obtain ⟨k, v⟩ := e
    by_cases hk : k = label
    · simp only [Chronos.find, hk, if_true] at h
      subst h
      simp [Chronos.assign, Chronos.count, hk]
    · simp only [Chronos.find, hk, if_false] at h
      have := ih h
      simp only [Chronos.count] at this
      cases v <;> simp [Chronos.assign, Chronos.count, hk, this]

/-- The subscript selects a stopwatch under the label, which has the calls
recorded so far, and touches nothing else. -/
theorem index_selects {τ : Type} [Zero τ] (c : Communicator.Chronometer τ) (label : String) :
    ∃ s, Chronos.find (c.index label).m_chronos label = some s ∧
      s.m_counter = c.calls label ∧
      (c.index label).pt_current_chronometer = some label ∧
      (c.index label).is_activated = c.is_activated ∧
      (c.index label).toChronometer = c.toChronometer ∧
      ∀ l, l ≠ label →
        Chronos.find (c.index label).m_chronos l = Chronos.find c.m_chronos l := by
  unfold Communicator.Chronometer.index Communicator.Chronometer.calls
  cases h : Chronos.find c.m_chronos label with
  | none =>
    refine ⟨StdChronometer.create, ?_, rfl, rfl, rfl, rfl, ?_⟩
    · exact find_assign_same _ _ _
    · intro l hl
      exact find_assign_other _ _ _ _ hl
  | some s =>
    exact ⟨s, h, rfl, rfl, rfl, rfl, fun _ _ => rfl⟩

theorem chrono_start_spec {τ : Type} (now : τ) (c : Communicator.Chronometer τ)
    (label : String) (s : StdChronometer τ)
    (hs : Chronos.find c.m_chronos label = some s)
    (hpt : c.pt_current_chronometer = some label) :
    ∃ c' s', c.start now = some c' ∧
      Chronos.find c'.m_chronos label = some s' ∧ s'.m_counter = s.m_counter ∧
      c'.pt_current_chronometer = some label ∧ c'.is_activated = c.is_activated ∧
      ∀ l, l ≠ label → Chronos.find c'.m_chronos l = Chronos.find c.m_chronos l := by
  have hcur : c.current = some (label, s) := by
    simp [Communicator.Chronometer.current, hpt, hs]
  by_cases hm : c.m_is_measuring = true
  · have hstart : c.start now = some c := by
      simp [Communicator.Chronometer.start, Chronometer.start, hm]
    exact ⟨c, s, hstart, hs, rfl, hpt, rfl, fun _ _ => rfl⟩
  · have hstart : c.start now
        = some { c with toChronometer := { c.toChronometer with m_is_measuring := true },
                        m_chronos := Chronos.assign c.m_chronos label (s.start now) } := by
      simp [Communicator.Chronometer.start, Chronometer.start, hm, hcur]
    refine ⟨_, s.start now, hstart, find_assign_same _ _ _, ?_, hpt, rfl, ?_⟩
    · unfold StdChronometer.start Chronometer.start
      by_cases hsm : s.m_is_measuring = true <;> simp [hsm]
    · intro l hl
      exact find_assign_other _ _ _ _ hl

theorem chrono_stop_spec {τ : Type} [Add τ] [Sub τ] (now : τ)
    (c : Communicator.Chronometer τ) (label : String) (s : StdChronometer τ)
    (hs : Chronos.find c.m_chronos label = some s)
    (hpt : c.pt_current_chronometer = some label) :
    ∃ c' s' d, c.stop now = some (c', d) ∧
      Chronos.find c'.m_chronos label = some s' ∧ s'.m_counter = s.m_counter + 1 ∧
      c'.pt_current_chronometer = some label ∧ c'.is_activated = c.is_activated ∧
      ∀ l, l ≠ label → Chronos.find c'.m_chronos l = Chronos.find c.m_chronos l := by
  have hcur : c.current = some (label, s) := by
    simp [Communicator.Chronometer.current, hpt, hs]
  unfold Communicator.Chronometer.stop
  simp only [hcur, Option.bind_eq_bind, Option.some_bind]
  refine ⟨_, (s.stop now).1, _, rfl, find_assign_same _ _ _, ?_, hpt, rfl, ?_⟩
  · simp [StdChronometer.stop, Chronometer.stop_enter, Chronometer.stop_leave]
  · intro l hl
    exact find_assign_other _ _ _ _ hl

/-- C15.  For a profiled operation named `func` of a communicator: when a
chronometer is attached and activated, after the operation the stopwatch keyed
by `func` has one call more than before (one call when it did not exist) and
the stopwatch of every other label is as before; when no chronometer is
attached, or the attached one is deactivated, nothing is created or changed;
`activate()` and `deactivate()` change the activation flag only. -/
theorem profiled_counts_once {τ : Type} [Zero τ] [Add τ] [Sub τ] (func : String) (t0 t1 : τ)
    (c : Communicator.Chronometer τ) :
    (c.is_activated = true →
      ∃ c', profiled func t0 t1 (some c) = some (some c') ∧
        c'.calls func = c.calls func + 1 ∧
        (∀ l, l ≠ func → Chronos.find c'.m_chronos l = Chronos.find c.m_chronos l) ∧
        c'.is_activated = true) ∧
    (c.is_activated = false → profiled func t0 t1 (some c) = some (some c)) ∧
    profiled func t0 t1 (none : Option (Communicator.Chronometer τ)) = some none ∧
    (c.activate = { c with is_activated := true } ∧
     c.deactivate = { c with is_activated := false }) := by
  refine ⟨?_, ?_, ?_, rfl, rfl⟩
  · intro ha
    obtain ⟨s, hs, hcnt, hpt, hact, _, hoth⟩ := index_selects c func
    obtain ⟨c1, s1, hstart, hs1, hcnt1, hpt1, hact1, hoth1⟩ :=
      chrono_start_spec t0 (c.index func) func s hs hpt
    have ha1 : c1.is_activated = true := by rw [hact1, hact, ha]
    obtain ⟨s2, hs2, hcnt2, hpt2, hact2, _, hoth2⟩ := index_selects c1 func
    have hs2' : s2 = s1 := by
      have : Chronos.find (c1.index func).m_chronos func = some s1 := by
        unfold Communicator.Chronometer.index
        rw [hs1]
        exact hs1
      rw [hs2] at this
      exact Option.some.inj this
    subst hs2'
    obtain ⟨c3, s3, d, hstop, hs3, hcnt3, hpt3, hact3, hoth3⟩ :=
      chrono_stop_spec t1 (c1.index func) func s2 hs2 hpt2
    refine ⟨c3, ?_, ?_, ?_, ?_⟩
    · simp [profiled, BEGIN_PROFILE_COMMUNICATION, END_PROFILE_COMMUNICATION, ha, hstart,
        ha1, hstop]
    · simp only [Communicator.Chronometer.calls, hs3]
      show s3.m_counter = _
      rw [hcnt3, hcnt1, hcnt]
      rfl
    · intro l hl
      rw [hoth3 l hl, hoth2 l hl, hoth1 l hl, hoth l hl]
    · rw [hact3, hact2, ha1]
  · intro ha
    simp [profiled, BEGIN_PROFILE_COMMUNICATION, END_PROFILE_COMMUNICATION, ha]
  · simp [profiled, BEGIN_PROFILE_COMMUNICATION, END_PROFILE_COMMUNICATION]

/-- Witness of `profiled_counts_once`: a `send` profiled on a chronometer that
has just been attached. -/
theorem profiled_counts_once_witness :
    ∃ c', profiled "send" (3 : Int) 10 (some Communicator.Chronometer.create)
        = some (some c') ∧
      c'.calls "send" = (Communicator.Chronometer.create : Communicator.Chronometer Int).calls
        "send" + 1 ∧
      (∀ l, l ≠ "send" → Chronos.find c'.m_chronos l
        = Chronos.find (Communicator.Chronometer.create : Communicator.Chronometer Int).m_chronos
            l) ∧
      c'.is_activated = true :=
  (profiled_counts_once "send" (3 : Int) 10 Communicator.Chronometer.create).1 rfl

/-- C16.  Subscript access on a `Communicator::Chronometer`: for a label with
no stopwatch, exactly one stopwatch is added, under that label, with zero
recorded calls, the stopwatches of the other labels are as before, and it is
the selected stopwatch; for a label that has a stopwatch, that stopwatch is
selected and the map and every stopwatch are unchanged (also through the
`const` subscript, which requires the label to have a stopwatch). -/
theorem index_creates_or_selects {τ : Type} [Zero τ] (c : Communicator.Chronometer τ)
    (label : String) :
    (Chronos.find c.m_chronos label = none →
      Chronos.find (c.index label).m_chronos label = some StdChronometer.create ∧
      (StdChronometer.create : StdChronometer τ).nb_calls = 0 ∧
      Chronos.count (c.index label).m_chronos = Chronos.count c.m_chronos + 1 ∧
      (∀ l, l ≠ label →
        Chronos.find (c.index label).m_chronos l = Chronos.find c.m_chronos l) ∧
      (c.index label).current = some (label, StdChronometer.create) ∧
      (c.index label).toChronometer = c.toChronometer ∧
      (c.index label).is_activated = c.is_activated) ∧
    (∀ s, Chronos.find c.m_chronos label = some s →
      c.index label = { c with pt_current_chronometer := some label } ∧
      (c.index label).current = some (label, s) ∧
      c.index_const label = some { c with pt_current_chronometer := some label }) := by
  constructor
  · intro h
    have hf : Chronos.find (c.index label).m_chronos label = some StdChronometer.create := by
      unfold Communicator.Chronometer.index
      rw [h]
      exact find_assign_same _ _ _
    refine ⟨hf, rfl, ?_, ?_, ?_, ?_, ?_⟩
    · unfold Communicator.Chronometer.index
      rw [h]
      exact count_assign_of_none _ _ _ h
    · intro l hl
      unfold Communicator.Chronometer.index
      rw [h]
      exact find_assign_other _ _ _ _ hl
    · have hpt : (c.index label).pt_current_chronometer = some label := by
        unfold Communicator.Chronometer.index
        rw [h]
      simp [Communicator.Chronometer.current, hpt, hf]
    · unfold Communicator.Chronometer.index
      rw [h]
    · unfold Communicator.Chronometer.index
      rw [h]
  · intro s h
    have hi : c.index label = { c with pt_current_chronometer := some label } := by
      unfold Communicator.Chronometer.index
      rw [h]
    refine ⟨hi, ?_, ?_⟩
    · rw [hi]
      simp [Communicator.Chronometer.current, h]
    · unfold Communicator.Chronometer.index_const
      rw [h]

/-- Witness of `index_creates_or_selects`: the label `send` on a chronometer
without stopwatch. -/
theorem index_creates_or_selects_witness :
    Chronos.count ((Communicator.Chronometer.create : Communicator.Chronometer Int).index
        "send").m_chronos
      = Chronos.count (Communicator.Chronometer.create : Communicator.Chronometer Int).m_chronos
        + 1 :=
  ((index_creates_or_selects (Communicator.Chronometer.create : Communicator.Chronometer Int)
      "send").1 rfl).2.2.1

/-! ## Logger -/

theorem toReport_iff_common_bit (l : Listener) (mo : Nat) :
    l.toReport mo = true ↔ ∃ i, l.m_flags.testBit i = true ∧ mo.testBit i = true := by
  unfold Listener.toReport
  simp only [bne_iff_ne, ne_eq]
  constructor
  · intro h
    obtain ⟨i, hi⟩ := Nat.ne_zero_implies_bit_true h
    rw [Nat.testBit_and] at hi
    exact ⟨i, by simpa using hi⟩
  · rintro ⟨i, h1, h2⟩ h0
    have : (l.m_flags &&& mo).testBit i = true := by
      rw [Nat.testBit_and, h1, h2]; rfl
    rw [h0] at this
    simp at this

theorem deliveries_nothing (listeners : List Listener) (obj : String) :
    deliveries listeners Logger.nothing obj = [] := by
  simp [deliveries, Listener.toReport, Logger.nothing, Listener.Listen_for_nothing]

theorem mem_deliveries (listeners : List Listener) (mode : Nat) (obj : String)
    (p : Nat × String) :
    p ∈ deliveries listeners mode obj ↔
      p.2 = obj ∧ ∃ l ∈ listeners, l.address = p.1 ∧ l.toReport mode = true := by
  obtain ⟨a, o⟩ := p
  simp only [deliveries, List.mem_map, List.mem_filter, Prod.mk.injEq]
  constructor
  · rintro ⟨l, ⟨hl, hr⟩, ha, ho⟩
    exact ⟨ho.symm, l, hl, ha, hr⟩
  · rintro ⟨ho, l, hl, ha, hr⟩
    exact ⟨l, ⟨hl, hr⟩, ha, ho.symm⟩

theorem write_eq (w : LoggerWorld) (log : Logger) (impl : Logger.Implementation)
    (obj : String) (h : Logger.impl w log = some impl) :
    Logger.write w log obj
      = some { w with reports :=
          w.reports ++ deliveries impl.m_listeners impl.m_current_mode obj } := by
  simp [Logger.write, Logger.listeners, Logger.get_mode, h, deliveries]

theorem subscribe_new (w : LoggerWorld) (log : Logger) (impl : Logger.Implementation)
    (l : Listener) (h : Logger.impl w log = some impl)
    (hnew : ∀ x ∈ impl.m_listeners, x.address ≠ l.address) :
    Logger.subscribe w log (some l)
      = some (Logger.store w log { impl with m_listeners := impl.m_listeners ++ [l] }, true) := by
  simp only [Logger.subscribe, h, Option.bind_eq_bind, Option.some_bind]
  rw [if_neg]
  simp only [List.any_eq_true, not_exists, not_and]
  intro x hx
  simpa using hnew x hx

/-- C18.  Writing an object to the `Logger` in the current mode `m` delivers it
to exactly the listeners of the list whose flag mask shares at least one bit
with `m`, once each, in the order of the list, which is the order of
subscription (a new listener is appended at the end); with the mode `nothing`,
as set by `LogAssert(false)`, no listener receives it, not even one that
listens for all. -/
theorem logger_write_delivers :
    (∀ (w : LoggerWorld) (log : Logger) (impl : Logger.Implementation) (obj : String),
      Logger.impl w log = some impl →
      Logger.write w log obj
        = some { w with reports :=
            w.reports ++ deliveries impl.m_listeners impl.m_current_mode obj }) ∧
    (∀ (listeners : List Listener) (mode : Nat) (obj : String),
      deliveries listeners mode obj
          = (listeners.filter (fun l => l.toReport mode)).map (fun l => (l.address, obj)) ∧
      (∀ p, p ∈ deliveries listeners mode obj ↔
        p.2 = obj ∧ ∃ l ∈ listeners, l.address = p.1 ∧
          ∃ i, l.m_flags.testBit i = true ∧ mode.testBit i = true)) ∧
    (∀ (w : LoggerWorld) (log : Logger) (impl : Logger.Implementation) (l : Listener),
      Logger.impl w log = some impl →
      (∀ x ∈ impl.m_listeners, x.address ≠ l.address) →
      Logger.subscribe w log (some l)
        = some (Logger.store w log { impl with m_listeners := impl.m_listeners ++ [l] },
                true)) ∧
    (LogAssert false = Logger.nothing ∧
     ∀ (listeners : List Listener) (obj : String),
      deliveries listeners Logger.nothing obj = [] ∧
      deliveries ({ address := 0, m_flags := Listener.Listen_for_all } :: listeners)
        (LogAssert false) obj = []) := by
  refine ⟨write_eq, ?_, subscribe_new, rfl, ?_⟩
  · intro listeners mode obj
    refine ⟨rfl, ?_⟩
    intro p
    rw [mem_deliveries]
    constructor
    · rintro ⟨ho, l, hl, ha, hr⟩
      exact ⟨ho, l, hl, ha, (toReport_iff_common_bit l mode).1 hr⟩
    · rintro ⟨ho, l, hl, ha, hr⟩
      exact ⟨ho, l, hl, ha, (toReport_iff_common_bit l mode).2 hr⟩
  · intro listeners obj
    exact ⟨deliveries_nothing _ _, deliveries_nothing _ _⟩

/-- Witness of `logger_write_delivers`: the three listeners of
`test_logger.cpp` and a message in the mode `information`. -/
theorem logger_write_delivers_witness :
    Logger.write
        { heap := [{ m_current_mode := 8,
                     m_listeners := [⟨100, 8⟩, ⟨200, 7⟩, ⟨300, 16⟩] }],
          m_pt_shared_impl := some 0, reports := [] }
        { m_pt_impl := 0 } "Information from main "
      = some { heap := [{ m_current_mode := 8,
                          m_listeners := [⟨100, 8⟩, ⟨200, 7⟩, ⟨300, 16⟩] }],
               m_pt_shared_impl := some 0,
               reports := [] ++ deliveries [⟨100, 8⟩, ⟨200, 7⟩, ⟨300, 16⟩] 8
                 "Information from main " } :=
  logger_write_delivers.1 _ { m_pt_impl := 0 }
    { m_current_mode := 8, m_listeners := [⟨100, 8⟩, ⟨200, 7⟩, ⟨300, 16⟩] } _ rfl

theorem of_logger (impl : Logger.Implementation) (r : List (Nat × String)) (n i : Nat)
    (h : i < n) : (LogState.of impl r n).loggers[i]? = some { m_pt_impl := 0 } := by
  simp [LogState.of, List.getElem?_replicate, h]

theorem of_subscribed (impl : Logger.Implementation) (r : List (Nat × String)) (n : Nat) :
    (LogState.of impl r n).subscribed = impl.m_listeners ∧
    (LogState.of impl r n).mode = impl.m_current_mode := by
  simp [LogState.of, LogState.subscribed, LogState.mode, LogState.shared]

theorem filter_of_not_any (ls : List Listener) (a : Nat)
    (h : ¬ ls.any (fun x => x.address == a) = true) :
    ls.filter (fun x => x.address != a) = ls := by
  rw [List.filter_eq_self]
  intro x hx
  simp only [List.any_eq_true, not_exists, not_and] at h
  simpa using h x hx

theorem step_create_of (impl : Logger.Implementation) (r : List (Nat × String)) (n : Nat) :
    (LogState.of impl r n).step .create = some (LogState.of impl r (n + 1)) := by
  simp [LogState.step, LogState.of, Logger.create, List.replicate_succ']

theorem step_write_of (impl : Logger.Implementation) (r : List (Nat × String)) (n i : Nat)
    (h : i < n) (obj : String) :
    (LogState.of impl r n).step (.write i obj)
      = some (LogState.of impl
          (r ++ deliveries impl.m_listeners impl.m_current_mode obj) n) := by
  simp only [LogState.step, of_logger impl r n i h, Option.bind_eq_bind, Option.some_bind]
  rw [write_eq _ _ impl obj (by simp [Logger.impl, LogState.of])]
  simp [LogState.of]

theorem step_set_mode_of (impl : Logger.Implementation) (r : List (Nat × String)) (n i : Nat)
    (h : i < n) (mo : Nat) :
    (LogState.of impl r n).step (.set_mode i mo)
      = some (LogState.of { impl with m_current_mode := mo } r n) := by
  simp only [LogState.step, of_logger impl r n i h, Option.bind_eq_bind, Option.some_bind]
  simp [Logger.set_mode, Logger.impl, Logger.store, LogState.of]

theorem step_subscribe_of (impl : Logger.Implementation) (r : List (Nat × String)) (n i : Nat)
    (h : i < n) (l : Listener) :
    (LogState.of impl r n).step (.subscribe i (some l))
      = some (LogState.of
          { impl with m_listeners :=
              if impl.m_listeners.any (fun x => x.address == l.address) then impl.m_listeners
              else impl.m_listeners ++ [l] } r n) := by
  simp only [LogState.step, of_logger impl r n i h, Option.bind_eq_bind, Option.some_bind]
  by_cases hex : ∃ x ∈ impl.m_listeners, x.address = l.address
  · simp [Logger.subscribe, Logger.impl, LogState.of, hex]
  · simp [Logger.subscribe, Logger.impl, Logger.store, LogState.of, hex]

theorem step_unsubscribe_of (impl : Logger.Implementation) (r : List (Nat × String))
    (n i : Nat) (h : i < n) (l : Listener) :
    (LogState.of impl r n).step (.unsubscribe i (some l))
      = some (LogState.of
          { impl with m_listeners :=
              impl.m_listeners.filter (fun x => x.address != l.address) } r n) := by
  simp only [LogState.step, of_logger impl r n i h, Option.bind_eq_bind, Option.some_bind]
  by_cases hex : ∃ x ∈ impl.m_listeners, x.address = l.address
  · simp [Logger.unsubscribe, Logger.impl, Logger.store, LogState.of, hex]
  · have hany : ¬ impl.m_listeners.any (fun x => x.address == l.address) = true := by
      simpa using hex
    rw [filter_of_not_any _ _ hany]
    simp [Logger.unsubscribe, Logger.impl, LogState.of, hex]

theorem step_null_of (impl : Logger.Implementation) (r : List (Nat × String)) (n i : Nat)
    (h : i < n) :
    (LogState.of impl r n).step (.subscribe i none) = some (LogState.of impl r n) ∧
    (LogState.of impl r n).step (.unsubscribe i none) = some (LogState.of impl r n) := by
  simp only [LogState.step, of_logger impl r n i h, Option.bind_eq_bind, Option.some_bind]
  simp [Logger.subscribe, Logger.unsubscribe, Logger.impl, LogState.of]

theorem step_invalid_of (impl : Logger.Implementation) (r : List (Nat × String)) (n i : Nat)
    (h : ¬ i < n) (a : LogAction)
    (ha : a = .subscribe i none ∨ (∃ l, a = .subscribe i l) ∨ (∃ l, a = .unsubscribe i l) ∨
      (∃ mo, a = .set_mode i mo) ∨ (∃ obj, a = .write i obj)) :
    (LogState.of impl r n).step a = none := by
  have hl : (LogState.of impl r n).loggers[i]? = none := by
    simp [LogState.of, List.getElem?_replicate, h]
  rcases ha with rfl | ⟨l, rfl⟩ | ⟨l, rfl⟩ | ⟨mo, rfl⟩ | ⟨obj, rfl⟩ <;>
    simp [LogState.step, hl]

/-- From a state with a logger, every run that completes ends in a state of
the same form, with the listeners the actions tell. -/
theorem run_of (actions : List LogAction) (impl : Logger.Implementation)
    (r : List (Nat × String)) (n : Nat) (S : LogState)
    (h : (LogState.of impl r (n + 1)).run actions = some S) :
    ∃ impl' r' n', S = LogState.of impl' r' (n' + 1) ∧
      impl'.m_listeners = subscribed_after impl.m_listeners actions := by
  induction actions generalizing impl r n with
  | nil =>
    simp only [LogState.run, Option.some.injEq] at h
    exact ⟨impl, r, n, h.symm, rfl⟩
  | cons a rest ih =>
    simp only [LogState.run, Option.bind_eq_bind] at h
    cases a with
    | create =>
      rw [step_create_of] at h
      simp only [Option.some_bind] at h
      exact ih impl r (n + 1) h
    | write i obj =>
      by_cases hi : i < n + 1
      · rw [step_write_of impl r (n + 1) i hi] at h
        simp only [Option.some_bind] at h
        exact ih impl _ n h
      · rw [step_invalid_of impl r (n + 1) i hi _ (by simp)] at h
        simp at h
    | set_mode i mo =>
      by_cases hi : i < n + 1
      · rw [step_set_mode_of impl r (n + 1) i hi] at h
        simp only [Option.some_bind] at h
        obtain ⟨impl', r', n', hS, hl⟩ := ih _ r n h
        exact ⟨impl', r', n', hS, hl⟩
      · rw [step_invalid_of impl r (n + 1) i hi _ (by simp)] at h
        simp at h
    | subscribe i l =>
      by_cases hi : i < n + 1
      · cases l with
        | none =>
          rw [(step_null_of impl r (n + 1) i hi).1] at h
          simp only [Option.some_bind] at h
          exact ih impl r n h
        | some l =>
          rw [step_subscribe_of impl r (n + 1) i hi] at h
          simp only [Option.some_bind] at h
          obtain ⟨impl', r', n', hS, hl⟩ := ih _ r n h
          refine ⟨impl', r', n', hS, ?_⟩
          rw [hl]
          simp only [subscribed_after]
          by_cases hany : impl.m_listeners.any (fun x => x.address == l.address) = true
          · simp [hany]
          · simp [hany]
      · rw [step_invalid_of impl r (n + 1) i hi _ (by simp)] at h
        simp at h
    | unsubscribe i l =>
      by_cases hi : i < n + 1
      · cases l with
        | none =>
          rw [(step_null_of impl r (n + 1) i hi).2] at h
          simp only [Option.some_bind] at h
          exact ih impl r n h
        | some l =>
          rw [step_unsubscribe_of impl r (n + 1) i hi] at h
          simp only [Option.some_bind] at h
          obtain ⟨impl', r', n', hS, hl⟩ := ih _ r n h
          exact ⟨impl', r', n', hS, by rw [hl]; rfl⟩
      · rw [step_invalid_of impl r (n + 1) i hi _ (by simp)] at h
        simp at h

/-- The states a program reaches: the start, or loggers that all share one
implementation whose listeners are those the actions tell. -/
theorem run_init (actions : List LogAction) (S : LogState)
    (h : LogState.init.run actions = some S) :
    (S = LogState.init ∧ subscribed_after [] actions = []) ∨
    ∃ impl r n, S = LogState.of impl r (n + 1) ∧
      impl.m_listeners = subscribed_after [] actions := by
  cases actions with
  | nil =>
    simp only [LogState.run, Option.some.injEq] at h
    exact Or.inl ⟨h.symm, rfl⟩
  | cons a rest =>
    right
    have hloggers : ∀ i : Nat, LogState.init.loggers[i]? = none := by
      intro i; simp [LogState.init]
    simp only [LogState.run, Option.bind_eq_bind] at h
    cases a with
    | create =>
      have hc : LogState.init.step .create
          = some (LogState.of Logger.Implementation.create [] (0 + 1)) := by decide
      rw [hc] at h
      exact run_of rest _ _ _ S h
    | write i obj => simp [LogState.step, hloggers] at h
    | set_mode i mo => simp [LogState.step, hloggers] at h
    | subscribe i l => simp [LogState.step, hloggers] at h
    | unsubscribe i l => simp [LogState.step, hloggers] at h

theorem not_mem_drop_deliveries (r : List (Nat × String)) (ls : List Listener) (a mode : Nat)
    (obj : String) :
    ∀ p ∈ (r ++ deliveries (ls.filter (fun x => x.address != a)) mode obj).drop r.length,
      p.1 ≠ a := by
  intro p hp
  rw [List.drop_left] at hp
  obtain ⟨_, l, hl, ha, _⟩ := (mem_deliveries _ _ _ _).1 hp
  have := (List.mem_filter.1 hl).2
  rw [← ha]
  simpa using this

/-- C19.  In every state `S` a program reaches by constructing loggers and
calling their members, for any two of its loggers `i` and `j`: all loggers
work on the one shared implementation, whose listeners are those subscribed
(and not unsubscribed since) through any logger; a newly constructed logger
changes nothing and shares it too; a message written through `j` is delivered
to the subscribed listeners in the current mode; after `i` sets a mode, the
next message through `j` is delivered in that mode; and after `i` unsubscribes
a listener, a message through `j` is not delivered to it. -/
theorem logger_state_shared (actions : List LogAction) (S : LogState) (i j : Nat)
    (h : LogState.init.run actions = some S)
    (hi : i < S.loggers.length) (hj : j < S.loggers.length) :
    S.loggers[i]? = S.loggers[j]? ∧
    S.subscribed = subscribed_after [] actions ∧
    (∃ S1, S.step .create = some S1 ∧ S1.world = S.world ∧
      S1.loggers = S.loggers ++ [{ m_pt_impl := 0 }] ∧ S1.loggers[j]? = S1.loggers[S.loggers.length]?) ∧
    (∀ obj, ∃ S1, S.step (.write j obj) = some S1 ∧
      S1.world.reports = S.world.reports ++ deliveries S.subscribed S.mode obj) ∧
    (∀ mo obj, ∃ S1 S2, S.step (.set_mode i mo) = some S1 ∧
      S1.step (.write j obj) = some S2 ∧
      S2.world.reports = S.world.reports ++ deliveries S.subscribed mo obj) ∧
    (∀ l obj, ∃ S1 S2, S.step (.unsubscribe i (some l)) = some S1 ∧
      S1.step (.write j obj) = some S2 ∧
      ∀ p ∈ S2.world.reports.drop S.world.reports.length, p.1 ≠ l.address) := by
  rcases run_init actions S h with ⟨rfl, _⟩ | ⟨impl, r, n, rfl, hl⟩
  · simp [LogState.init] at hi
  · have hn : (LogState.of impl r (n + 1)).loggers.length = n + 1 := by simp [LogState.of]
    rw [hn] at hi hj
    obtain ⟨hsub, hmode⟩ := of_subscribed impl r (n + 1)
    refine ⟨?_, ?_, ?_, ?_, ?_, ?_⟩
    · rw [of_logger impl r (n + 1) i hi, of_logger impl r (n + 1) j hj]
    · rw [hsub, hl]
    · refine ⟨_, step_create_of impl r (n + 1), rfl, ?_, ?_⟩
      · simp [LogState.of, List.replicate_succ']
      · rw [hn, of_logger impl r (n + 1 + 1) j (by omega),
          of_logger impl r (n + 1 + 1) (n + 1) (by omega)]
    · intro obj
      refine ⟨_, step_write_of impl r (n + 1) j hj obj, ?_⟩
      rw [hsub, hmode]
      rfl
    · intro mo obj
      refine ⟨_, _, step_set_mode_of impl r (n + 1) i hi mo,
        step_write_of _ r (n + 1) j hj obj, ?_⟩
      rw [hsub]
      rfl
    · intro l obj
      refine ⟨_, _, step_unsubscribe_of impl r (n + 1) i hi l,
        step_write_of _ r (n + 1) j hj obj, ?_⟩
      exact not_mem_drop_deliveries r impl.m_listeners l.address _ obj

/-- Witness of `logger_state_shared`: the beginning of `test_logger.cpp`, then
`f()`, which constructs a logger of its own. -/
theorem logger_state_shared_witness :
    (LogState.of { m_current_mode := 16, m_listeners := [⟨100, 8⟩, ⟨300, 16⟩] } [] 2).subscribed
      = subscribed_after []
          [.create, .subscribe 0 (some ⟨100, 8⟩), .subscribe 0 (some ⟨300, 16⟩), .create,
           .set_mode 1 16] :=
  (logger_state_shared
    [.create, .subscribe 0 (some ⟨100, 8⟩), .subscribe 0 (some ⟨300, 16⟩), .create,
     .set_mode 1 16]
    (LogState.of { m_current_mode := 16, m_listeners := [⟨100, 8⟩, ⟨300, 16⟩] } [] 2) 0 1
    (by decide) (by decide) (by decide)).2.1

/-- C20 (amended).  A newly constructed `Logger` has the listener list shared
by all `Logger` objects: the listeners subscribed, and not unsubscribed since,
through the `Logger` objects constructed before it; it is empty when no
listener is subscribed, in particular for the first `Logger` of the program. -/
theorem new_logger_listeners (actions : List LogAction) (S : LogState)
    (h : LogState.init.run actions = some S) :
    ∃ S1 log, S.step .create = some S1 ∧ S1.loggers = S.loggers ++ [log] ∧
      Logger.listeners S1.world log = some (subscribed_after [] actions) ∧
      (S.loggers = [] → Logger.listeners S1.world log = some []) := by
  rcases run_init actions S h with ⟨rfl, hl⟩ | ⟨impl, r, n, rfl, hl⟩
  · refine ⟨LogState.of Logger.Implementation.create [] 1, { m_pt_impl := 0 }, by decide,
      by decide, ?_, fun _ => by decide⟩
    rw [hl]
    decide
  · refine ⟨_, { m_pt_impl := 0 }, step_create_of impl r (n + 1), ?_, ?_, ?_⟩
    · simp [LogState.of, List.replicate_succ']
    · rw [← hl]
      simp [Logger.listeners, Logger.impl, LogState.of]
    · intro hnil
      simp [LogState.of, List.replicate_succ] at hnil

/-- Witness of `new_logger_listeners`: a logger constructed after another one
has subscribed a listener. -/
theorem new_logger_listeners_witness :
    ∃ S1 log,
      (LogState.of { m_current_mode := 8, m_listeners := [⟨100, 8⟩] } [] 1).step .create
        = some S1 ∧
      S1.loggers
        = (LogState.of { m_current_mode := 8, m_listeners := [⟨100, 8⟩] } [] 1).loggers
          ++ [log] ∧
      Logger.listeners S1.world log
        = some (subscribed_after [] [.create, .subscribe 0 (some ⟨100, 8⟩)]) ∧
      ((LogState.of { m_current_mode := 8, m_listeners := [⟨100, 8⟩] } [] 1).loggers = [] →
        Logger.listeners S1.world log = some []) :=
  new_logger_listeners [.create, .subscribe 0 (some ⟨100, 8⟩)]
    (LogState.of { m_current_mode := 8, m_listeners := [⟨100, 8⟩] } [] 1) (by decide)

/-- C20 (as stated) fails.  After a first logger has subscribed a listener, a
second logger is constructed: its listener list holds that listener. -/
theorem new_logger_not_empty_counterexample :
    (LogState.init.run [.create, .subscribe 0 (some ⟨100, 8⟩), .create]).map
        (fun S => S.loggers.map (Logger.listeners S.world))
      = some [some [⟨100, 8⟩], some [⟨100, 8⟩]] ∧
    (some [⟨100, 8⟩] : Option (List Listener)) ≠ some [] := by
  decide

/-! ## Root-only listeners -/

theorem toReport_nothing (address mode : Nat) :
    Listener.toReport ⟨address, Listener.Listen_for_nothing⟩ mode = false := by
  simp [Listener.toReport, Listener.Listen_for_nothing]

theorem filter_range_eq_singleton (N root : Nat) (h : root < N) (p : Nat → Bool)
    (hp : ∀ r, r < N → (p r = true ↔ r = root)) : (List.range N).filter p = [root] := by
  have e : (List.range N).filter p = (List.range N).filter (fun r => r == root) := by
    apply List.filter_congr
    intro r hr
    rw [List.mem_range] at hr
    have := hp r hr
    by_cases hr2 : r = root
    · simp [hr2, this.2 hr2]
      exact (hp root h).2 rfl
    · have : p r = false := by
        cases hpr : p r
        · rfl
        · exact absurd (this.1 hpr) hr2
      simp [this, hr2]
  rw [e, List.filter_beq, List.count_eq_one_of_mem (List.nodup_range N) (List.mem_range.2 h)]
  rfl

/-- C21. In a communicator of `N` processes and for a root in `[0, N)`, the
listener each process builds with `LogFromRootOutput` (from the communicator
and the root, from the root alone, or, the root being 0, from the
communicator alone or from the flags alone) reports a mode exactly when the
process has the rank of the root and the mode shares a bit with the flags: on
any other process it reports no mode, and a message whose mode shares a bit
with the flags is reported on the root alone. -/
theorem log_from_root_reports_once (N root : Nat) (hroot : root < N) (address flags : Nat) :
    (∀ (r : Nat) (mode : Nat), r < N →
      (((LogFromRootOutput.create_com_root address flags ⟨r, N⟩ root).toListener.toReport mode
          = true ↔ r = root ∧ ∃ i, flags.testBit i = true ∧ mode.testBit i = true) ∧
       ((LogFromRootOutput.create_root address flags root ⟨r, N⟩).toListener.toReport mode
          = true ↔ r = root ∧ ∃ i, flags.testBit i = true ∧ mode.testBit i = true) ∧
       ((LogFromRootOutput.create_com address flags ⟨r, N⟩).toListener.toReport mode
          = true ↔ r = 0 ∧ ∃ i, flags.testBit i = true ∧ mode.testBit i = true) ∧
       ((LogFromRootOutput.create address flags ⟨r, N⟩).toListener.toReport mode
          = true ↔ r = 0 ∧ ∃ i, flags.testBit i = true ∧ mode.testBit i = true))) ∧
    (∀ mode : Nat, (∃ i, flags.testBit i = true ∧ mode.testBit i = true) →
      LogFromRootOutput.reporting N flags root mode = [root]) := by
  have key : ∀ (a : Nat) (r k : Nat) (mode : Nat),
      (Listener.toReport ⟨a, if (r : Int) = (k : Int) then flags
          else Listener.Listen_for_nothing⟩ mode = true
        ↔ r = k ∧ ∃ i, flags.testBit i = true ∧ mode.testBit i = true) := by
    intro a r k mode
    by_cases h : r = k
    · subst h
      simp only [if_true, true_and]
      exact toReport_iff_common_bit ⟨a, flags⟩ mode
    · have h2 : ¬ ((r : Int) = (k : Int)) := by exact_mod_cast h
      simp only [if_neg h2, toReport_nothing, h, false_and]
      simp
  refine ⟨fun r mode _ => ⟨?_, ?_, ?_, ?_⟩, ?_⟩
  · exact key address r root mode
  · exact key address r root mode
  · exact key address r 0 mode
  · exact key address r 0 mode
  · intro mode hbit
    apply filter_range_eq_singleton N root hroot
    intro r _
    rw [show (LogFromRootOutput.create_com_root 0 flags ⟨r, N⟩ root).toListener
        = ⟨0, if (r : Int) = (root : Int) then flags else Listener.Listen_for_nothing⟩ from rfl,
      key 0 r root mode]
    exact ⟨fun h => h.1, fun h => ⟨h, hbit⟩⟩

/-- Witness of `log_from_root_reports_once`: four processes, root 2, a listener
for warnings and errors; a warning is reported on rank 2 alone. -/
theorem log_from_root_reports_once_witness :
    (∀ (r : Nat) (mode : Nat), r < 4 →
      (((LogFromRootOutput.create_com_root 100 6 ⟨r, (4 : Nat)⟩ (2 : Nat)).toListener.toReport mode
          = true ↔ r = 2 ∧ ∃ i, (6 : Nat).testBit i = true ∧ mode.testBit i = true) ∧
       ((LogFromRootOutput.create_root 100 6 (2 : Nat) ⟨r, (4 : Nat)⟩).toListener.toReport mode
          = true ↔ r = 2 ∧ ∃ i, (6 : Nat).testBit i = true ∧ mode.testBit i = true) ∧
       ((LogFromRootOutput.create_com 100 6 ⟨r, (4 : Nat)⟩).toListener.toReport mode
          = true ↔ r = 0 ∧ ∃ i, (6 : Nat).testBit i = true ∧ mode.testBit i = true) ∧
       ((LogFromRootOutput.create 100 6 ⟨r, (4 : Nat)⟩).toListener.toReport mode
          = true ↔ r = 0 ∧ ∃ i, (6 : Nat).testBit i = true ∧ mode.testBit i = true))) ∧
    (∀ mode : Nat, (∃ i, (6 : Nat).testBit i = true ∧ mode.testBit i = true) →
      LogFromRootOutput.reporting 4 6 (2 : Nat) mode = [2]) ∧
    LogFromRootOutput.reporting 4 6 2 Listener.Listen_for_warning = [2] :=
  ⟨(log_from_root_reports_once 4 2 (by decide) 100 6).1,
    (log_from_root_reports_once 4 2 (by decide) 100 6).2, by decide⟩

/-! ## Integer ranges -/

/-- The loop of a range, from the value `m`, when `n` more values pass the
test and the next one fails it. -/
theorem iterate_spec (r : range) (hpos : (r.To - r.From) * r.Step > 0) :
    ∀ (n : Nat) (m : Int) (fuel : Nat), n ≤ fuel →
      (∀ k : Nat, k < n → (m + k * r.Step) * r.Step < r.To * r.Step) →
      ¬ ((m + n * r.Step) * r.Step < r.To * r.Step) →
      r.iterate fuel ⟨m⟩ = some ((List.range n).map (fun k : Nat => m + k * r.Step)) := by
  intro n
  induction n with
  | zero =>
      intro m fuel _ _ hstop
      have hne : range.iterator.ne r ⟨m⟩ r.end_ = false := by
        simpa [range.iterator.ne, range.end_] using hstop
      cases fuel <;> simp [range.iterate, hne]
  | succ n ih =>
      intro m fuel hfuel hin hstop
      obtain ⟨fuel, rfl⟩ : ∃ f, fuel = f + 1 := ⟨fuel - 1, by omega⟩
      have hne : range.iterator.ne r ⟨m⟩ r.end_ = true := by
        have := hin 0 (by omega)
        simpa [range.iterator.ne, range.end_] using this
      have hnext : range.iterator.incr r ⟨m⟩ = ⟨m + r.Step⟩ := by
        simp [range.iterator.incr, hpos]
      have hrec := ih (m + r.Step) fuel (by omega)
        (fun k hk => by
          have := hin (k + 1) (by omega)
          push_cast at this
          have e : m + r.Step + k * r.Step = m + (k + 1) * r.Step := by ring
          rw [e]; exact this)
        (by
          have e : m + r.Step + n * r.Step = m + ((n + 1 : Nat) : Int) * r.Step := by
            push_cast; ring
          rw [e]; exact hstop)
      simp only [range.iterate, hne, if_true, hnext, hrec, Option.map_some', List.range_succ_eq_map,
        List.map_cons, List.map_map, range.iterator.deref]
      congr 2
      · simp
      · apply List.map_congr_left
        intro k _
        simp only [Function.comp]
        push_cast
        ring

/-- C29. Iterating `range<From, To, Step>` from `begin()` while `it != end()`:
when `(To - From) * Step > 0` the loop ends and yields `From, From + Step,
From + 2 * Step, ...`, exactly the values of that progression lying between
`From` inclusive and `To` exclusive in the direction of `Step` (whether or not
`To - From` is a multiple of `Step`); otherwise it yields nothing. -/
theorem range_values (r : range) :
    ((r.To - r.From) * r.Step > 0 →
      ∃ n : Nat, 0 < n ∧
        (∀ fuel, n ≤ fuel →
          r.values fuel = some ((List.range n).map (fun k : Nat => r.From + k * r.Step))) ∧
        (∀ k : Nat, k < n ↔ r.between (r.From + k * r.Step))) ∧
    (¬ (r.To - r.From) * r.Step > 0 → ∀ fuel, r.values fuel = some []) := by
  constructor
  · intro hpos
    have hs : r.Step ≠ 0 := by
      rintro h0
      rw [h0] at hpos
      simp at hpos
    have hsq : 1 ≤ r.Step * r.Step := by
      rcases lt_or_gt_of_ne hs with h | h
      · nlinarith
      · nlinarith
    have hex : ∃ n : Nat, ¬ ((r.From + n * r.Step) * r.Step < r.To * r.Step) := by
      refine ⟨((r.To - r.From) * r.Step).toNat, ?_⟩
      have hN : (((r.To - r.From) * r.Step).toNat : Int) = (r.To - r.From) * r.Step :=
        Int.toNat_of_nonneg (le_of_lt hpos)
      rw [hN]
      nlinarith
    classical
    let n := Nat.find hex
    have hn : ¬ ((r.From + n * r.Step) * r.Step < r.To * r.Step) := Nat.find_spec hex
    have hlt : ∀ k : Nat, k < n → (r.From + k * r.Step) * r.Step < r.To * r.Step := by
      intro k hk
      have := Nat.find_min hex hk
      simpa using this
    have hmono : ∀ k : Nat, n ≤ k → ¬ ((r.From + k * r.Step) * r.Step < r.To * r.Step) := by
      intro k hk
      have hk2 : (n : Int) ≤ k := by exact_mod_cast hk
      have : (n : Int) * (r.Step * r.Step) ≤ k * (r.Step * r.Step) :=
        mul_le_mul_of_nonneg_right hk2 (by linarith)
      intro hcon
      apply hn
      nlinarith
    have hiff : ∀ k : Nat, k < n ↔ (r.From + k * r.Step) * r.Step < r.To * r.Step := by
      intro k
      constructor
      · exact hlt k
      · intro h
        by_contra hk
        exact hmono k (by omega) h
    refine ⟨n, ?_, ?_, ?_⟩
    · rw [Nat.pos_iff_ne_zero]
      intro h0
      apply hn
      rw [h0]
      simp only [Nat.cast_zero, zero_mul, add_zero]
      linarith
    · intro fuel hfuel
      exact iterate_spec r hpos n r.From fuel hfuel hlt hn
    · intro k
      rw [hiff k]
      have hk0 : (0 : Int) ≤ k := by exact_mod_cast Nat.zero_le k
      unfold range.between
      rcases lt_or_gt_of_ne hs with h | h
      · constructor
        · intro hh
          right
          refine ⟨h, ?_, ?_⟩
          · nlinarith
          · nlinarith
        · rintro (⟨h1, _⟩ | ⟨_, h2, _⟩)
          · linarith
          · nlinarith
      · constructor
        · intro hh
          left
          refine ⟨h, ?_, ?_⟩
          · nlinarith
          · nlinarith
        · rintro (⟨_, _, h2⟩ | ⟨h1, _⟩)
          · nlinarith
          · linarith
  · intro hneg fuel
    have hne : range.iterator.ne r r.begin r.end_ = false := by
      simp only [range.iterator.ne, range.begin, range.end_, decide_eq_false_iff_not]
      intro h
      apply hneg
      linarith
    cases fuel <;> simp [range.values, range.iterate, hne]

/-- Witness of `range_values`: `range<5, 10, 2>` yields 5, 7, 9 and
`range<5, 10, -1>` yields nothing. -/
theorem range_values_witness :
    (∃ n : Nat, 0 < n ∧
        (∀ fuel, n ≤ fuel →
          (⟨5, 10, 2⟩ : range).values fuel
            = some ((List.range n).map (fun k : Nat => (5 : Int) + k * 2))) ∧
        (∀ k : Nat, k < n ↔ (⟨5, 10, 2⟩ : range).between ((5 : Int) + k * 2))) ∧
    (⟨5, 10, 2⟩ : range).values 3 = some [5, 7, 9] ∧
    (∀ fuel, (⟨5, 10, -1⟩ : range).values fuel = some []) :=
  ⟨(range_values ⟨5, 10, 2⟩).1 (by decide), by decide,
    (range_values ⟨5, 10, -1⟩).2 (by decide)⟩

/-! ## Chronometers: the measures -/

theorem pairs_spec {τ : Type} [Add τ] (ds : List τ) :
    ∀ c : Chronometer τ, (c.pairs ds).2 = ds ∧
      (c.pairs ds).1.m_counter = c.m_counter + ds.length ∧
      (c.pairs ds).1.m_total_time = ds.foldl (fun t d => t + d) c.m_total_time := by
  induction ds with
  | nil => intro c; simp [Chronometer.pairs]
  | cons d rest ih =>
    intro c
    obtain ⟨h1, h2, h3⟩ := ih (c.start.1.stop d).1
    refine ⟨?_, ?_, ?_⟩
    · simp only [Chronometer.pairs, h1]
      rfl
    · simp only [Chronometer.pairs, h2, List.length_cons]
      simp only [Chronometer.stop, Chronometer.stop_leave, Chronometer.stop_enter,
        Chronometer.start]
      split <;> simp <;> omega
    · simp only [Chronometer.pairs, h3, List.foldl_cons]
      simp only [Chronometer.stop, Chronometer.stop_leave, Chronometer.stop_enter,
        Chronometer.start]
      split <;> rfl

/-- C27. A chronometer driven, from its construction, by `k` `start()`/`stop()`
pairs whose `get_delta_time()` gave `d1 .. dk`: the calls of `stop()` returned
`d1 .. dk`, `nb_calls()` is `k`, `total_time()` is `0 + d1 + ... + dk` added in
that order, and `mean_time()` is `total_time() / k` when `k > 0` and 0 when
`k = 0`. -/
theorem chronometer_measures {τ : Type} [Zero τ] [Add τ] [Div τ] [NatCast τ] (ds : List τ) :
    ((Chronometer.create : Chronometer τ).pairs ds).2 = ds ∧
    ((Chronometer.create : Chronometer τ).pairs ds).1.nb_calls = ds.length ∧
    ((Chronometer.create : Chronometer τ).pairs ds).1.total_time
      = ds.foldl (fun t d => t + d) 0 ∧
    ((Chronometer.create : Chronometer τ).pairs ds).1.mean_time
      = if ds.length = 0 then 0
        else ((Chronometer.create : Chronometer τ).pairs ds).1.total_time / (ds.length : τ) := by
  obtain ⟨h1, h2, h3⟩ := pairs_spec ds (Chronometer.create : Chronometer τ)
  have h2' : ((Chronometer.create : Chronometer τ).pairs ds).1.m_counter = ds.length := by
    rw [h2]; simp [Chronometer.create]
  refine ⟨h1, h2', ?_, ?_⟩
  · rw [Chronometer.total_time, h3]; rfl
  · simp only [Chronometer.mean_time, Chronometer.total_time, h2']

/-- Witness of `chronometer_measures`: two pairs that took `1/2` and `3/2`. -/
theorem chronometer_measures_witness :
    ((Chronometer.create : Chronometer ℚ).pairs [1 / 2, 3 / 2]).2 = [1 / 2, 3 / 2] ∧
    ((Chronometer.create : Chronometer ℚ).pairs [1 / 2, 3 / 2]).1.nb_calls
      = [(1 / 2 : ℚ), 3 / 2].length ∧
    ((Chronometer.create : Chronometer ℚ).pairs [1 / 2, 3 / 2]).1.total_time
      = [(1 / 2 : ℚ), 3 / 2].foldl (fun t d => t + d) 0 ∧
    ((Chronometer.create : Chronometer ℚ).pairs [1 / 2, 3 / 2]).1.mean_time
      = if [(1 / 2 : ℚ), 3 / 2].length = 0 then 0
        else ((Chronometer.create : Chronometer ℚ).pairs [1 / 2, 3 / 2]).1.total_time
          / ([(1 / 2 : ℚ), 3 / 2].length : ℚ) :=
  chronometer_measures [1 / 2, 3 / 2]

theorem exact_addition_nat : exact_addition Nat :=
  ⟨Nat.add_assoc, Nat.add_comm, Nat.add_zero⟩

/-- The addition of a commutative monoid (integers, rationals) is exact. -/
theorem exact_addition_of_monoid (τ : Type) [AddCommMonoid τ] : exact_addition τ :=
  ⟨add_assoc, add_comm, add_zero⟩

theorem sum_assign_none {σ M : Type} [Zero M] [Add M] (hex : exact_addition M) (f : σ → M)
    (m : List (String × Option σ)) (label : String) (s : σ)
    (h : Chronos.find m label = none) :
    (((Chronos.assign m label s).filterMap (fun e => e.2)).map f).sum
      = ((m.filterMap (fun e => e.2)).map f).sum + f s := by
  obtain ⟨hassoc, hcomm, hzero⟩ := hex
  induction m with
  | nil =>
    show f s + 0 = 0 + f s
    rw [hcomm]
  | cons e rest ih =>
    obtain ⟨k, v⟩ := e
    by_cases hk : k = label
    · simp only [Chronos.find, hk, if_true] at h
      subst h
      simp only [Chronos.assign, hk, if_true]
      show f s + ((rest.filterMap (fun e => e.2)).map f).sum
        = ((rest.filterMap (fun e => e.2)).map f).sum + f s
      rw [hcomm]
    · simp only [Chronos.find, hk, if_false] at h
      have := ih h
      simp only [Chronos.assign, hk, if_false]
      cases v with
      | none => exact this
      | some x =>
        show f x + (((Chronos.assign rest label s).filterMap (fun e => e.2)).map f).sum
          = f x + ((rest.filterMap (fun e => e.2)).map f).sum + f s
        rw [this, hassoc]

theorem sum_assign_some {σ M : Type} [Zero M] [Add M] (hex : exact_addition M) (f : σ → M)
    (m : List (String × Option σ)) (label : String) (s s' : σ) (δ : M)
    (h : Chronos.find m label = some s) (hf : f s' = f s + δ) :
    (((Chronos.assign m label s').filterMap (fun e => e.2)).map f).sum
      = ((m.filterMap (fun e => e.2)).map f).sum + δ := by
  obtain ⟨hassoc, hcomm, hzero⟩ := hex
  induction m with
  | nil => simp [Chronos.find] at h
  | cons e rest ih =>
    obtain ⟨k, v⟩ := e
    by_cases hk : k = label
    · simp only [Chronos.find, hk, if_true] at h
      subst h
      simp only [Chronos.assign, hk, if_true]
      show f s' + ((rest.filterMap (fun e => e.2)).map f).sum
        = f s + ((rest.filterMap (fun e => e.2)).map f).sum + δ
      rw [hf, hassoc, hassoc, hcomm δ]
    · simp only [Chronos.find, hk, if_false] at h
      have := ih h
      simp only [Chronos.assign, hk, if_false]
      cases v with
      | none => exact this
      | some x =>
        show f x + (((Chronos.assign rest label s').filterMap (fun e => e.2)).map f).sum
          = f x + ((rest.filterMap (fun e => e.2)).map f).sum + δ
        rw [this, hassoc]

theorem index_sum {τ M : Type} [Zero τ] [Zero M] [Add M] (hex : exact_addition M)
    (f : StdChronometer τ → M)
    (hf : f StdChronometer.create = 0) (c : Communicator.Chronometer τ) (label : String) :
    ((c.index label).stopwatches.map f).sum = (c.stopwatches.map f).sum := by
  unfold Communicator.Chronometer.index Communicator.Chronometer.stopwatches
  cases h : Chronos.find c.m_chronos label with
  | none =>
    simp only
    rw [sum_assign_none hex f _ _ _ h, hf, hex.2.2]
  | some s => rfl

/-- The stopwatch that the subscript selects has the time recorded so far. -/
theorem index_time {τ : Type} [Zero τ] (c : Communicator.Chronometer τ) (label : String)
    (s : StdChronometer τ) (hs : Chronos.find (c.index label).m_chronos label = some s) :
    s.m_total_time = c.time label ∧
    (s.m_is_measuring = true → ∃ s0, Chronos.find c.m_chronos label = some s0 ∧
      s0.m_is_measuring = true) := by
  unfold Communicator.Chronometer.index at hs
  unfold Communicator.Chronometer.time
  cases h : Chronos.find c.m_chronos label with
  | none =>
    rw [h] at hs
    simp only at hs
    rw [find_assign_same] at hs
    have e := Option.some.inj hs
    subst e
    exact ⟨rfl, fun hm => by simp [StdChronometer.create, Chronometer.create] at hm⟩
  | some s0 =>
    rw [h] at hs
    simp only at hs
    rw [h] at hs
    have e := Option.some.inj hs
    subst e
    exact ⟨rfl, fun hm => ⟨s0, rfl, hm⟩⟩

theorem index_of_found {τ : Type} [Zero τ] (c : Communicator.Chronometer τ) (label : String)
    (s : StdChronometer τ) (h : Chronos.find c.m_chronos label = some s) :
    c.index label = { c with pt_current_chronometer := some label } := by
  unfold Communicator.Chronometer.index
  rw [h]

theorem assign_assign {σ : Type} (m : List (String × Option σ)) (label : String) (x y : σ) :
    Chronos.assign (Chronos.assign m label x) label y = Chronos.assign m label y := by
  induction m with
  | nil => simp [Chronos.assign]
  | cons e rest ih =>
    obtain ⟨k, v⟩ := e
    by_cases hk : k = label
    · simp [Chronos.assign, hk]
    · simp [Chronos.assign, hk, ih]

/-- The state a complete pair leaves, for a chronometer that is not measuring
and whose stopwatch of the label is not measuring. -/
theorem pair_eq {τ : Type} [Zero τ] [Add τ] [Sub τ] (label : String) (t0 t1 : τ)
    (c : Communicator.Chronometer τ) (s : StdChronometer τ)
    (hs : Chronos.find (c.index label).m_chronos label = some s)
    (hc : c.m_is_measuring = false) (hsm : s.m_is_measuring = false) :
    c.pair label t0 t1 = some
      { toChronometer :=
          { m_counter := c.m_counter + 1, m_total_time := c.m_total_time + (t1 - t0),
            m_is_measuring := false },
        m_chronos :=
          Chronos.assign (c.index label).m_chronos label
            { toChronometer :=
                { m_counter := s.m_counter + 1, m_total_time := s.m_total_time + (t1 - t0),
                  m_is_measuring := false },
              m_start := t0 },
        pt_current_chronometer := some label,
        is_activated := c.is_activated } := by
  obtain ⟨_, _, _, hpt, hact, hbase, _⟩ := index_selects c label
  unfold Communicator.Chronometer.pair
  generalize c.index label = c1 at hs hpt hact hbase
  have hc1 : c1.m_is_measuring = false := by
    show c1.toChronometer.m_is_measuring = false
    rw [hbase]; exact hc
  have hcur : c1.current = some (label, s) := by
    simp [Communicator.Chronometer.current, hpt, hs]
  have hstart : c1.start t0
      = some { c1 with
          toChronometer := { c1.toChronometer with m_is_measuring := true },
          m_chronos := Chronos.assign c1.m_chronos label (s.start t0) } := by
    simp [Communicator.Chronometer.start, Chronometer.start, hc1, hcur]
  have hsstart : s.start t0
      = { toChronometer := { s.toChronometer with m_is_measuring := true }, m_start := t0 } := by
    simp [StdChronometer.start, Chronometer.start, hsm]
  rw [hstart]
  simp only [Option.bind_eq_bind, Option.some_bind]
  rw [index_of_found _ label (s.start t0) (find_assign_same _ _ _)]
  simp only [Communicator.Chronometer.stop, Communicator.Chronometer.current, hpt,
    Option.bind_eq_bind, Option.some_bind, find_assign_same, StdChronometer.stop,
    Chronometer.stop_enter, Chronometer.stop_leave, assign_assign, hsstart, hbase, hact]

/-- What a complete pair does to a chronometer that is idle. -/
theorem pair_step {τ : Type} [Zero τ] [Add τ] [Sub τ] (label : String) (t0 t1 : τ)
    (c : Communicator.Chronometer τ) (hidle : c.idle) :
    ∃ c', c.pair label t0 t1 = some c' ∧ c'.idle ∧
      c'.m_counter = c.m_counter + 1 ∧
      c'.m_total_time = c.m_total_time + (t1 - t0) ∧
      c'.time label = c.time label + (t1 - t0) ∧
      (∀ l, l ≠ label → c'.time l = c.time l) ∧
      (c'.stopwatches.map (fun s => s.nb_calls)).sum
        = (c.stopwatches.map (fun s => s.nb_calls)).sum + 1 ∧
      (exact_addition τ →
        (c'.stopwatches.map (fun s => s.total_time)).sum
          = (c.stopwatches.map (fun s => s.total_time)).sum + (t1 - t0)) := by
  obtain ⟨s, hs, _, _, _, _, hoth⟩ := index_selects c label
  obtain ⟨htime, hmeas⟩ := index_time c label s hs
  have hsm : s.m_is_measuring = false := by
    cases hm : s.m_is_measuring with
    | false => rfl
    | true =>
      obtain ⟨s0, h0, hm0⟩ := hmeas hm
      rw [hidle.2 label s0 h0] at hm0
      exact absurd hm0 (by simp)
  refine ⟨_, pair_eq label t0 t1 c s hs hidle.1 hsm, ⟨rfl, ?_⟩, rfl, rfl, ?_, ?_, ?_, ?_⟩
  · intro l s' hl
    simp only at hl
    by_cases hll : l = label
    · subst hll
      rw [find_assign_same] at hl
      rw [← Option.some.inj hl]
    · rw [find_assign_other _ _ _ _ hll, hoth l hll] at hl
      exact hidle.2 l s' hl
  · simp only [Communicator.Chronometer.time, find_assign_same]
    show s.m_total_time + (t1 - t0) = _
    rw [htime]
    rfl
  · intro l hl
    simp only [Communicator.Chronometer.time]
    rw [find_assign_other _ _ _ _ hl, hoth l hl]
  · unfold Communicator.Chronometer.stopwatches
    simp only
    rw [sum_assign_some exact_addition_nat (fun s : StdChronometer τ => s.nb_calls) _ _ s
      { toChronometer :=
          { m_counter := s.m_counter + 1, m_total_time := s.m_total_time + (t1 - t0),
            m_is_measuring := false },
        m_start := t0 } 1 hs rfl]
    exact congrArg (· + 1)
      (index_sum exact_addition_nat (fun s : StdChronometer τ => s.nb_calls) rfl c label)
  · intro hex
    unfold Communicator.Chronometer.stopwatches
    simp only
    rw [sum_assign_some hex (fun s : StdChronometer τ => s.total_time) _ _ s
      { toChronometer :=
          { m_counter := s.m_counter + 1, m_total_time := s.m_total_time + (t1 - t0),
            m_is_measuring := false },
        m_start := t0 } (t1 - t0) hs rfl]
    exact congrArg (· + (t1 - t0))
      (index_sum hex (fun s : StdChronometer τ => s.total_time) rfl c label)

/-- What a sequence of complete pairs does to a chronometer that is idle. -/
theorem pairs_run {τ : Type} [Zero τ] [Add τ] [Sub τ] (ps : List (String × τ × τ)) :
    ∀ c : Communicator.Chronometer τ, c.idle →
      ∃ c', c.pairs ps = some c' ∧ c'.idle ∧
        c'.m_counter = c.m_counter + ps.length ∧
        c'.m_total_time
          = (ps.map Communicator.Chronometer.delta).foldl (fun t d => t + d) c.m_total_time ∧
        (∀ l, c'.time l
          = ((ps.filter (fun p => p.1 = l)).map Communicator.Chronometer.delta).foldl
              (fun t d => t + d) (c.time l)) ∧
        (c'.stopwatches.map (fun s => s.nb_calls)).sum
          = (c.stopwatches.map (fun s => s.nb_calls)).sum + ps.length ∧
        (exact_addition τ →
          c.m_total_time = (c.stopwatches.map (fun s => s.total_time)).sum →
          c'.m_total_time = (c'.stopwatches.map (fun s => s.total_time)).sum) := by
  induction ps with
  | nil =>
    intro c hidle
    exact ⟨c, rfl, hidle, rfl, rfl, fun _ => rfl, rfl, fun _ h => h⟩
  | cons p rest ih =>
    intro c hidle
    obtain ⟨label, t0, t1⟩ := p
    obtain ⟨c1, hp, hidle1, hc1, ht1, htl, hto, hn1, hs1⟩ := pair_step label t0 t1 c hidle
    obtain ⟨c2, hp2, hidle2, hc2, ht2, htl2, hn2, hs2⟩ := ih c1 hidle1
    refine ⟨c2, by simp [Communicator.Chronometer.pairs, hp, hp2], hidle2, ?_, ?_, ?_, ?_, ?_⟩
    · rw [hc2, hc1, List.length_cons]; omega
    · rw [ht2, ht1]
      rfl
    · intro l
      rw [htl2 l]
      by_cases hl : label = l
      · subst hl
        simp only [List.filter_cons, decide_True, if_true, List.map_cons, List.foldl_cons, htl]
        rfl
      · have hl' : l ≠ label := fun e => hl e.symm
        simp only [List.filter_cons, hl, decide_False, Bool.false_eq_true, if_false, hto l hl']
    · rw [hn2, hn1, List.length_cons]; omega
    · intro hex h0
      apply hs2 hex
      rw [ht1, hs1 hex, h0]

/-- C30 (amended). A `Communicator::Chronometer` driven, from its construction,
by any sequence of complete pairs `chrono[label].start()`,
`chrono[label].stop()`: every call succeeds; afterwards its own `nb_calls()` is
the sum of the `nb_calls()` of its per-label stopwatches; its `total_time()` is
the deltas of all the pairs added in the order of the calls, and the
`total_time()` of the stopwatch of each label is the deltas of the pairs of
that label added in that order; when the additions of times are exact, its
`total_time()` is the sum of the `total_time()` of its stopwatches. -/
theorem communicator_chronometer_sums {τ : Type} [Zero τ] [Add τ] [Sub τ]
    (ps : List (String × τ × τ)) :
    ∃ c, (Communicator.Chronometer.create : Communicator.Chronometer τ).pairs ps = some c ∧
      c.nb_calls = (c.stopwatches.map (fun s => s.nb_calls)).sum ∧
      c.total_time = (ps.map Communicator.Chronometer.delta).foldl (fun t d => t + d) 0 ∧
      (∀ label, c.time label
        = ((ps.filter (fun p => p.1 = label)).map Communicator.Chronometer.delta).foldl
            (fun t d => t + d) 0) ∧
      (exact_addition τ → c.total_time = (c.stopwatches.map (fun s => s.total_time)).sum) := by
  have hidle : (Communicator.Chronometer.create : Communicator.Chronometer τ).idle :=
    ⟨rfl, fun l s h => by simp [Communicator.Chronometer.create, Chronos.find] at h⟩
  obtain ⟨c, hp, _, hc, ht, htl, hn, hs⟩ := pairs_run ps _ hidle
  refine ⟨c, hp, ?_, ht, htl, fun hex => hs hex rfl⟩
  show c.m_counter = _
  rw [hc, hn]
  rfl

/-- Witness of `communicator_chronometer_sums`: two sends and a receive, with
integer times, whose additions are exact. -/
theorem communicator_chronometer_sums_witness :
    exact_addition ℤ ∧
    ∃ c, (Communicator.Chronometer.create : Communicator.Chronometer ℤ).pairs
        [("send", 0, 3), ("recv", 3, 5), ("send", 5, 9)] = some c ∧
      c.nb_calls = (c.stopwatches.map (fun s => s.nb_calls)).sum ∧
      c.total_time
        = ([("send", 0, 3), ("recv", 3, 5), ("send", 5, 9)].map
            Communicator.Chronometer.delta).foldl (fun t d => t + d) 0 ∧
      (∀ label, c.time label
        = (([("send", (0 : ℤ), (3 : ℤ)), ("recv", 3, 5), ("send", 5, 9)].filter
            (fun p => p.1 = label)).map Communicator.Chronometer.delta).foldl
            (fun t d => t + d) 0) ∧
      c.total_time = (c.stopwatches.map (fun s => s.total_time)).sum :=
  ⟨exact_addition_of_monoid ℤ,
   (communicator_chronometer_sums [("send", 0, 3), ("recv", 3, 5), ("send", 5, 9)]).imp
     (fun _ h => ⟨h.1, h.2.1, h.2.2.1, h.2.2.2.1, h.2.2.2.2 (exact_addition_of_monoid ℤ)⟩)⟩

/-- C30 (as stated) fails in the arithmetic of `double`.  A send that takes
`0.1` and two receives that take `0.2` and `0.3`: the chronometer has
accumulated `(0.1 + 0.2) + 0.3 = 0.6000000000000001`, its stopwatches hold
`0.1` and `0.2 + 0.3 = 0.5`, whose sum is `0.6`. -/
theorem communicator_chronometer_double_counterexample :
    ((Communicator.Chronometer.create : Communicator.Chronometer Double).pairs
        [("send", 0, Double.ofRat (1 / 10)), ("recv", 0, Double.ofRat (2 / 10)),
          ("recv", 0, Double.ofRat (3 / 10))]).map
      (fun c => (c.total_time, c.stopwatches.map (fun s => s.total_time),
        (c.stopwatches.map (fun s => s.total_time)).sum))
      = some (⟨1351079888211149 / 2251799813685248⟩,
          [⟨3602879701896397 / 36028797018963968⟩, ⟨1 / 2⟩],
          ⟨5404319552844595 / 9007199254740992⟩) ∧
    (⟨1351079888211149 / 2251799813685248⟩ : Double) ≠ ⟨5404319552844595 / 9007199254740992⟩ := by
  decide!

/-! ## Multi-timers -/

theorem find_store_same (m : List (String × Option Nat)) (label : String)
    (chrono : Option Nat) :
    Chronos.find (MultiTimer.store m label chrono) label = chrono := by
  induction m with
  | nil => simp [MultiTimer.store, Chronos.find]
  | cons e rest ih =>
    obtain ⟨k, v⟩ := e
    by_cases hk : k = label
    · simp [MultiTimer.store, Chronos.find, hk]
    · simp [MultiTimer.store, Chronos.find, hk, ih]

/-- C26 (failing input: every timer and every label).  `subscribe<Chrono>(label)`
registers the new chronometer under `label`, so that `operator[](label)` returns it afterwards whatever was
registered there before, but the reference it returns itself is `*t` for the
pointer `t` that `register_as` has moved from: a null pointer, not the
chronometer. -/
theorem multitimer_subscribe_returns_null (m : MultiTimer) (label : String) :
    (m.subscribe label).2 = none ∧
    (m.subscribe label).1.index label = some m.allocated ∧
    (m.subscribe label).1.allocated = m.allocated + 1 := by
  refine ⟨rfl, ?_, rfl⟩
  exact find_store_same _ _ _

/-! ## Bounding boxes -/

theorem foldl_min_spec {K ι : Type} [LinearOrder K] (h : ι → K) (l : List ι) :
    ∀ a : K, l.foldl (fun m i => min m (h i)) a ≤ a ∧
      (∀ q ∈ l, l.foldl (fun m i => min m (h i)) a ≤ h q) ∧
      (l.foldl (fun m i => min m (h i)) a = a ∨
        ∃ p ∈ l, l.foldl (fun m i => min m (h i)) a = h p) := by
  induction l with
  | nil => intro a; simp
  | cons x rest ih =>
    intro a
    obtain ⟨h1, h2, h3⟩ := ih (min a (h x))
    simp only [List.foldl_cons]
    refine ⟨le_trans h1 (min_le_left _ _), ?_, ?_⟩
    · intro q hq
      rcases List.mem_cons.1 hq with rfl | hq
      · exact le_trans h1 (min_le_right _ _)
      · exact h2 q hq
    · rcases h3 with h3 | ⟨p, hp, h3⟩
      · rcases min_choice a (h x) with hm | hm
        · left; rw [h3, hm]
        · right; exact ⟨x, List.mem_cons_self _ _, by rw [h3, hm]⟩
      · right; exact ⟨p, List.mem_cons_of_mem _ hp, h3⟩

theorem foldl_max_spec {K ι : Type} [LinearOrder K] (h : ι → K) (l : List ι) :
    ∀ a : K, a ≤ l.foldl (fun m i => max m (h i)) a ∧
      (∀ q ∈ l, h q ≤ l.foldl (fun m i => max m (h i)) a) ∧
      (l.foldl (fun m i => max m (h i)) a = a ∨
        ∃ p ∈ l, l.foldl (fun m i => max m (h i)) a = h p) := by
  induction l with
  | nil => intro a; simp
  | cons x rest ih =>
    intro a
    obtain ⟨h1, h2, h3⟩ := ih (max a (h x))
    simp only [List.foldl_cons]
    refine ⟨le_trans (le_max_left _ _) h1, ?_, ?_⟩
    · intro q hq
      rcases List.mem_cons.1 hq with rfl | hq
      · exact le_trans (le_max_right _ _) h1
      · exact h2 q hq
    · rcases h3 with h3 | ⟨p, hp, h3⟩
      · rcases max_choice a (h x) with hm | hm
        · left; rw [h3, hm]
        · right; exact ⟨x, List.mem_cons_self _ _, by rw [h3, hm]⟩
      · right; exact ⟨p, List.mem_cons_of_mem _ hp, h3⟩

/-- The loop of `createBox` works on each coordinate by itself. -/
theorem createBox_fold {K : Type} [LinearOrder K] [Add K] [Sub K] (X Y Z : Nat → K) (tol : K)
    (g : Nat → Nat) (l : List Nat) :
    ∀ box : Geometry.Box K, ∀ d : Fin 3,
      (l.foldl (fun box i => Geometry.createBox.step X Y Z tol box (g i)) box).m_minCoords d
        = l.foldl (fun m i => min m (Geometry.coordinate X Y Z d (g i) - tol))
            (box.m_minCoords d) ∧
      (l.foldl (fun box i => Geometry.createBox.step X Y Z tol box (g i)) box).m_maxCoords d
        = l.foldl (fun m i => max m (Geometry.coordinate X Y Z d (g i) + tol))
            (box.m_maxCoords d) := by
  induction l with
  | nil => intro box d; simp
  | cons x rest ih =>
    intro box d
    simp only [List.foldl_cons]
    obtain ⟨h1, h2⟩ := ih (Geometry.createBox.step X Y Z tol box (g x)) d
    rw [h1, h2]
    fin_cases d <;> simp [Geometry.createBox.step, Geometry.coordinate]

/-- The offset of the `i`-th selected point. -/
theorem createBox_eq {K : Type} [LinearOrder K] [Zero K] [Add K] [Sub K] (n : Nat) (X Y Z : Nat → K)
    (indices : Option (Nat → Nat)) (stride : Nat) (box : Geometry.Box K) (tol : K) :
    ∃ g : Nat → Nat,
      Geometry.selected (n + 1) indices stride = (List.range (n + 1)).map g ∧
      Geometry.createBox (n + 1) X Y Z indices stride box tol
        = (List.range' 1 n).foldl
            (fun box i => Geometry.createBox.step X Y Z tol box (g i))
            (Geometry.createBox.first X Y Z tol (g 0)) := by
  cases indices with
  | none =>
    refine ⟨fun i => i * stride, rfl, ?_⟩
    simp [Geometry.createBox]
  | some f =>
    refine ⟨fun i => f i * stride, rfl, ?_⟩
    simp [Geometry.createBox]

/-- The bounding box of a non-empty selection, coordinate by coordinate. -/
theorem boundingBox_spec {K : Type} [LinearOrderedField K] (nbPoints : Nat) (X Y Z : Nat → K)
    (indices : Option (Nat → Nat)) (stride : Nat) (tol : K) (hn : 0 < nbPoints) (d : Fin 3) :
    (∃ p ∈ Geometry.selected nbPoints indices stride,
      (∀ q ∈ Geometry.selected nbPoints indices stride,
        Geometry.coordinate X Y Z d p ≤ Geometry.coordinate X Y Z d q) ∧
      (Geometry.compute_boundingBox nbPoints X Y Z indices stride tol).m_minCoords d
        = Geometry.coordinate X Y Z d p - tol) ∧
    (∃ p ∈ Geometry.selected nbPoints indices stride,
      (∀ q ∈ Geometry.selected nbPoints indices stride,
        Geometry.coordinate X Y Z d q ≤ Geometry.coordinate X Y Z d p) ∧
      (Geometry.compute_boundingBox nbPoints X Y Z indices stride tol).m_maxCoords d
        = Geometry.coordinate X Y Z d p + tol) := by
  obtain ⟨n, rfl⟩ : ∃ n, nbPoints = n + 1 := ⟨nbPoints - 1, by omega⟩
  obtain ⟨g, hsel, hbox⟩ := createBox_eq n X Y Z indices stride Geometry.Box.create tol
  obtain ⟨hmin, hmax⟩ := createBox_fold X Y Z tol g (List.range' 1 n)
    (Geometry.createBox.first X Y Z tol (g 0)) d
  have hfirst_min : (Geometry.createBox.first X Y Z tol (g 0)).m_minCoords d
      = Geometry.coordinate X Y Z d (g 0) - tol := by
    fin_cases d <;> simp [Geometry.createBox.first, Geometry.coordinate]
  have hfirst_max : (Geometry.createBox.first X Y Z tol (g 0)).m_maxCoords d
      = Geometry.coordinate X Y Z d (g 0) + tol := by
    fin_cases d <;> simp [Geometry.createBox.first, Geometry.coordinate]
  have hrange : List.range (n + 1) = 0 :: List.range' 1 n := by
    rw [List.range_eq_range', List.range'_succ]
  have hmem : ∀ q, q ∈ Geometry.selected (n + 1) indices stride ↔
      q = g 0 ∨ ∃ i ∈ List.range' 1 n, q = g i := by
    intro q
    rw [hsel, hrange]
    simp only [List.map_cons, List.mem_cons, List.mem_map]
    constructor
    · rintro (h | ⟨i, hi, rfl⟩)
      · exact Or.inl h
      · exact Or.inr ⟨i, hi, rfl⟩
    · rintro (h | ⟨i, hi, rfl⟩)
      · exact Or.inl h
      · exact Or.inr ⟨i, hi, rfl⟩
  unfold Geometry.compute_boundingBox
  rw [hbox, hmin, hmax, hfirst_min, hfirst_max]
  constructor
  · obtain ⟨h1, h2, h3⟩ := foldl_min_spec
      (fun i => Geometry.coordinate X Y Z d (g i) - tol) (List.range' 1 n)
      (Geometry.coordinate X Y Z d (g 0) - tol)
    have hall : ∀ q ∈ Geometry.selected (n + 1) indices stride,
        (List.range' 1 n).foldl
          (fun m i => min m (Geometry.coordinate X Y Z d (g i) - tol))
          (Geometry.coordinate X Y Z d (g 0) - tol)
          ≤ Geometry.coordinate X Y Z d q - tol := by
      intro q hq
      rcases (hmem q).1 hq with rfl | ⟨i, hi, rfl⟩
      · exact h1
      · exact h2 i hi
    rcases h3 with h3 | ⟨p, hp, h3⟩
    · refine ⟨g 0, (hmem _).2 (Or.inl rfl), ?_, h3⟩
      intro q hq
      have := hall q hq
      rw [h3] at this
      linarith
    · refine ⟨g p, (hmem _).2 (Or.inr ⟨p, hp, rfl⟩), ?_, h3⟩
      intro q hq
      have := hall q hq
      rw [h3] at this
      linarith
  · obtain ⟨h1, h2, h3⟩ := foldl_max_spec
      (fun i => Geometry.coordinate X Y Z d (g i) + tol) (List.range' 1 n)
      (Geometry.coordinate X Y Z d (g 0) + tol)
    have hall : ∀ q ∈ Geometry.selected (n + 1) indices stride,
        Geometry.coordinate X Y Z d q + tol ≤
        (List.range' 1 n).foldl
          (fun m i => max m (Geometry.coordinate X Y Z d (g i) + tol))
          (Geometry.coordinate X Y Z d (g 0) + tol) := by
      intro q hq
      rcases (hmem q).1 hq with rfl | ⟨i, hi, rfl⟩
      · exact h1
      · exact h2 i hi
    rcases h3 with h3 | ⟨p, hp, h3⟩
    · refine ⟨g 0, (hmem _).2 (Or.inl rfl), ?_, h3⟩
      intro q hq
      have := hall q hq
      rw [h3] at this
      linarith
    · refine ⟨g p, (hmem _).2 (Or.inr ⟨p, hp, rfl⟩), ?_, h3⟩
      intro q hq
      have := hall q hq
      rw [h3] at this
      linarith

/-- C22. `compute_boundingBox`, with or without an index list and for any
stride and tolerance: for zero points it returns the all-zero box; for a
non-empty selection, along each axis the minimum corner is the least
coordinate of the selected points minus `tol` and the maximum corner is the
greatest coordinate plus `tol`. -/
theorem compute_boundingBox_corners {K : Type} [LinearOrderedField K] (nbPoints : Nat)
    (X Y Z : Nat → K) (indices : Option (Nat → Nat)) (stride : Nat) (tol : K) :
    (nbPoints = 0 → ∀ d : Fin 3,
      (Geometry.compute_boundingBox nbPoints X Y Z indices stride tol).m_minCoords d = 0 ∧
      (Geometry.compute_boundingBox nbPoints X Y Z indices stride tol).m_maxCoords d = 0) ∧
    (0 < nbPoints → ∀ d : Fin 3,
      (∃ p ∈ Geometry.selected nbPoints indices stride,
        (∀ q ∈ Geometry.selected nbPoints indices stride,
          Geometry.coordinate X Y Z d p ≤ Geometry.coordinate X Y Z d q) ∧
        (Geometry.compute_boundingBox nbPoints X Y Z indices stride tol).m_minCoords d
          = Geometry.coordinate X Y Z d p - tol) ∧
      (∃ p ∈ Geometry.selected nbPoints indices stride,
        (∀ q ∈ Geometry.selected nbPoints indices stride,
          Geometry.coordinate X Y Z d q ≤ Geometry.coordinate X Y Z d p) ∧
        (Geometry.compute_boundingBox nbPoints X Y Z indices stride tol).m_maxCoords d
          = Geometry.coordinate X Y Z d p + tol)) := by
  constructor
  · intro h0 d
    subst h0
    fin_cases d <;>
      simp [Geometry.compute_boundingBox, Geometry.createBox, Geometry.Box.reset]
  · intro hn d
    exact boundingBox_spec nbPoints X Y Z indices stride tol hn d

/-- Witness of `compute_boundingBox_corners`: no point, and the three sample
points with the tolerance `1/1000`. -/
theorem compute_boundingBox_corners_witness :
    (∀ d : Fin 3,
      (Geometry.compute_boundingBox 0 Geometry.sample.X Geometry.sample.Y Geometry.sample.Z
        none 1 (1 / 1000)).m_minCoords d = 0 ∧
      (Geometry.compute_boundingBox 0 Geometry.sample.X Geometry.sample.Y Geometry.sample.Z
        none 1 (1 / 1000)).m_maxCoords d = 0) ∧
    (∀ d : Fin 3,
      (∃ p ∈ Geometry.selected 3 (some id) 1,
        (∀ q ∈ Geometry.selected 3 (some id) 1,
          Geometry.coordinate Geometry.sample.X Geometry.sample.Y Geometry.sample.Z d p
            ≤ Geometry.coordinate Geometry.sample.X Geometry.sample.Y Geometry.sample.Z d q) ∧
        (Geometry.compute_boundingBox 3 Geometry.sample.X Geometry.sample.Y Geometry.sample.Z
            (some id) 1 (1 / 1000)).m_minCoords d
          = Geometry.coordinate Geometry.sample.X Geometry.sample.Y Geometry.sample.Z d p
            - 1 / 1000) ∧
      (∃ p ∈ Geometry.selected 3 (some id) 1,
        (∀ q ∈ Geometry.selected 3 (some id) 1,
          Geometry.coordinate Geometry.sample.X Geometry.sample.Y Geometry.sample.Z d q
            ≤ Geometry.coordinate Geometry.sample.X Geometry.sample.Y Geometry.sample.Z d p) ∧
        (Geometry.compute_boundingBox 3 Geometry.sample.X Geometry.sample.Y Geometry.sample.Z
            (some id) 1 (1 / 1000)).m_maxCoords d
          = Geometry.coordinate Geometry.sample.X Geometry.sample.Y Geometry.sample.Z d p
            + 1 / 1000)) :=
  ⟨(compute_boundingBox_corners 0 Geometry.sample.X Geometry.sample.Y Geometry.sample.Z
      none 1 (1 / 1000)).1 rfl,
   (compute_boundingBox_corners 3 Geometry.sample.X Geometry.sample.Y Geometry.sample.Z
      (some id) 1 (1 / 1000)).2 (by decide)⟩

theorem swap_eq_comp (indices : Nat → Nat) (i j : Nat) :
    Geometry.swap indices i j = indices ∘ (Equiv.swap i j) := by
  funext k
  unfold Geometry.swap
  simp only [Function.comp, Function.update_apply, Equiv.swap_apply_def]
  by_cases hj : k = j
  · subst hj
    by_cases hi : k = i
    · simp [hi]
    · simp [hi]
  · by_cases hi : k = i
    · subst hi
      simp [hj]
    · simp [hi, hj]

/-- The loop of `sort` ends within `nbPoints - nbNdInBox` iterations; it
permutes the entries between the two counters and leaves the accepted points
first. -/
theorem sort_loop_spec {K : Type} [LinearOrder K] (box : Geometry.Box K)
    (X Y Z : Nat → K) (stride : Nat) :
    ∀ (fuel lo hi : Nat) (indices : Nat → Nat), lo ≤ hi → hi - lo ≤ fuel →
      ∃ (n1 : Nat) (σ : Equiv.Perm Nat),
        Geometry.sort.loop box X Y Z stride fuel lo hi indices = some (n1, indices ∘ σ) ∧
        lo ≤ n1 ∧ n1 ≤ hi ∧
        (∀ i, i < lo ∨ hi ≤ i → σ i = i) ∧
        (∀ i, lo ≤ i → i < n1 →
          box.strictly_contains X Y Z ((indices ∘ σ) i * stride) = true) ∧
        (∀ i, n1 ≤ i → i < hi →
          box.strictly_contains X Y Z ((indices ∘ σ) i * stride) = false) := by
  intro fuel
  induction fuel with
  | zero =>
    intro lo hi indices hle hfuel
    have : ¬ lo < hi := by omega
    refine ⟨lo, Equiv.refl _, ?_, le_refl _, hle, fun _ _ => rfl, ?_, ?_⟩
    · simp [Geometry.sort.loop, this]
    · intro i h1 h2; omega
    · intro i h1 h2; omega
  | succ fuel ih =>
    intro lo hi indices hle hfuel
    by_cases hlt : lo < hi
    · cases hin : box.strictly_contains X Y Z (indices lo * stride) with
      | true =>
        obtain ⟨n1, σ, hrun, h1, h2, hfix, hins, hout⟩ :=
          ih (lo + 1) hi indices (by omega) (by omega)
        refine ⟨n1, σ, ?_, by omega, h2, ?_, ?_, hout⟩
        · simp only [Geometry.sort.loop, hlt, if_true, hin]
          exact hrun
        · intro i hi'
          exact hfix i (by omega)
        · intro i hi1 hi2
          by_cases hlo : i = lo
          · subst hlo
            have : σ i = i := hfix i (by omega)
            simp only [Function.comp, this]
            exact hin
          · exact hins i (by omega) hi2
      | false =>
        obtain ⟨n1, σ, hrun, h1, h2, hfix, hins, hout⟩ :=
          ih lo (hi - 1) (Geometry.swap indices lo (hi - 1)) (by omega) (by omega)
        rw [swap_eq_comp] at hrun hins hout
        refine ⟨n1, σ.trans (Equiv.swap lo (hi - 1)), ?_, h1, by omega, ?_, ?_, ?_⟩
        · simp only [Geometry.sort.loop, hlt, if_true, hin]
          rw [swap_eq_comp]
          exact hrun
        · intro i hi'
          have hσ : σ i = i := hfix i (by omega)
          simp only [Equiv.trans_apply, hσ]
          exact Equiv.swap_apply_of_ne_of_ne (by omega) (by omega)
        · intro i hi1 hi2
          exact hins i hi1 hi2
        · intro i hi1 hi2
          by_cases hlast : i = hi - 1
          · subst hlast
            have hσ : σ (hi - 1) = hi - 1 := hfix _ (Or.inr (le_refl _))
            simp only [Function.comp, Equiv.trans_apply, hσ, Equiv.swap_apply_right]
            exact hin
          · exact hout i hi1 (by omega)
    · have : lo = hi := by omega
      subst this
      refine ⟨lo, Equiv.refl _, ?_, le_refl _, le_refl _, fun _ _ => rfl, ?_, ?_⟩
      · simp [Geometry.sort.loop]
      · intro i h1 h2; omega
      · intro i h1 h2; omega

/-- A permutation of the offsets that moves none from `n` on maps the first
`n` offsets onto themselves. -/
theorem perm_lt_of_fix (σ : Equiv.Perm Nat) (n : Nat) (hfix : ∀ i, n ≤ i → σ i = i)
    (i : Nat) (hi : i < n) : σ i < n := by
  by_contra h
  have h1 : σ (σ i) = σ i := hfix _ (by omega)
  have h2 : σ i = i := σ.injective h1
  omega

theorem map_perm_range (σ : Equiv.Perm Nat) (n : Nat) (hfix : ∀ i, n ≤ i → σ i = i)
    (indices : Nat → Nat) :
    List.Perm ((List.range n).map (indices ∘ σ)) ((List.range n).map indices) := by
  have hp : List.Perm ((List.range n).map σ) (List.range n) := by
    apply (List.perm_ext_iff_of_nodup
      ((List.nodup_range n).map σ.injective) (List.nodup_range n)).2
    intro a
    simp only [List.mem_map, List.mem_range]
    constructor
    · rintro ⟨i, hi, rfl⟩
      exact perm_lt_of_fix σ n hfix i hi
    · intro ha
      refine ⟨σ.symm a, ?_, by simp⟩
      apply perm_lt_of_fix σ.symm n _ a ha
      intro i hi
      have := hfix i hi
      rw [Equiv.symm_apply_eq]
      exact this.symm
  have := hp.map indices
  rwa [List.map_map] at this

/-- What `sort` returns. -/
theorem sort_spec {K : Type} [LinearOrder K] (box : Geometry.Box K) (n : Nat)
    (X Y Z : Nat → K) (indices : Nat → Nat) (stride : Nat) :
    ∃ (n1 : Nat) (σ : Equiv.Perm Nat),
      Geometry.sort box n X Y Z indices stride = some (n1, indices ∘ σ) ∧ n1 ≤ n ∧
      (∀ i, n ≤ i → σ i = i) ∧
      (∀ i, i < n1 → box.strictly_contains X Y Z ((indices ∘ σ) i * stride) = true) ∧
      (∀ i, n1 ≤ i → i < n →
        box.strictly_contains X Y Z ((indices ∘ σ) i * stride) = false) := by
  obtain ⟨n1, σ, hrun, _, h2, hfix, hins, hout⟩ :=
    sort_loop_spec box X Y Z stride n 0 n indices (Nat.zero_le _) (by omega)
  exact ⟨n1, σ, hrun, h2, fun i hi => hfix i (Or.inr hi), fun i hi => hins i (Nat.zero_le _) hi,
    hout⟩

/-- The direction that the search of `subdivideAdjustAndSort` returns holds a
greatest value, and is the first to hold it. -/
theorem dirSplt_spec {K : Type} [LinearOrder K] (r : Fin 3 → K) :
    (∀ d, ¬ r (Geometry.dirSplt r) < r d) ∧
    (∀ d, d < Geometry.dirSplt r → r d < r (Geometry.dirSplt r)) := by
  unfold Geometry.dirSplt
  by_cases h01 : r 0 < r 1
  · by_cases h12 : r 1 < r 2
    · simp only [h01, h12, if_true]
      constructor
      · intro d
        fin_cases d
        · exact lt_asymm (lt_trans h01 h12)
        · exact lt_asymm h12
        · exact lt_irrefl _
      · intro d hd
        fin_cases d
        · exact lt_trans h01 h12
        · exact h12
        · exact absurd hd (lt_irrefl _)
    · simp only [h01, h12, if_true, if_false]
      constructor
      · intro d
        fin_cases d
        · exact lt_asymm h01
        · exact lt_irrefl _
        · exact h12
      · intro d hd
        fin_cases d
        · exact h01
        · exact absurd hd (lt_irrefl _)
        · exact absurd hd (by decide)
  · by_cases h02 : r 0 < r 2
    · simp only [h01, h02, if_true, if_false]
      have h1 : r 1 < r 2 := lt_of_le_of_lt (not_lt.1 h01) h02
      constructor
      · intro d
        fin_cases d
        · exact lt_asymm h02
        · exact lt_asymm h1
        · exact lt_irrefl _
      · intro d hd
        fin_cases d
        · exact h02
        · exact h1
        · exact absurd hd (lt_irrefl _)
    · simp only [h01, h02, if_false]
      constructor
      · intro d
        fin_cases d
        · exact lt_irrefl _
        · exact h01
        · exact h02
      · intro d hd
        fin_cases d
        · exact absurd hd (lt_irrefl _)
        · exact absurd hd (by decide)
        · exact absurd hd (by decide)

/-- The direction that `subdivideAdjustAndSort` splits is the longest one, the
first among equals. -/
theorem dirSplt_longest {K : Type} [LinearOrder K] [Sub K] [Mul K] [OfScientific K]
    (box : Geometry.Box K) :
    Geometry.longest box
      (Geometry.dirSplt ![0.5 * box.length, 0.5 * box.width, 0.5 * box.depth]) := by
  have e : (![0.5 * box.length, 0.5 * box.width, 0.5 * box.depth] : Fin 3 → K)
      = Geometry.half_length box := by
    funext d
    fin_cases d <;> rfl
  rw [e]
  exact dirSplt_spec (Geometry.half_length box)

/-- The temporary box that `subdivideAdjustAndSort` builds is the first
half-box of `box` along the direction it splits. -/
theorem box1_eq_first_half_box {K : Type} [LinearOrder K] [Add K] [Sub K] [Mul K]
    [OfScientific K] (box : Geometry.Box K) :
    Geometry.subdivide.box1 box
      = Geometry.first_half_box box
          (Geometry.dirSplt ![0.5 * box.length, 0.5 * box.width, 0.5 * box.depth]) := by
  unfold Geometry.subdivide.box1
  simp only
  generalize Geometry.dirSplt ![0.5 * box.length, 0.5 * box.width, 0.5 * box.depth] = ds
  unfold Geometry.first_half_box
  rw [Geometry.Box.mk.injEq]
  constructor <;> funext d <;> fin_cases d <;> fin_cases ds <;>
    simp [Geometry.middle, Geometry.half_length, Geometry.Box.center, Geometry.Box.length,
      Geometry.Box.width, Geometry.Box.depth]

/-- C23. `subdivideAdjustAndSort` on any box, points and index array of `n`
entries returns counts `n1`, `n2` with `n1 + n2 = n`; the `n` entries of the
index array are a permutation of what they were (the entries beyond are
untouched); the first `n1` entries are points strictly inside the first
half-box of `box` along its longest direction and the last `n2` entries are
points that are not.  The first half-box is given from `box` by
`Geometry.first_half_box`, in the arithmetic of the coordinates, whatever it
is. -/
theorem subdivide_partitions {K : Type} [LinearOrder K] [Zero K] [Add K] [Sub K] [Mul K]
    [OfScientific K] (box : Geometry.Box K)
    (n : Nat) (X Y Z : Nat → K) (indices : Nat → Nat) (stride : Nat) (tol : K) :
    ∃ (n1 n2 : Nat) (subbox1 subbox2 : Geometry.Box K) (indices1 : Nat → Nat),
      Geometry.subdivideAdjustAndSort box n X Y Z indices stride tol
        = some ((n1, subbox1, n2, subbox2), indices1) ∧
      n1 + n2 = n ∧
      List.Perm ((List.range n).map indices1) ((List.range n).map indices) ∧
      (∀ i, n ≤ i → indices1 i = indices i) ∧
      ∃ ds : Fin 3, Geometry.longest box ds ∧
        (∀ i, i < n1 →
          (Geometry.first_half_box box ds).strictly_contains X Y Z (indices1 i * stride)
            = true) ∧
        (∀ i, n1 ≤ i → i < n →
          (Geometry.first_half_box box ds).strictly_contains X Y Z (indices1 i * stride)
            = false) := by
  obtain ⟨n1, σ, hrun, hle, hfix, hins, hout⟩ :=
    sort_spec (Geometry.subdivide.box1 box) n X Y Z indices stride
  refine ⟨n1, n - n1, Geometry.compute_boundingBox n1 X Y Z (some (indices ∘ σ)) stride tol,
    Geometry.compute_boundingBox (n - n1) X Y Z (some (fun i => (indices ∘ σ) (n1 + i)))
      stride tol,
    indices ∘ σ, ?_, by omega, map_perm_range σ n hfix indices, ?_,
    Geometry.dirSplt ![0.5 * box.length, 0.5 * box.width, 0.5 * box.depth],
    dirSplt_longest box, ?_, ?_⟩
  · simp [Geometry.subdivideAdjustAndSort, hrun]
  · intro i hi
    simp [Function.comp, hfix i hi]
  · rw [← box1_eq_first_half_box]
    exact hins
  · rw [← box1_eq_first_half_box]
    exact hout

/-- In exact arithmetic the first half-box reaches, along its direction, from
`1/2000` of the length below the box to `1/2000` of the length past its
middle, and it has the bounds of the box along the two other directions. -/
theorem first_half_box_exact {K : Type} [LinearOrderedField K] (box : Geometry.Box K)
    (ds d : Fin 3) :
    (Geometry.first_half_box box ds).m_minCoords d
      = (if d = ds then
          box.m_minCoords d - 1 / 2000 * (box.m_maxCoords d - box.m_minCoords d)
        else box.m_minCoords d) ∧
    (Geometry.first_half_box box ds).m_maxCoords d
      = (if d = ds then
          1 / 2 * (box.m_minCoords d + box.m_maxCoords d)
            + 1 / 2000 * (box.m_maxCoords d - box.m_minCoords d)
        else box.m_maxCoords d) := by
  unfold Geometry.first_half_box Geometry.middle Geometry.half_length
  by_cases h : d = ds
  · simp only [h, if_true]
    norm_num
    constructor <;> ring
  · simp only [h, if_false]
    norm_num
    constructor <;> ring

/-- In exact arithmetic a tolerance `tol > 0` puts every selected point
strictly inside the bounding box, hence strictly above the lower corner of the
temporary box of `subdivideAdjustAndSort` and, along the axes that are not
split, strictly below its upper corner. -/
theorem exact_tolerance_inside {K : Type} [LinearOrderedField K] (n : Nat) (X Y Z : Nat → K)
    (indices : Nat → Nat) (stride : Nat) (tol : K) (htol : 0 < tol)
    (indices0 : Option (Nat → Nat))
    (hsel : Geometry.selected n indices0 stride = Geometry.selected n (some indices) stride) :
    ∀ i, i < n → ∀ d : Fin 3,
      (Geometry.subdivide.box1
          (Geometry.compute_boundingBox n X Y Z indices0 stride tol)).m_minCoords d
        < Geometry.coordinate X Y Z d (indices i * stride) ∧
      (d ≠ Geometry.dirSplt
            ![0.5 * (Geometry.compute_boundingBox n X Y Z indices0 stride tol).length,
              0.5 * (Geometry.compute_boundingBox n X Y Z indices0 stride tol).width,
              0.5 * (Geometry.compute_boundingBox n X Y Z indices0 stride tol).depth] →
        Geometry.coordinate X Y Z d (indices i * stride)
          < (Geometry.subdivide.box1
              (Geometry.compute_boundingBox n X Y Z indices0 stride tol)).m_maxCoords d) := by
  intro i hi d
  have hn : 0 < n := by omega
  have hmem : indices i * stride ∈ Geometry.selected n indices0 stride := by
    rw [hsel]
    unfold Geometry.selected
    simp only [List.mem_map, List.mem_range]
    exact ⟨i, hi, rfl⟩
  obtain ⟨⟨p, _, hp, hmin⟩, ⟨q, _, hq, hmax⟩⟩ :=
    boundingBox_spec n X Y Z indices0 stride tol hn d
  have h1 := hp _ hmem
  have h2 := hq _ hmem
  rw [box1_eq_first_half_box]
  obtain ⟨e1, e2⟩ := first_half_box_exact
    (Geometry.compute_boundingBox n X Y Z indices0 stride tol)
    (Geometry.dirSplt
      ![0.5 * (Geometry.compute_boundingBox n X Y Z indices0 stride tol).length,
        0.5 * (Geometry.compute_boundingBox n X Y Z indices0 stride tol).width,
        0.5 * (Geometry.compute_boundingBox n X Y Z indices0 stride tol).depth]) d
  rw [e1, e2]
  constructor
  · split
    · rw [hmin, hmax]
      nlinarith
    · rw [hmin]
      linarith
  · intro hd
    rw [if_neg hd, hmax]
    linarith

/-- The same in the arithmetic of `double` with the tolerance `1e-6`, for three
points far from the origin: the roundings absorb the tolerance (`1e17 - 1e-6`
is `1e17`), the bounding box is tight, the first group is the third point
alone and it exceeds the first point along every axis. -/
theorem subdivide_absorbed_tolerance_example :
    (0 : Double) < 1e-6 ∧
    (Geometry.subdivideAdjustAndSort
        (Geometry.compute_boundingBox 3 Geometry.far.X Geometry.far.Y Geometry.far.Y none 1
          1e-6)
        3 Geometry.far.X Geometry.far.Y Geometry.far.Y id 1 1e-6).map
      (fun r => (r.1.1, (List.range 3).map r.2)) = some (1, [2, 1, 0]) ∧
    ∀ d : Fin 3, Geometry.coordinate Geometry.far.X Geometry.far.Y Geometry.far.Y d 0
      < Geometry.coordinate Geometry.far.X Geometry.far.Y Geometry.far.Y d 2 := by
  decide!

/-! ## Kd-trees -/

theorem to_size_t_of_nonneg (i : Int) (h0 : 0 ≤ i) (h1 : i < 2 ^ 31) :
    Geometry.to_size_t i = i.toNat := by
  unfold Geometry.to_size_t
  rw [Int.emod_eq_of_lt h0 (by omega)]

/-- A node the constructor does not subdivide. -/
theorem create_box_leaf {K : Type} [LinearOrder K] [Zero K] [Add K] [Sub K]
    [Mul K] [OfScientific K] (X Y Z : Nat → K)
    (minNbNodesInALeaf : Int) (PerComponent : Nat) (tol : K) (fuel nbNodes : Nat)
    (l2g : Nat → Nat) (pt : Nat) (bbox : Geometry.Box K)
    (h : ¬ nbNodes > Geometry.to_size_t minNbNodesInALeaf) :
    Geometry.KdTreeNode.create_box X Y Z minNbNodesInALeaf PerComponent tol (fuel + 1) nbNodes
      l2g pt bbox = some (.mk nbNodes pt none none bbox, l2g) := by
  simp [Geometry.KdTreeNode.create_box, h]

/-- C25 (failing input: two pre-sorted counts whose sum is at most
`minNbNodesInALeaf`).  The constructor of `KdTree` from two counts builds its
root from both groups whatever `minNbNodesInALeaf`: when the root holds
`nbNodes1 + nbNodes2 > 0` points and that is at most `minNbNodesInALeaf`, the
construction returns a root that holds these points and has a child. -/
theorem kdtree_two_counts_root_not_leaf {K : Type} [LinearOrder K] [Zero K] [Add K] [Sub K]
    [Mul K] [OfScientific K] (fuel : Nat)
    (nbNodes1 nbNodes2 : Nat) (X Y Z : Nat → K) (minNbNodesInALeaf : Int) (l2g : Nat → Nat)
    (stride PerComponent : Nat) (tol : K) (hpos : 0 < nbNodes1 + nbNodes2)
    (hle : ((nbNodes1 + nbNodes2 : Nat) : Int) ≤ minNbNodesInALeaf)
    (hint : minNbNodesInALeaf < 2 ^ 31) :
    ∃ root l2g1,
      Geometry.KdTree.create2 (fuel + 1) nbNodes1 nbNodes2 X Y Z minNbNodesInALeaf l2g stride
        PerComponent tol = some (some root, l2g1) ∧
      root.nbVertices = nbNodes1 + nbNodes2 ∧
      (root.nbVertices : Int) ≤ minNbNodesInALeaf ∧
      (root.leftChild.isSome = true ∨ root.rightChild.isSome = true) := by
  have hsz : Geometry.to_size_t minNbNodesInALeaf = minNbNodesInALeaf.toNat :=
    to_size_t_of_nonneg _ (by omega) hint
  have hleaf1 : ¬ nbNodes1 > Geometry.to_size_t minNbNodesInALeaf := by
    rw [hsz]; omega
  have hleaf2 : ¬ nbNodes2 > Geometry.to_size_t minNbNodesInALeaf := by
    rw [hsz]; omega
  unfold Geometry.KdTree.create2 Geometry.KdTreeNode.create2
  simp only [hpos, if_true, gt_iff_lt]
  rw [create_box_leaf _ _ _ _ _ _ _ _ _ _ _ hleaf1]
  by_cases h1 : 0 < nbNodes1
  · by_cases h2 : 0 < nbNodes2
    · simp only [h1, h2, if_true, Option.map_some', Option.bind_eq_bind, Option.some_bind]
      rw [create_box_leaf _ _ _ _ _ _ _ _ _ _ _ hleaf2]
      exact ⟨_, _, rfl, rfl, hle, Or.inl rfl⟩
    · simp only [h1, h2, if_true, if_false, Option.map_some', Option.bind_eq_bind,
        Option.some_bind]
      exact ⟨_, _, rfl, rfl, hle, Or.inl rfl⟩
  · have h2 : 0 < nbNodes2 := by omega
    simp only [h1, h2, if_true, if_false, Option.map_some', Option.bind_eq_bind,
      Option.some_bind]
    rw [create_box_leaf _ _ _ _ _ _ _ _ _ _ _ hleaf2]
    exact ⟨_, _, rfl, rfl, hle, Or.inr rfl⟩

/-- Witness of `kdtree_two_counts_root_not_leaf`: the three sample points as a
group of one and a group of two, with `minNbNodesInALeaf = 5`. -/
theorem kdtree_two_counts_root_not_leaf_witness :
    ∃ root l2g1,
      Geometry.KdTree.create2 (0 + 1) 1 2 Geometry.sample.X Geometry.sample.Y
        Geometry.sample.Z 5 id 1 1 (1 / 1000) = some (some root, l2g1) ∧
      root.nbVertices = 1 + 2 ∧
      (root.nbVertices : Int) ≤ 5 ∧
      (root.leftChild.isSome = true ∨ root.rightChild.isSome = true) :=
  kdtree_two_counts_root_not_leaf 0 1 2 Geometry.sample.X Geometry.sample.Y Geometry.sample.Z
    5 id 1 1 (1 / 1000) (by decide) (by decide) (by decide)

theorem step_coincident {K : Type} [LinearOrder K] [Add K] [Sub K] (x y z tol : K) (ind : Nat) :
    Geometry.createBox.step (fun _ => x) (fun _ => y) (fun _ => z) tol
        (Geometry.createBox.first (fun _ => x) (fun _ => y) (fun _ => z) tol 0) ind
      = Geometry.createBox.first (fun _ => x) (fun _ => y) (fun _ => z) tol 0 := by
  simp [Geometry.createBox.step, Geometry.createBox.first]

theorem foldl_step_coincident {K : Type} [LinearOrder K] [Add K] [Sub K] (x y z tol : K)
    (g : Nat → Nat) (l : List Nat) :
    l.foldl (fun box i => Geometry.createBox.step (fun _ => x) (fun _ => y) (fun _ => z) tol
        box (g i))
        (Geometry.createBox.first (fun _ => x) (fun _ => y) (fun _ => z) tol 0)
      = Geometry.createBox.first (fun _ => x) (fun _ => y) (fun _ => z) tol 0 := by
  induction l with
  | nil => rfl
  | cons a rest ih => rw [List.foldl_cons, step_coincident, ih]

/-- The bounding box of coincident points. -/
theorem boundingBox_coincident {K : Type} [LinearOrder K] [Zero K] [Add K] [Sub K] (x y z tol : K) (n : Nat)
    (hn : 0 < n) (indices : Option (Nat → Nat)) (stride : Nat) :
    Geometry.compute_boundingBox n (fun _ => x) (fun _ => y) (fun _ => z) indices stride tol
      = Geometry.createBox.first (fun _ => x) (fun _ => y) (fun _ => z) tol 0 := by
  unfold Geometry.compute_boundingBox Geometry.createBox
  have h0 : ¬ n = 0 := by omega
  simp only [h0, if_false]
  cases indices with
  | none => exact foldl_step_coincident x y z tol (fun i => i * stride) _
  | some f => exact foldl_step_coincident x y z tol (fun i => f i * stride) _

/-- Coincident points all go to one group. -/
theorem subdivide_coincident {K : Type} [LinearOrder K] [Zero K] [Add K] [Sub K]
    [Mul K] [OfScientific K] (x y z tol : K) (n : Nat)
    (hn : 0 < n) (box : Geometry.Box K) (indices : Nat → Nat) (stride : Nat) :
    ∃ (sb : Geometry.Box K) (indices1 : Nat → Nat),
      Geometry.subdivideAdjustAndSort box n (fun _ => x) (fun _ => y) (fun _ => z) indices
          stride tol
        = some ((n, Geometry.createBox.first (fun _ => x) (fun _ => y) (fun _ => z) tol 0,
            0, sb), indices1) ∨
      Geometry.subdivideAdjustAndSort box n (fun _ => x) (fun _ => y) (fun _ => z) indices
          stride tol
        = some ((0, sb, n,
            Geometry.createBox.first (fun _ => x) (fun _ => y) (fun _ => z) tol 0),
            indices1) := by
  obtain ⟨n1, σ, hrun, hle, _, hins, hout⟩ :=
    sort_spec (Geometry.subdivide.box1 box) n (fun _ => x) (fun _ => y) (fun _ => z)
      indices stride
  have huni : ∀ ind, (Geometry.subdivide.box1 box).strictly_contains
      (fun _ => x) (fun _ => y) (fun _ => z) ind
      = (Geometry.subdivide.box1 box).strictly_contains
          (fun _ => x) (fun _ => y) (fun _ => z) 0 := fun _ => rfl
  cases hb : (Geometry.subdivide.box1 box).strictly_contains
      (fun _ => x) (fun _ => y) (fun _ => z) 0 with
  | true =>
    have hn1 : n1 = n := by
      by_contra hne
      have := hout n1 (le_refl _) (by omega)
      rw [huni, hb] at this
      exact absurd this (by simp)
    subst hn1
    refine ⟨Geometry.compute_boundingBox 0 (fun _ => x) (fun _ => y) (fun _ => z)
      (some (fun i => (indices ∘ σ) (n1 + i))) stride tol, indices ∘ σ, Or.inl ?_⟩
    simp only [Geometry.subdivideAdjustAndSort, hrun, Option.bind_eq_bind, Option.some_bind,
      Nat.sub_self]
    rw [boundingBox_coincident x y z tol n1 hn]
  | false =>
    have hn1 : n1 = 0 := by
      by_contra hne
      have := hins 0 (by omega)
      rw [huni, hb] at this
      exact absurd this (by simp)
    subst hn1
    refine ⟨Geometry.compute_boundingBox 0 (fun _ => x) (fun _ => y) (fun _ => z)
      (some (indices ∘ σ)) stride tol, indices ∘ σ, Or.inr ?_⟩
    simp only [Geometry.subdivideAdjustAndSort, hrun, Option.bind_eq_bind, Option.some_bind,
      Nat.sub_zero]
    rw [boundingBox_coincident x y z tol n hn]

/-- The constructor of a node on coincident points, more of them than
`minNbNodesInALeaf`, with their bounding box: it returns within no depth. -/
theorem create_box_coincident {K : Type} [LinearOrder K] [Zero K] [Add K] [Sub K]
    [Mul K] [OfScientific K] (x y z tol : K) (n : Nat)
    (minNbNodesInALeaf : Int) (PerComponent : Nat) (hn : 0 < n)
    (hmin : n > Geometry.to_size_t minNbNodesInALeaf) :
    ∀ (fuel : Nat) (l2g : Nat → Nat) (pt : Nat),
      Geometry.KdTreeNode.create_box (fun _ => x) (fun _ => y) (fun _ => z)
        minNbNodesInALeaf PerComponent tol fuel n l2g pt
        (Geometry.createBox.first (fun _ => x) (fun _ => y) (fun _ => z) tol 0) = none := by
  intro fuel
  induction fuel with
  | zero => intro l2g pt; rfl
  | succ fuel ih =>
    intro l2g pt
    obtain ⟨sb, l2g1, h | h⟩ := subdivide_coincident x y z tol n hn
      (Geometry.createBox.first (fun _ => x) (fun _ => y) (fun _ => z) tol 0) l2g PerComponent
    · simp only [Geometry.KdTreeNode.create_box, hmin, if_true, h, Option.bind_eq_bind,
        Option.some_bind, hn, gt_iff_lt, ih l2g1 pt, Option.map_none', Option.none_bind]
    · simp only [Geometry.KdTreeNode.create_box, hmin, if_true, h, Option.bind_eq_bind,
        Option.some_bind, hn, gt_iff_lt, lt_self_iff_false, if_false,
        ih (fun i => l2g1 (0 + i)) (pt + 0), Option.map_none', Option.none_bind]

/-- C28 (failing input: coincident points, more of them than
`minNbNodesInALeaf`).  On `nbNodes` coincident points, `nbNodes` being more than
`minNbNodesInALeaf >= 1`, the construction of a `KdTree` returns within no
depth of recursion: all the points go to one child, which is built on the same
number of points with the same box. -/
theorem kdtree_coincident_never_returns {K : Type} [LinearOrder K] [Zero K] [Add K] [Sub K]
    [Mul K] [OfScientific K] (x y z tol : K)
    (nbNodes : Nat) (minNbNodesInALeaf : Int) (l2g : Nat → Nat) (stride PerComponent : Nat)
    (hmin : 1 ≤ minNbNodesInALeaf) (hint : minNbNodesInALeaf < 2 ^ 31)
    (hn : minNbNodesInALeaf < nbNodes) :
    ∀ fuel : Nat,
      Geometry.KdTree.create fuel nbNodes (fun _ => x) (fun _ => y) (fun _ => z)
        minNbNodesInALeaf l2g stride PerComponent tol = none := by
  intro fuel
  have hsz : Geometry.to_size_t minNbNodesInALeaf = minNbNodesInALeaf.toNat :=
    to_size_t_of_nonneg _ (by omega) hint
  have hpos : 0 < nbNodes := by omega
  have hgt : nbNodes > Geometry.to_size_t minNbNodesInALeaf := by
    rw [hsz]; omega
  unfold Geometry.KdTree.create Geometry.KdTreeNode.create
  simp only [hpos, if_true, gt_iff_lt]
  rw [boundingBox_coincident x y z tol nbNodes hpos,
    create_box_coincident x y z tol nbNodes minNbNodesInALeaf PerComponent hpos hgt]
  rfl

/-- Witness of `kdtree_coincident_never_returns`: two points at the origin,
`minNbNodesInALeaf = 1`, the tolerance `1/1000`, the depth 1000. -/
theorem kdtree_coincident_never_returns_witness :
    Geometry.KdTree.create 1000 2 (fun _ => (0 : ℚ)) (fun _ => (0 : ℚ)) (fun _ => (0 : ℚ))
      1 id 1 1 (1 / 1000) = none :=
  kdtree_coincident_never_returns 0 0 0 (1 / 1000) 2 1 id 1 1 (by decide) (by decide)
    (by decide) 1000

end Parallel
